import Mathlib

/-!
# Loom: policy matching, logger format strings and the collection pass

A shallow embedding of the policy queries of `PolicyFile.cc`
(`CallHooks`, `FnHooks`, `StructTypeMatters`, `FieldReadHook`,
`FieldWriteHook`, the global hooks, `InstrName`, `MatchName`), of the
format-string builders of `Logger.cc`, of the probe call of
`DTraceLogger.cc` and of the driver of `OptPass.cc`, followed by theorems
about them.

C++ `std::string` / `llvm::StringRef` values are Lean `String`s; `for` loops
with an early `return` are recursive functions over the list being iterated.
-/

namespace Loom

/-! ## Regular expressions

`PolicyFile::MatchName` builds an `llvm::Regex` from the pattern, asks whether
it `isValid` and then calls `match`.  `llvm::Regex` belongs to the LLVM support
library, so the policy queries below take the regex engine as a parameter and
their theorems hold for every engine.  A concrete engine, `llvmRegex`, follows
the library: patterns and candidates are byte strings, a pattern is compiled
as a POSIX extended regular expression, and `match` searches the candidate. -/

/-- A compiled `llvm::Regex`: whether compilation succeeded (`isValid`) and
the search function (`match`, here `matchStr`). -/
structure Regex where
  isValid : Bool
  matchStr : String → Bool

/-- The `llvm::Regex(pattern)` constructor. -/
abbrev RegexEngine := String → Regex

/-- The UTF-8 encoding of a character as a list of byte values. -/
def utf8 (c : Char) : List Nat :=
  let n := c.toNat
  if n < 0x80 then [n]
  else if n < 0x800 then [0xC0 + n / 0x40, 0x80 + n % 0x40]
  else if n < 0x10000 then [0xE0 + n / 0x1000, 0x80 + n / 0x40 % 0x40, 0x80 + n % 0x40]
  else [0xF0 + n / 0x40000, 0x80 + n / 0x1000 % 0x40, 0x80 + n / 0x40 % 0x40, 0x80 + n % 0x40]

/-- The bytes of a string: `llvm::Regex` compiles and matches `char` arrays. -/
def bytes (s : String) : List Nat := s.data.flatMap utf8

/-- The byte value of an ASCII character. -/
def ch (c : Char) : Nat := c.toNat

/-- `isdigit` in the C locale. -/
def isdigit (c : Nat) : Bool := decide (48 ≤ c) && decide (c ≤ 57)

/-- `isalpha` in the C locale. -/
def isalpha (c : Nat) : Bool :=
  (decide (65 ≤ c) && decide (c ≤ 90)) || (decide (97 ≤ c) && decide (c ≤ 122))

/-- `ISWORD`: `isalnum(c) || c == '_'`. -/
def ISWORD (c : Nat) : Bool := isalpha c || isdigit c || decide (c = 95)

/-- The position of a byte in the order of `char` values where `char` is
signed: the bytes `0x80..0xFF` (negative) come before `0x00..0x7F`. -/
def charOrder (b : Nat) : Nat := (b + 128) % 256

/-- Abstract syntax of a compiled pattern (the `strip` of `regcomp`).
`plus` is `OPLUS_ … O_PLUS`, `alt` is `OCH_ … O_CH`, `group` is
`OLPAREN … ORPAREN`, and `backref n body` is `OBACK_ n`, the copy of the
operand of group `n` that `regcomp` emits after it, and `O_BACK n`. -/
inductive RE where
  | empty : RE
  | chr (b : Nat) : RE
  | any : RE
  | set (invert : Bool) (ranges : List (Nat × Nat)) : RE
  | bol : RE
  | eol : RE
  | bow : RE
  | eow : RE
  | seq (a b : RE) : RE
  | alt (a b : RE) : RE
  | plus (a : RE) : RE
  | group (n : Nat) (a : RE) : RE
  | backref (n : Nat) (body : RE) : RE
  deriving Repr, DecidableEq

namespace RE

/-- Membership of a byte in a bracket expression: the set holds the bytes of
its ranges, each range running from its first to its last byte in the order
of `char` values. -/
def inSet (invert : Bool) (ranges : List (Nat × Nat)) (b : Nat) : Bool :=
  (ranges.any fun r =>
    decide (charOrder r.1 ≤ charOrder b) && decide (charOrder b ≤ charOrder r.2)) != invert

/-- Is position `i` of `s` the beginning of a word? -/
def atBow (s : List Nat) (i : Nat) : Bool :=
  (decide (i = 0) || (match s.get? (i - 1) with
    | some b => !ISWORD b
    | none => false)) &&
  (match s.get? i with
    | some b => ISWORD b
    | none => false)

/-- Is position `i` of `s` the end of a word? -/
def atEow (s : List Nat) (i : Nat) : Bool :=
  (decide (0 < i) && (match s.get? (i - 1) with
    | some b => ISWORD b
    | none => false)) &&
  (match s.get? i with
    | some b => !ISWORD b
    | none => true)

/-- End positions of one or more iterations from position `i`; `f` gives the
end positions of one iteration.  Only iterations that consume input are
followed by another, so `fuel` bounds the number of bytes left. -/
def plusEnds (f : Nat → List Nat) : Nat → Nat → List Nat
  | 0, i => f i
  | fuel + 1, i => f i ++ ((f i).filter fun j => decide (i < j)).flatMap (plusEnds f fuel)

/-- The state-set matcher (`fast` / `slow` with `step`): all positions `j`
such that the expression matches `s` from position `i` up to position `j`.
Parentheses and the back-reference markers are passed over, so a
back-reference stands for the copy of its group's operand. -/
def ends (s : List Nat) : RE → Nat → List Nat
  | empty, i => [i]
  | chr b, i => if s.get? i = some b then [i + 1] else []
  | any, i => if i < s.length then [i + 1] else []
  | set invert ranges, i =>
      match s.get? i with
      | some b => if inSet invert ranges b then [i + 1] else []
      | none => []
  | bol, i => if i = 0 then [i] else []
  | eol, i => if i = s.length then [i] else []
  | bow, i => if atBow s i then [i] else []
  | eow, i => if atEow s i then [i] else []
  | seq a b, i => (ends s a i).flatMap (ends s b)
  | alt a b, i => ends s a i ++ ends s b i
  | plus a, i => plusEnds (ends s a) (s.length - i) i
  | group _ a, i => ends s a i
  | backref _ body, i => ends s body i

/-- The sub-expression offsets (`pmatch`): the latest entry of a group
number holds the start and end of its last match. -/
abbrev Env := List (Nat × Nat × Nat)

/-- The part of `s` from position `a` up to position `b`. -/
def slice (s : List Nat) (a b : Nat) : List Nat := (s.drop a).take (b - a)

/-- One or more iterations in the backtracking matcher: after an iteration
that consumed nothing the loop is left (`O_PLUS` with `sp == lastpos`). -/
def plusEndsB (f : Nat × Env → List (Nat × Env)) : Nat → Nat × Env → List (Nat × Env)
  | 0, x => f x
  | fuel + 1, x =>
      f x ++ ((f x).filter fun y => decide (x.1 < y.1)).flatMap (plusEndsB f fuel)

/-- The backtracking matcher (`backref`): all positions and sub-expression
offsets with which the expression matches `s` from position `x.1` with
offsets `x.2`.  A back-reference matches the text its group matched last and
fails when the group has not matched. -/
def endsB (s : List Nat) : RE → Nat × Env → List (Nat × Env)
  | empty, x => [x]
  | chr b, x => if s.get? x.1 = some b then [(x.1 + 1, x.2)] else []
  | any, x => if x.1 < s.length then [(x.1 + 1, x.2)] else []
  | set invert ranges, x =>
      match s.get? x.1 with
      | some b => if inSet invert ranges b then [(x.1 + 1, x.2)] else []
      | none => []
  | bol, x => if x.1 = 0 then [x] else []
  | eol, x => if x.1 = s.length then [x] else []
  | bow, x => if atBow s x.1 then [x] else []
  | eow, x => if atEow s x.1 then [x] else []
  | seq a b, x => (endsB s a x).flatMap (endsB s b)
  | alt a b, x => endsB s a x ++ endsB s b x
  | plus a, x => plusEndsB (endsB s a) (s.length - x.1) x
  | group n a, x => (endsB s a x).map fun y => (y.1, (n, x.1, y.1) :: y.2)
  | backref n _, x =>
      match x.2.lookup n with
      | some (so, eo) =>
          if x.1 + (eo - so) ≤ s.length ∧ slice s x.1 (x.1 + (eo - so)) = slice s so eo then
            [(x.1 + (eo - so), x.2)]
          else []
      | none => []

/-- The loop of `matcher`: is there a start `i` and an end `j` between which
the state-set matcher matches and, when the pattern has back-references, the
backtracking matcher matches too? -/
def search (r : RE) (backrefs : Bool) (s : List Nat) : Bool :=
  (List.range (s.length + 1)).any fun i =>
    (ends s r i).any fun j =>
      !backrefs || (endsB s r (i, [])).any fun y => decide (y.1 = j)

end RE

namespace RE

/-- The meaning of an expression for the state-set matcher:
`Matches s r i j` holds when `r` matches the part of `s` from position `i`
up to position `j`; the anchors `^` and `$` stand for the start and the end
of the whole of `s`, and a back-reference stands for the operand of its
group. -/
inductive Matches (s : List Nat) : RE → Nat → Nat → Prop where
  | empty (i : Nat) : Matches s RE.empty i i
  | chr (b : Nat) (i : Nat) : s.get? i = some b → Matches s (RE.chr b) i (i + 1)
  | any (i : Nat) : i < s.length → Matches s RE.any i (i + 1)
  | set (invert : Bool) (ranges : List (Nat × Nat)) (b : Nat) (i : Nat) :
      s.get? i = some b → inSet invert ranges b = true →
      Matches s (RE.set invert ranges) i (i + 1)
  | bol : Matches s RE.bol 0 0
  | eol : Matches s RE.eol s.length s.length
  | bow (i : Nat) : atBow s i = true → Matches s RE.bow i i
  | eow (i : Nat) : atEow s i = true → Matches s RE.eow i i
  | seq (a b : RE) (i k j : Nat) :
      Matches s a i k → Matches s b k j → Matches s (RE.seq a b) i j
  | altLeft (a b : RE) (i j : Nat) : Matches s a i j → Matches s (RE.alt a b) i j
  | altRight (a b : RE) (i j : Nat) : Matches s b i j → Matches s (RE.alt a b) i j
  | plusOne (a : RE) (i j : Nat) : Matches s a i j → Matches s (RE.plus a) i j
  | plusCons (a : RE) (i k j : Nat) :
      Matches s a i k → Matches s (RE.plus a) k j → Matches s (RE.plus a) i j
  | group (n : Nat) (a : RE) (i j : Nat) : Matches s a i j → Matches s (RE.group n a) i j
  | backref (n : Nat) (body : RE) (i j : Nat) :
      Matches s body i j → Matches s (RE.backref n body) i j

/-- The meaning of an expression with sub-expression offsets:
`MatchesB s r (i, e) (j, f)` holds when `r` matches the part of `s` from
position `i` up to position `j`, starting with the offsets `e` and ending
with the offsets `f`.  A group records where it matched; a back-reference
matches the text its group matched last. -/
inductive MatchesB (s : List Nat) : RE → Nat × Env → Nat × Env → Prop where
  | empty (x : Nat × Env) : MatchesB s RE.empty x x
  | chr (b : Nat) (x : Nat × Env) :
      s.get? x.1 = some b → MatchesB s (RE.chr b) x (x.1 + 1, x.2)
  | any (x : Nat × Env) : x.1 < s.length → MatchesB s RE.any x (x.1 + 1, x.2)
  | set (invert : Bool) (ranges : List (Nat × Nat)) (b : Nat) (x : Nat × Env) :
      s.get? x.1 = some b → inSet invert ranges b = true →
      MatchesB s (RE.set invert ranges) x (x.1 + 1, x.2)
  | bol (x : Nat × Env) : x.1 = 0 → MatchesB s RE.bol x x
  | eol (x : Nat × Env) : x.1 = s.length → MatchesB s RE.eol x x
  | bow (x : Nat × Env) : atBow s x.1 = true → MatchesB s RE.bow x x
  | eow (x : Nat × Env) : atEow s x.1 = true → MatchesB s RE.eow x x
  | seq (a b : RE) (x y z : Nat × Env) :
      MatchesB s a x y → MatchesB s b y z → MatchesB s (RE.seq a b) x z
  | altLeft (a b : RE) (x y : Nat × Env) : MatchesB s a x y → MatchesB s (RE.alt a b) x y
  | altRight (a b : RE) (x y : Nat × Env) : MatchesB s b x y → MatchesB s (RE.alt a b) x y
  | plusOne (a : RE) (x y : Nat × Env) : MatchesB s a x y → MatchesB s (RE.plus a) x y
  | plusCons (a : RE) (x y z : Nat × Env) :
      MatchesB s a x y → x.1 < y.1 → MatchesB s (RE.plus a) y z →
      MatchesB s (RE.plus a) x z
  | group (n : Nat) (a : RE) (x y : Nat × Env) :
      MatchesB s a x y → MatchesB s (RE.group n a) x (y.1, (n, x.1, y.1) :: y.2)
  | backref (n : Nat) (body : RE) (x : Nat × Env) (so eo : Nat) :
      x.2.lookup n = some (so, eo) → x.1 + (eo - so) ≤ s.length →
      slice s x.1 (x.1 + (eo - so)) = slice s so eo →
      MatchesB s (RE.backref n body) x (x.1 + (eo - so), x.2)

end RE

/-! ### Parsing (`regcomp` with `REG_EXTENDED`) -/

/-- `DUPMAX`, the largest repetition count of a bound. -/
def DUPMAX : Nat := 255

/-- `NPAREN`: only groups numbered below it can be referred back to. -/
def NPAREN : Nat := 10

/-- The character classes of `regcclass.h`, as ranges of bytes. -/
def cclasses : List (String × List (Nat × Nat)) :=
  [("alnum", [(65, 90), (97, 122), (48, 57)]),
   ("alpha", [(65, 90), (97, 122)]),
   ("blank", [(32, 32), (9, 9)]),
   ("cntrl", [(1, 31), (127, 127)]),
   ("digit", [(48, 57)]),
   ("graph", [(33, 126)]),
   ("lower", [(97, 122)]),
   ("print", [(32, 126)]),
   ("punct", [(33, 47), (58, 64), (91, 96), (123, 126)]),
   ("space", [(9, 13), (32, 32)]),
   ("upper", [(65, 90)]),
   ("xdigit", [(48, 57), (65, 70), (97, 102)])]

/-- The names of collating elements of `regcname.h`. -/
def cnames : List (String × Nat) :=
  [("NUL", 0), ("SOH", 1), ("STX", 2), ("ETX", 3), ("EOT", 4), ("ENQ", 5), ("ACK", 6),
   ("BEL", 7), ("alert", 7), ("BS", 8), ("backspace", 8), ("HT", 9), ("tab", 9),
   ("LF", 10), ("newline", 10), ("VT", 11), ("vertical-tab", 11), ("FF", 12),
   ("form-feed", 12), ("CR", 13), ("carriage-return", 13), ("SO", 14), ("SI", 15),
   ("DLE", 16), ("DC1", 17), ("DC2", 18), ("DC3", 19), ("DC4", 20), ("NAK", 21),
   ("SYN", 22), ("ETB", 23), ("CAN", 24), ("EM", 25), ("SUB", 26), ("ESC", 27),
   ("IS4", 28), ("FS", 28), ("IS3", 29), ("GS", 29), ("IS2", 30), ("RS", 30),
   ("IS1", 31), ("US", 31), ("space", 32), ("exclamation-mark", 33),
   ("quotation-mark", 34), ("number-sign", 35), ("dollar-sign", 36),
   ("percent-sign", 37), ("ampersand", 38), ("apostrophe", 39),
   ("left-parenthesis", 40), ("right-parenthesis", 41), ("asterisk", 42),
   ("plus-sign", 43), ("comma", 44), ("hyphen", 45), ("hyphen-minus", 45),
   ("period", 46), ("full-stop", 46), ("slash", 47), ("solidus", 47), ("zero", 48),
   ("one", 49), ("two", 50), ("three", 51), ("four", 52), ("five", 53), ("six", 54),
   ("seven", 55), ("eight", 56), ("nine", 57), ("colon", 58), ("semicolon", 59),
   ("less-than-sign", 60), ("equals-sign", 61), ("greater-than-sign", 62),
   ("question-mark", 63), ("commercial-at", 64), ("left-square-bracket", 91),
   ("backslash", 92), ("reverse-solidus", 92), ("right-square-bracket", 93),
   ("circumflex", 94), ("circumflex-accent", 94), ("underscore", 95), ("low-line", 95),
   ("grave-accent", 96), ("left-brace", 123), ("left-curly-bracket", 123),
   ("vertical-line", 124), ("right-brace", 125), ("right-curly-bracket", 125),
   ("tilde", 126), ("DEL", 127)]

/-- The longest prefix of the input made of letters, and the rest. -/
def spanAlpha : List Nat → List Nat × List Nat
  | [] => ([], [])
  | c :: rest =>
      if isalpha c then ((spanAlpha rest).1.cons c, (spanAlpha rest).2) else ([], c :: rest)

/-- `p_b_cclass`: the name of a character class, looked up in `cclasses`. -/
def p_b_cclass (inp : List Nat) : Option (List (Nat × Nat) × List Nat) :=
  match cclasses.find? fun e => decide (bytes e.1 = (spanAlpha inp).1) with
  | some e => some (e.2, (spanAlpha inp).2)
  | none => none

/-- The input up to the first occurrence of `endc` followed by `]`, and the
rest starting at that occurrence; `none` when there is no such occurrence. -/
def spanCollElem (endc : Nat) : List Nat → Option (List Nat × List Nat)
  | [] => none
  | c :: rest =>
      if c = endc ∧ rest.head? = some (ch ']') then some ([], c :: rest)
      else (spanCollElem endc rest).map fun r => (c :: r.1, r.2)

/-- `p_b_coll_elem`: a collating element, a name of `cnames` or a single
byte. -/
def p_b_coll_elem (endc : Nat) (inp : List Nat) : Option (Nat × List Nat) :=
  match spanCollElem endc inp with
  | none => none
  | some (name, rest) =>
      match cnames.find? fun e => decide (bytes e.1 = name) with
      | some e => some (e.2, rest)
      | none =>
          match name with
          | [c] => some (c, rest)
          | _ => none

/-- `p_b_symbol`: one byte, or a collating symbol `[.name.]`. -/
def p_b_symbol (inp : List Nat) : Option (Nat × List Nat) :=
  match inp with
  | [] => none
  | c :: rest =>
      if c = ch '[' ∧ rest.head? = some (ch '.') then
        match p_b_coll_elem (ch '.') rest.tail with
        | some (v, r) =>
            match r with
            | d :: e :: r2 => if d = ch '.' ∧ e = ch ']' then some (v, r2) else none
            | _ => none
        | none => none
      else some (c, rest)

/-- `p_b_term`: one term of a bracket expression, a character class
`[:name:]`, an equivalence class `[=x=]`, a symbol or a range. -/
def p_b_term (inp : List Nat) : Option (List (Nat × Nat) × List Nat) :=
  match inp with
  | [] => none
  | c :: rest =>
      if c = ch '-' then none
      else if c = ch '[' ∧ rest.head? = some (ch ':') then
        match rest.tail with
        | [] => none
        | c2 :: rest2 =>
            if c2 = ch '-' ∨ c2 = ch ']' then none
            else
              match p_b_cclass (c2 :: rest2) with
              | some (items, d :: e :: r2) =>
                  if d = ch ':' ∧ e = ch ']' then some (items, r2) else none
              | _ => none
      else if c = ch '[' ∧ rest.head? = some (ch '=') then
        match rest.tail with
        | [] => none
        | c2 :: rest2 =>
            if c2 = ch '-' ∨ c2 = ch ']' then none
            else
              match p_b_coll_elem (ch '=') (c2 :: rest2) with
              | some (v, d :: e :: r2) =>
                  if d = ch '=' ∧ e = ch ']' then some ([(v, v)], r2) else none
              | _ => none
      else
        match p_b_symbol inp with
        | none => none
        | some (start, r) =>
            match r with
            | d :: e :: r2 =>
                if d = ch '-' ∧ e ≠ ch ']' then
                  if e = ch '-' then
                    if charOrder start ≤ charOrder (ch '-') then some ([(start, ch '-')], r2)
                    else none
                  else
                    match p_b_symbol (e :: r2) with
                    | some (finish, r3) =>
                        if charOrder start ≤ charOrder finish then some ([(start, finish)], r3)
                        else none
                    | none => none
                else some ([(start, start)], r)
            | _ => some ([(start, start)], r)

/-- The loop of `p_bracket` over the terms, up to the closing `]` or a final
`-]`. -/
def p_b_terms : Nat → List Nat → List (Nat × Nat) → Option (List (Nat × Nat) × List Nat)
  | 0, _, _ => none
  | fuel + 1, inp, acc =>
      match inp with
      | [] => some (acc, [])
      | c :: rest =>
          if c = ch ']' then some (acc, inp)
          else if c = ch '-' ∧ rest.head? = some (ch ']') then some (acc, inp)
          else
            match p_b_term inp with
            | some (items, r) => p_b_terms fuel r (acc ++ items)
            | none => none

/-- `p_bracket`; the input starts just after the opening `[`.  The two
forms `[[:<:]]` and `[[:>:]]` stand for the beginning and the end of a
word. -/
def p_bracket (inp : List Nat) : Option (RE × List Nat) :=
  if inp.take 6 = bytes "[:<:]]" then some (RE.bow, inp.drop 6)
  else if inp.take 6 = bytes "[:>:]]" then some (RE.eow, inp.drop 6)
  else
    let (invert, inp1) := match inp with
      | c :: r => if c = ch '^' then (true, r) else (false, inp)
      | [] => (false, inp)
    let (first, inp2) := match inp1 with
      | c :: r =>
          if c = ch ']' then ([(ch ']', ch ']')], r)
          else if c = ch '-' then ([(ch '-', ch '-')], r)
          else ([], inp1)
      | [] => ([], inp1)
    match p_b_terms (inp2.length + 1) inp2 first with
    | none => none
    | some (items, inp3) =>
        let (items2, inp4) := match inp3 with
          | c :: r => if c = ch '-' then (items ++ [(ch '-', ch '-')], r) else (items, inp3)
          | [] => (items, inp3)
        match inp4 with
        | c :: r => if c = ch ']' then some (RE.set invert items2, r) else none
        | [] => none

/-- The digits of `p_count`: the count read so far, the number of digits
read, and the rest of the input. -/
def p_count_loop : List Nat → Nat → Nat → Nat × Nat × List Nat
  | [], count, ndigits => (count, ndigits, [])
  | c :: rest, count, ndigits =>
      if isdigit c ∧ count ≤ DUPMAX then p_count_loop rest (count * 10 + (c - 48)) (ndigits + 1)
      else (count, ndigits, c :: rest)

/-- `p_count`: a repetition count, at most `DUPMAX`. -/
def p_count (inp : List Nat) : Option (Nat × List Nat) :=
  let r := p_count_loop inp 0 0
  if 0 < r.2.1 ∧ r.1 ≤ DUPMAX then some (r.1, r.2.2) else none

/-- `repeat` for a lower count of at least one: `x{1,1}` is `x`, `x{1,n}` is
`(x|)x{1,n-1}`, `x{1,}` is `x+`, and `x{m,n}` is `xx{m-1,n-1}`.  The upper
count `none` is `INFINITY`. -/
def repeatLoop (x : RE) : Nat → Nat → Option Nat → RE
  | 0, _, _ => x
  | fuel + 1, lo, hi =>
      if lo ≤ 1 then
        match hi with
        | none => RE.plus x
        | some n =>
            if n ≤ 1 then x
            else RE.seq (RE.alt x RE.empty) (repeatLoop x fuel 1 (some (n - 1)))
      else RE.seq x (repeatLoop x fuel (lo - 1) (hi.map fun n => n - 1))

/-- `repeat`: the operand repeated between `lo` and `hi` times.  `x{0,0}`
drops the operand (`none`), and `x{0,n}` is `(x{1,n}|)`. -/
def repeatRE (x : RE) (lo : Nat) (hi : Option Nat) : Option RE :=
  if lo = 0 then
    match hi with
    | some 0 => none
    | some n => some (RE.alt (repeatLoop x (n + 1) 1 (some n)) RE.empty)
    | none => some (RE.alt (RE.plus x) RE.empty)
  else some (repeatLoop x (lo + hi.getD 0 + 1) lo hi)

/-- Is a digit next? -/
def seesDigit : List Nat → Bool
  | [] => false
  | d :: _ => isdigit d

/-- Is a repetition operator next?  (`{` followed by a digit opens a bound.) -/
def seesRepetition : List Nat → Bool
  | [] => false
  | c :: rest =>
      decide (c = ch '*') || decide (c = ch '+') || decide (c = ch '?') ||
        (decide (c = ch '{') && seesDigit rest)

/-- The bound of a repetition; the input starts just after the `{`. -/
def p_bound (atom : RE) (inp : List Nat) : Option (Option RE × List Nat) :=
  match p_count inp with
  | none => none
  | some (count, r1) =>
      let counts : Option (Option Nat × List Nat) :=
        match r1 with
        | c :: r2 =>
            if c = ch ',' then
              if seesDigit r2 then
                match p_count r2 with
                | some (count2, r3) => if count ≤ count2 then some (some count2, r3) else none
                | none => none
              else some (none, r2)
            else some (some count, r1)
        | [] => some (some count, r1)
      match counts with
      | none => none
      | some (count2, r3) =>
          match r3 with
          | c :: r4 => if c = ch '}' then some (repeatRE atom count count2, r4) else none
          | [] => none

/-- The repetition part of `p_ere_exp`: at most one of `*`, `+`, `?` or a
bound after an operand, not after `^`, and not followed by a second
repetition operator.  The result is `none` inside when the operand is
dropped. -/
def p_repetition (atom : RE) (wascaret : Bool) (inp : List Nat) :
    Option (Option RE × List Nat) :=
  if seesRepetition inp then
    if wascaret then none
    else
      match inp with
      | [] => none
      | c :: rest =>
          let r : Option (Option RE × List Nat) :=
            if c = ch '*' then some (some (RE.alt (RE.plus atom) RE.empty), rest)
            else if c = ch '+' then some (some (RE.plus atom), rest)
            else if c = ch '?' then some (some (RE.alt atom RE.empty), rest)
            else p_bound atom rest
          match r with
          | some (x, rest2) => if seesRepetition rest2 then none else some (x, rest2)
          | none => none
  else some (some atom, inp)

/-- What `regcomp` keeps while parsing: the number of groups opened so far,
the operands of the closed groups numbered below `NPAREN`, and whether a
back-reference was seen. -/
structure ParseState where
  nsub : Nat
  closed : List (Nat × RE)
  backrefs : Bool

/-- `p_ere_exp`: one operand (a group, an anchor, `.`, a bracket expression,
an escaped byte or back-reference, an ordinary byte) and the repetition after
it; `c` is the first byte and `rest` what follows it.  `sub` parses the
inside of a group.  The expression is `none` inside when the operand was
dropped by `{0}`. -/
def p_ere_exp (sub : ParseState → List Nat → Option (RE × List Nat × ParseState))
    (st : ParseState) (c : Nat) (rest : List Nat) :
    Option (Option RE × List Nat × ParseState) :=
  if c = ch '(' then
    let st1 : ParseState := { st with nsub := st.nsub + 1 }
    let inner : Option (RE × List Nat × ParseState) :=
      match rest with
      | [] => none
      | c2 :: _ => if c2 = ch ')' then some (RE.empty, rest, st1) else sub st1 rest
    match inner with
    | some (g, c3 :: rest2, st2) =>
        if c3 = ch ')' then
          let st3 : ParseState :=
            if st1.nsub < NPAREN then { st2 with closed := (st1.nsub, g) :: st2.closed }
            else st2
          (p_repetition (RE.group st1.nsub g) false rest2).map fun r => (r.1, r.2, st3)
        else none
    | _ => none
  else if c = ch ')' ∨ c = ch '*' ∨ c = ch '+' ∨ c = ch '?' ∨ c = ch '|' then none
  else if c = ch '^' then (p_repetition RE.bol true rest).map fun r => (r.1, r.2, st)
  else if c = ch '$' then (p_repetition RE.eol false rest).map fun r => (r.1, r.2, st)
  else if c = ch '.' then (p_repetition RE.any false rest).map fun r => (r.1, r.2, st)
  else if c = ch '[' then
    match p_bracket rest with
    | some (a, rest2) => (p_repetition a false rest2).map fun r => (r.1, r.2, st)
    | none => none
  else if c = ch '\\' then
    match rest with
    | [] => none
    | e :: rest2 =>
        if ch '1' ≤ e ∧ e ≤ ch '9' then
          match st.closed.lookup (e - ch '0') with
          | none => none
          | some body =>
              (p_repetition (RE.backref (e - ch '0') body) false rest2).map fun r =>
                (r.1, r.2, { st with backrefs := true })
        else (p_repetition (RE.chr e) false rest2).map fun r => (r.1, r.2, st)
  else if c = ch '{' ∧ seesDigit rest = true then none
  else (p_repetition (RE.chr c) false rest).map fun r => (r.1, r.2, st)

/-- `p_ere`: branches separated by `|`, each a non-empty concatenation of
expressions.  `stop` is the byte that ends the expression (`)` inside a
group, none at top level).  `alts` is the alternatives finished so far,
`branch` the current branch (`none` while nothing was emitted for it: an
empty branch is an error). -/
def p_ere : Nat → Option Nat → Option RE → Option RE → ParseState → List Nat →
    Option (RE × List Nat × ParseState)
  | 0, _, _, _, _, _ => none
  | fuel + 1, stop, alts, branch, st, inp =>
      let close (b : RE) : RE := match alts with
        | some a => RE.alt a b
        | none => b
      let add (x : Option RE) : Option RE := match x with
        | none => branch
        | some x => match branch with
          | some b => some (RE.seq b x)
          | none => some x
      match inp with
      | [] => branch.map fun b => (close b, [], st)
      | c :: rest =>
          if c = ch '|' then
            match branch with
            | some b => p_ere fuel stop (some (close b)) none st rest
            | none => none
          else if some c = stop then branch.map fun b => (close b, inp, st)
          else
            match p_ere_exp (p_ere fuel (some (ch ')')) none none) st c rest with
            | some (x, rest2, st2) => p_ere fuel stop alts (add x) st2 rest2
            | none => none

/-- Compile a pattern (`llvm_regcomp`): the compiled expression and whether
it has back-references, or `none` when the pattern is not valid. -/
def parsePattern (p : String) : Option (RE × Bool) :=
  match p_ere ((bytes p).length + 1) none none none ⟨0, [], false⟩ (bytes p) with
  | some (r, [], st) => some (r, st.backrefs)
  | _ => none

/-- Modelled from the spec: `llvm::Regex` (LLVM support library, not part of
these sources) with the default flags: the pattern is a POSIX extended
regular expression, matching is case-sensitive and byte by byte, and `match`
succeeds when the pattern is found anywhere within the candidate.  The
pattern is compiled the way the library's `regcomp` does it: bounds up to
`DUPMAX`, bracket expressions with character classes, equivalence classes,
collating names and ranges (in the order of `char` values on a platform
where `char` is signed, the C locale), groups, back-references `\1` to `\9`
to a group closed before, and the two word-boundary forms.  A pattern
without back-references is matched by the state-set matcher alone; one with
back-references must also match in the backtracking matcher between the same
two positions.  Three limits of the library's matchers are not modelled:
running out of memory on very large patterns; the order in which the
state-set matcher passes several anchors that stand at one position of the
candidate; and, in the backtracking matcher, the bound on repeated empty
back-references and the loop positions left behind by an abandoned
attempt. -/
def llvmRegex : RegexEngine := fun p =>
  match parsePattern p with
  | some r => { isValid := true, matchStr := fun s => r.1.search r.2 (bytes s) }
  | none => { isValid := false, matchStr := fun _ => false }

/-- `PolicyFile::MatchName`. -/
def MatchName (E : RegexEngine) (instrName name : String) : Bool :=
  let nameRegex := E instrName
  if !nameRegex.isValid then false
  else if nameRegex.matchStr name then true
  else false

/-! ## The policy file data (`PolicyFile.cc`) -/

/-- `Policy::Direction`. -/
inductive Direction where
  | In
  | Out
  deriving DecidableEq, Repr

/-- `Policy::Directions`. -/
abbrev Directions := List Direction

/-- `enum class Operation`: an operation that can be performed on a variable. -/
inductive Operation where
  | Read
  | Write
  deriving DecidableEq, Repr

/-- Modelled from the spec: `loom::Metadata` is declared in a header that is
not part of these sources; the policy file gives it a `name` and an `id`. -/
structure Metadata where
  Name : String
  Id : Int
  deriving DecidableEq, Repr

/-- Modelled from the spec: `loom::Transform` is declared in a header that is
not part of these sources; the policy file gives it an `arg` and a `fn`. -/
structure Transform where
  Arg : String
  Fn : String
  deriving DecidableEq, Repr

/-- `struct FnInstrumentation`: how to instrument a function. -/
structure FnInstrumentation where
  Name : String
  FileName : String
  Call : Directions
  Body : Directions
  Meta : Metadata
  Transforms : List Transform
  deriving DecidableEq, Repr

/-- `struct FieldInstrumentation`: which operations to instrument on a field. -/
structure FieldInstrumentation where
  Name : String
  Operations : List Operation
  deriving DecidableEq, Repr

/-- `struct StructInstrumentation`: how to instrument fields within a structure. -/
structure StructInstrumentation where
  Name : String
  Fields : List FieldInstrumentation
  deriving DecidableEq, Repr

/-- `struct GlobalInstrumentation`: how to instrument a global variable. -/
structure GlobalInstrumentation where
  Name : String
  Operations : List Operation
  deriving DecidableEq, Repr

/-- `InstrStrategy::Kind`. -/
inductive InstrStrategyKind where
  | Callout
  | Inline
  deriving DecidableEq, Repr

/-- `SimpleLogger::LogType`. -/
inductive LogType where
  | Printf
  | Libxo
  | None
  deriving DecidableEq, Repr

/-- `Policy::KTraceTarget`. -/
inductive KTraceTarget where
  | Kernel
  | Userspace
  | None
  deriving DecidableEq, Repr

/-- `Policy::DTraceTarget`. -/
inductive DTraceTarget where
  | Userspace
  | None
  deriving DecidableEq, Repr

/-- `enum class SerializationType`. -/
inductive SerializationType where
  | LibNV
  | None
  deriving DecidableEq, Repr

/-- `struct PolicyFile::PolicyFileData`: everything contained in an
instrumentation description file. -/
structure PolicyFileData where
  HookPrefix : String
  Strategy : InstrStrategyKind
  Logging : LogType
  KTrace : KTraceTarget
  DTrace : DTraceTarget
  Serial : SerializationType
  UseBlockStructure : Bool
  InstrumentEverything : Bool
  InstrumentPointerInsts : Bool
  Functions : List FnInstrumentation
  Structures : List StructInstrumentation
  Globals : List GlobalInstrumentation
  deriving Repr

/-- The defaults of the YAML mapping of `PolicyFileData`: what an empty
policy file yields. -/
def defaultPolicy : PolicyFileData :=
  { HookPrefix := "__loom"
    Strategy := InstrStrategyKind.Callout
    Logging := LogType.None
    KTrace := KTraceTarget.None
    DTrace := DTraceTarget.None
    Serial := SerializationType.None
    UseBlockStructure := false
    InstrumentEverything := false
    InstrumentPointerInsts := false
    Functions := []
    Structures := []
    Globals := [] }

/-! ## The program objects the queries look at -/

/-- `llvm::DISubprogram`, as far as `FnHooks` reads it: the file name. -/
structure DISubprogram where
  Filename : String
  deriving DecidableEq, Repr

/-- `llvm::Function`, as far as the policy reads it: `getName()` and
`getSubprogram()` (null when the function has no debug information). -/
structure Function where
  Name : String
  Subprogram : Option DISubprogram
  deriving DecidableEq, Repr

/-- `llvm::StructType`, as far as the policy reads it: its name, if any. -/
structure StructType where
  Name : Option String
  deriving DecidableEq, Repr

/-- `StructType::hasName()`. -/
def StructType.hasName (T : StructType) : Bool := T.Name.isSome

/-- `StructType::getName()`: the empty string for a type without a name. -/
def StructType.getName (T : StructType) : String := T.Name.getD ""

/-- `llvm::Value`, as far as the global hooks read it: its name, if any. -/
structure Value where
  Name : Option String
  deriving DecidableEq, Repr

/-- `Value::hasName()`. -/
def Value.hasName (V : Value) : Bool := V.Name.isSome

/-- `Value::getName()`: the empty string for a value without a name. -/
def Value.getName (V : Value) : String := V.Name.getD ""

/-! ## String helpers (`std::string`, `llvm::StringRef`) -/

/-- `StringRef::startswith`. -/
def startswith (s pre : String) : Bool := pre.data.isPrefixOf s.data

/-- `substr(pos)` for `pos` within the string: the text from `pos` on. -/
def substr (s : String) (pos : Nat) : String := String.mk (s.data.drop pos)

/-- `std::string::npos`, the largest `size_t` (64 bits). -/
def npos : Nat := 2 ^ 64 - 1

/-- The scan of `find_last_of`: `best` is the last position seen so far that
holds one of `chars`, `i` the position of the head of the input. -/
def find_last_of_from (chars : List Char) : List Char → Nat → Nat → Nat
  | [], _, best => best
  | c :: cs, i, best => find_last_of_from chars cs (i + 1) (if c ∈ chars then i else best)

/-- `std::string::find_last_of(chars)`: the position of the last character of
`s` that is one of `chars`, `npos` when there is none. -/
def find_last_of (s : String) (chars : String) : Nat :=
  find_last_of_from chars.data s.data 0 npos

/-- `vecContains`. -/
def vecContains {T : Type} [DecidableEq T] (V : List T) (Val : T) : Bool :=
  decide (Val ∈ V)

/-! ## Policy queries -/

/-- The loop of `PolicyFile::CallHooks`. -/
def CallHooksLoop (E : RegexEngine) (Name : String) : List FnInstrumentation → Directions
  | [] => []
  | F :: rest => if MatchName E F.Name Name then F.Call else CallHooksLoop E Name rest

/-- `PolicyFile::CallHooks`. -/
def CallHooks (E : RegexEngine) (P : PolicyFileData) (Fn : Function) : Directions :=
  CallHooksLoop E Fn.Name P.Functions

/-- The file name `FnHooks` starts from: the subprogram's, or empty. -/
def FnFileName (Fn : Function) : String :=
  match Fn.Subprogram with
  | some Sp => Sp.Filename
  | none => ""

/-- `FileName.substr(FileName.find_last_of("/\\") + 1)`, the addition being
that of `size_t` (so that `npos + 1` is `0`). -/
def BaseFileName (FileName : String) : String :=
  substr FileName ((find_last_of FileName "/\\" + 1) % 2 ^ 64)

/-- The loop of `PolicyFile::FnHooks`. -/
def FnHooksLoop (E : RegexEngine) (Name Base : String) : List FnInstrumentation → Directions
  | [] => []
  | F :: rest =>
      if MatchName E F.Name Name then
        if F.FileName ≠ "" then
          if MatchName E F.FileName Base then F.Body
          else FnHooksLoop E Name Base rest
        else F.Body
      else FnHooksLoop E Name Base rest

/-- `PolicyFile::FnHooks`. -/
def FnHooks (E : RegexEngine) (P : PolicyFileData) (Fn : Function) : Directions :=
  FnHooksLoop E Fn.Name (BaseFileName (FnFileName Fn)) P.Functions

/-- The loop of `PolicyFile::StructTypeMatters`. -/
def StructTypeMattersLoop (E : RegexEngine) (Name : String) : List StructInstrumentation → Bool
  | [] => false
  | S :: rest => if MatchName E S.Name Name then true else StructTypeMattersLoop E Name rest

/-- `PolicyFile::StructTypeMatters`.  The result is `none` when the
`assert` on the `union.` marker fails (a build without assertions returns
`false` there). -/
def StructTypeMatters (E : RegexEngine) (P : PolicyFileData) (T : StructType) : Option Bool :=
  if !T.hasName then some false
  else if !startswith T.getName "struct." then
    if startswith T.getName "union." then some false else none
  else
    let Name := substr T.getName 7
    some (StructTypeMattersLoop E Name P.Structures)

/-- The inner loop of the field hooks, over the field rules of one struct
rule: `some b` when the loop returns `b`, `none` when it runs to its end. -/
def FieldLoop (E : RegexEngine) (Field : String) (Op : Operation) :
    List FieldInstrumentation → Option Bool
  | [] => none
  | F :: rest =>
      if MatchName E F.Name Field then some (vecContains F.Operations Op)
      else FieldLoop E Field Op rest

/-- The outer loop of the field hooks, over the struct rules. -/
def FieldHookLoop (E : RegexEngine) (Name Field : String) (Op : Operation) :
    List StructInstrumentation → Bool
  | [] => false
  | S :: rest =>
      if !MatchName E S.Name Name then FieldHookLoop E Name Field Op rest
      else
        match FieldLoop E Field Op S.Fields with
        | some b => b
        | none => FieldHookLoop E Name Field Op rest

/-- The common body of `FieldReadHook` and `FieldWriteHook`, which differ
only in the operation looked for. -/
def FieldHook (E : RegexEngine) (P : PolicyFileData) (Op : Operation) (T : StructType)
    (Field : String) : Option Bool :=
  if !startswith T.getName "struct." then
    if startswith T.getName "union." then some false else none
  else
    let Name := substr T.getName 7
    some (FieldHookLoop E Name Field Op P.Structures)

/-- `PolicyFile::FieldReadHook`; `none` when the `assert` fails. -/
def FieldReadHook (E : RegexEngine) (P : PolicyFileData) (T : StructType) (Field : String) :
    Option Bool :=
  FieldHook E P Operation.Read T Field

/-- `PolicyFile::FieldWriteHook`; `none` when the `assert` fails. -/
def FieldWriteHook (E : RegexEngine) (P : PolicyFileData) (T : StructType) (Field : String) :
    Option Bool :=
  FieldHook E P Operation.Write T Field

/-- The loop of `PolicyFile::GlobalValueMatters`. -/
def GlobalValueMattersLoop (Name : String) : List GlobalInstrumentation → Bool
  | [] => false
  | G :: rest => if G.Name = Name then true else GlobalValueMattersLoop Name rest

/-- `PolicyFile::GlobalValueMatters`. -/
def GlobalValueMatters (P : PolicyFileData) (V : Value) : Bool :=
  if !V.hasName then false
  else GlobalValueMattersLoop V.getName P.Globals

/-- The loop of `GlobalReadHook` and `GlobalWriteHook`. -/
def GlobalHookLoop (Name : String) (Op : Operation) : List GlobalInstrumentation → Bool
  | [] => false
  | G :: rest =>
      if G.Name ≠ Name then GlobalHookLoop Name Op rest
      else vecContains G.Operations Op

/-- `PolicyFile::GlobalReadHook`. -/
def GlobalReadHook (P : PolicyFileData) (V : Value) : Bool :=
  GlobalHookLoop V.getName Operation.Read P.Globals

/-- `PolicyFile::GlobalWriteHook`. -/
def GlobalWriteHook (P : PolicyFileData) (V : Value) : Bool :=
  GlobalHookLoop V.getName Operation.Write P.Globals

/-- The loop of `Join`: `Result` holds the text so far, `First` tells whether
no part has been written yet. -/
def JoinLoop (Sep : String) : List String → Bool → String → String
  | [], _, Result => Result
  | s :: rest, First, Result =>
      JoinLoop Sep rest false (if First then Result ++ s else Result ++ Sep ++ s)

/-- Modelled from the spec: `Join` of `Strings.hh`, which is not part of
these sources; the spec gives the name as the join of the prefix and the
components with the separator between consecutive parts. -/
def Join (Parts : List String) (Sep : String) : String :=
  JoinLoop Sep Parts true ""

/-- `PolicyFile::InstrName`. -/
def InstrName (P : PolicyFileData) (Components : List String) : String :=
  let FullName := [P.HookPrefix] ++ Components
  Join FullName "_"

/-! ## Loggers (`Logger.cc`) -/

/-- `llvm::Type`, as far as the loggers inspect it. -/
inductive LLVMType where
  | Void : LLVMType
  | Half : LLVMType
  | Float : LLVMType
  | Double : LLVMType
  | FP128 : LLVMType
  | Integer (bits : Nat) : LLVMType
  | Pointer (elem : LLVMType) : LLVMType
  | Struct (name : Option String) : LLVMType
  | Array (elem : LLVMType) (count : Nat) : LLVMType
  deriving DecidableEq, Repr

namespace LLVMType

/-- `Type::isIntegerTy(Bitwidth)`. -/
def isIntegerTy (T : LLVMType) (Bitwidth : Nat) : Bool :=
  match T with
  | Integer bits => bits == Bitwidth
  | _ => false

/-- `Type::isFloatTy()`: the 32-bit floating-point type. -/
def isFloatTy : LLVMType → Bool
  | Float => true
  | _ => false

/-- `Type::isDoubleTy()`: the 64-bit floating-point type. -/
def isDoubleTy : LLVMType → Bool
  | Double => true
  | _ => false

/-- `Type::isPointerTy()`. -/
def isPointerTy : LLVMType → Bool
  | Pointer _ => true
  | _ => false

/-- `Type::getPointerElementType()`; only called on pointer types. -/
def getPointerElementType : LLVMType → LLVMType
  | Pointer elem => elem
  | T => T

end LLVMType

/-- `Parameter`: a name and a type. -/
abbrev Parameter := String × LLVMType

/-- The loop of `PrintfLogger::CreateFormatString`; `FormatString` is the
text written to the stream so far. -/
def PrintfLoop : List Parameter → String → String
  | [], FormatString => FormatString
  | P :: rest, FormatString =>
      let T := P.2
      PrintfLoop rest
        (if T.isIntegerTy 32 then FormatString ++ " %d"
         else if T.isFloatTy || T.isDoubleTy then FormatString ++ " %.0f"
         else if T.isIntegerTy 8 then FormatString ++ " %c"
         else if T.isPointerTy && T.getPointerElementType.isIntegerTy 8 then
           FormatString ++ " \"%s\""
         else if T.isPointerTy then FormatString ++ " %p"
         else FormatString)

/-- `PrintfLogger::CreateFormatString`: the text of the format string. -/
def PrintfCreateFormatString (Prefix : String) (Params : List Parameter) (Suffix : String) :
    String :=
  PrintfLoop Params ("" ++ Prefix) ++ Suffix

/-- The loop of `LibxoLogger::CreateFormatString`. -/
def LibxoLoop : List Parameter → String → String
  | [], FormatString => FormatString
  | P :: rest, FormatString =>
      let Name := P.1
      let T := P.2
      let FormatString1 := FormatString ++ "\x7bP: \x7d" ++ "\x7bh:" ++ Name ++ "/"
      let FormatString2 :=
        if T.isIntegerTy 32 then FormatString1 ++ "%d"
        else if T.isFloatTy || T.isDoubleTy then FormatString1 ++ "%.0f"
        else if T.isIntegerTy 8 then FormatString1 ++ "%c"
        else if T.isPointerTy && T.getPointerElementType.isIntegerTy 8 then
          FormatString1 ++ "\"%s\""
        else if T.isPointerTy then FormatString1 ++ "%p"
        else FormatString1
      LibxoLoop rest (FormatString2 ++ "\x7d")

/-- `LibxoLogger::CreateFormatString`: the text of the format string. -/
def LibxoCreateFormatString (Prefix : String) (Params : List Parameter) (Suffix : String) :
    String :=
  LibxoLoop Params ("" ++ Prefix) ++ Suffix

/-- The PlainText token of a type, as the spec's table gives it for the five
recognized kinds; a type of no recognized kind has no token. -/
def PlainTextToken : LLVMType → String
  | LLVMType.Integer 32 => " %d"
  | LLVMType.Float => " %.0f"
  | LLVMType.Double => " %.0f"
  | LLVMType.Integer 8 => " %c"
  | LLVMType.Pointer (LLVMType.Integer 8) => " \"%s\""
  | LLVMType.Pointer _ => " %p"
  | _ => ""

/-- The conversion of a Structured token, as the spec's table gives it for
the five recognized kinds; a type of no recognized kind has none. -/
def StructuredConversion : LLVMType → String
  | LLVMType.Integer 32 => "%d"
  | LLVMType.Float => "%.0f"
  | LLVMType.Double => "%.0f"
  | LLVMType.Integer 8 => "%c"
  | LLVMType.Pointer (LLVMType.Integer 8) => "\"%s\""
  | LLVMType.Pointer _ => "%p"
  | _ => ""

/-- The Structured token of a parameter: a padding marker and a humanized
field that carries the parameter's name. -/
def StructuredToken (P : Parameter) : String :=
  "\x7bP: \x7d\x7bh:" ++ P.1 ++ "/" ++ StructuredConversion P.2 ++ "\x7d"

/-- Concatenation of a list of tokens, in order. -/
def concatTokens : List String → String
  | [] => ""
  | t :: ts => t ++ concatTokens ts

/-! ## Emitting the logging call (`Logger.cc`) -/

/-- `llvm::Value`, as far as the loggers handle it: a value of the program
with its name and type, the result of `IRBuilder::CreateFPExt`, or the
pointer that `IRBuilder::CreateGlobalStringPtr` returns for a string. -/
inductive IRValue where
  | Named (Name : String) (Ty : LLVMType) : IRValue
  | FPExt (V : IRValue) (DestTy : LLVMType) : IRValue
  | GlobalStringPtr (Str : String) : IRValue
  deriving DecidableEq, Repr

/-- `Value::getType()`. -/
def IRValue.getType : IRValue → LLVMType
  | IRValue.Named _ Ty => Ty
  | IRValue.FPExt _ DestTy => DestTy
  | IRValue.GlobalStringPtr _ => LLVMType.Pointer (LLVMType.Integer 8)

/-- `Value::getName()`; the values the builder creates have no name. -/
def IRValue.getName : IRValue → String
  | IRValue.Named Name _ => Name
  | IRValue.FPExt _ _ => ""
  | IRValue.GlobalStringPtr _ => ""

/-- `llvm::CallInst`, as the loggers emit it: the called function and the
argument list. -/
structure CallInst where
  Callee : String
  Args : List IRValue
  deriving DecidableEq, Repr

/-- An instruction that an `IRBuilder` has inserted. -/
inductive Inserted where
  | Cast (V : IRValue) : Inserted
  | Call (C : CallInst) : Inserted
  deriving DecidableEq, Repr

/-- `llvm::IRBuilder<>`: the instructions inserted so far at its insertion
point, in order. -/
abbrev IRBuilder := List Inserted

/-- The loop of `Logger::AdaptArguments`. -/
def AdaptArgumentsLoop : List IRValue → List IRValue → IRBuilder → List IRValue × IRBuilder
  | [], Adapted, Builder => (Adapted, Builder)
  | V :: rest, Adapted, Builder =>
      if V.getType.isFloatTy then
        let V2 := IRValue.FPExt V LLVMType.Double
        AdaptArgumentsLoop rest (Adapted ++ [V2]) (Builder ++ [Inserted.Cast V2])
      else AdaptArgumentsLoop rest (Adapted ++ [V]) Builder

/-- `Logger::AdaptArguments`: the adapted values and the builder after the
casts have been inserted. -/
def AdaptArguments (Values : List IRValue) (Builder : IRBuilder) : List IRValue × IRBuilder :=
  AdaptArgumentsLoop Values [] Builder

/-- The virtual part of a `Logger`: the name of the function it calls and
its `CreateFormatString` over parameters (the text of the format string). -/
structure Logger where
  FunctionName : String
  CreateFormatString : String → List Parameter → String → String

/-- `PrintfLogger`. -/
def PrintfLogger : Logger := ⟨"printf", PrintfCreateFormatString⟩

/-- `LibxoLogger`. -/
def LibxoLogger : Logger := ⟨"xo_emit", LibxoCreateFormatString⟩

/-- `Logger::CreateFormatString` over values: the parameters are the names
and types of the values. -/
def Logger.CreateFormatStringOfValues (L : Logger) (Prefix : String) (Values : List IRValue)
    (Suffix : String) : IRValue :=
  let NamedTypes : List Parameter := Values.map fun V => (V.getName, V.getType)
  IRValue.GlobalStringPtr (L.CreateFormatString Prefix NamedTypes Suffix)

/-- `Logger::Call` over a list of values: the call emitted and the builder
after it. -/
def Logger.Call (L : Logger) (Builder : IRBuilder) (Prefix : String) (Values : List IRValue)
    (Suffix : String) : CallInst × IRBuilder :=
  let Adapted := AdaptArguments Values Builder
  let FormatString := L.CreateFormatStringOfValues Prefix Adapted.1 Suffix
  let Args := FormatString :: Adapted.1
  let C : CallInst := ⟨L.FunctionName, Args⟩
  (C, Adapted.2 ++ [Inserted.Call C])

/-- The adaptation of one value, as `AdaptArguments` performs it. -/
def adaptValue (V : IRValue) : IRValue :=
  if V.getType.isFloatTy then IRValue.FPExt V LLVMType.Double else V

/-- Is the type one of the five kinds the format tables know: 32-bit
integer, float or double, 8-bit integer, pointer to 8-bit integer, other
pointer? -/
def isRecognizedKind (T : LLVMType) : Bool :=
  T.isIntegerTy 32 || T.isFloatTy || T.isDoubleTy || T.isIntegerTy 8 || T.isPointerTy

/-- The number of conversion specifiers of a format string: its `%` signs. -/
def countConversions (s : String) : Nat := s.data.count '%'

/-! ## The dynamic-probe logger (`DTraceLogger.cc`) -/

/-- `llvm::FunctionType`: result type, parameter types, variadic or not. -/
structure FunctionType where
  Result : LLVMType
  Params : List LLVMType
  isVarArg : Bool
  deriving DecidableEq, Repr

/-- The call `DTraceLogger::Log` emits: the function called, its declared
type, and the argument list (a null pointer is `none`). -/
structure ProbeCall where
  Callee : String
  FT : FunctionType
  Args : List (Option IRValue)
  deriving DecidableEq, Repr

/-- `DTraceLogger::Log`.  `getNamedValue` is the symbol table of the module
(`Module::getNamedValue`, null when the name is unknown); `I` identifies the
instruction the call is inserted before.  The argument list is the
`ArrayRef` built from the one value `Mod.getNamedValue(Name)`. -/
def DTraceLoggerLog (getNamedValue : String → Option IRValue) (I : Nat)
    (Values : List IRValue) (Name Descrip : String) (SuppressUniqueness : Bool) : ProbeCall :=
  let voidPtr := LLVMType.Pointer (LLVMType.Integer 8)
  let params := [voidPtr, voidPtr, voidPtr, voidPtr, voidPtr, voidPtr]
  let FT : FunctionType := ⟨LLVMType.Integer 32, params, false⟩
  let args := [getNamedValue Name]
  ⟨"dt_probe", FT, args⟩

/-! ## The rewrite driver (`OptPass.cc`) -/

/-- An index operand of a GEP: a constant, or a value computed at run time. -/
inductive GEPIndex where
  | Constant (n : Int) : GEPIndex
  | Variable : GEPIndex
  deriving DecidableEq, Repr

/-- `llvm::User`: the instruction that uses a value, by kind; `Id` stands for
the identity (the address) of the instruction. -/
inductive User where
  | Load (Id : Nat) : User
  | Store (Id : Nat) : User
  | Other (Id : Nat) : User
  deriving DecidableEq, Repr

/-- `llvm::GetElementPtrInst`, as far as the driver reads it: the source
element type, the index operands and the users of its uses. -/
structure GetElementPtrInst where
  Id : Nat
  SourceElementType : LLVMType
  Indices : List GEPIndex
  Users : List User
  deriving DecidableEq, Repr

/-- `GetElementPtrInst::getNumIndices()`. -/
def GetElementPtrInst.getNumIndices (GEP : GetElementPtrInst) : Nat := GEP.Indices.length

/-- `GetElementPtrInst::hasAllConstantIndices()`. -/
def GetElementPtrInst.hasAllConstantIndices (GEP : GetElementPtrInst) : Bool :=
  GEP.Indices.all fun i =>
    match i with
    | GEPIndex.Constant _ => true
    | GEPIndex.Variable => false

/-- `dyn_cast<StructType>` on a type. -/
def asStructType : LLVMType → Option StructType
  | LLVMType.Struct name => some ⟨name⟩
  | _ => none

/-- `llvm::Instruction`, by the kinds the driver tells apart.  A call has its
`getCalledFunction()`, which is null for an indirect call. -/
inductive Instruction where
  | GEP (G : GetElementPtrInst) : Instruction
  | Call (Id : Nat) (CalledFunction : Option Function) : Instruction
  | Load (Id : Nat) : Instruction
  | Store (Id : Nat) : Instruction
  | Other (Id : Nat) : Instruction
  deriving DecidableEq, Repr

/-- A function of the module: what the policy reads of it, and its
instructions in order. -/
structure FunctionDef where
  Fn : Function
  Insts : List Instruction
  deriving DecidableEq, Repr

/-- `llvm::Module`: its functions in order. -/
abbrev IRModule := List FunctionDef

/-- Modelled from the spec: `DebugInfo` (`DebugInfo.hh`, not part of these
sources), the collaborator that resolves the field name of a field-address
computation. -/
structure DebugInfo where
  FieldName : GetElementPtrInst → String

/-- `FieldGEP`: a GEP and the name of the field it addresses. -/
abbrev FieldGEP := GetElementPtrInst × String

/-- `unordered_map::emplace`: the entry is added unless the key is present. -/
def mapEmplace {K V : Type} [DecidableEq K] (m : List (K × V)) (k : K) (v : V) : List (K × V) :=
  if m.any (fun e => decide (e.1 = k)) then m else m ++ [(k, v)]

/-- `m[k] = v` on an `unordered_map`: the entry of the key is replaced, or
added when the key is not present. -/
def mapAssign {K V : Type} [DecidableEq K] (m : List (K × V)) (k : K) (v : V) : List (K × V) :=
  if m.any (fun e => decide (e.1 = k)) then m.map (fun e => if e.1 = k then (k, v) else e)
  else m ++ [(k, v)]

/-- The four collections of the first pass.  Instructions are keyed by their
identity. -/
structure Collected where
  Functions : List (Function × Directions)
  Calls : List (Nat × Directions)
  FieldReads : List (Nat × FieldGEP)
  FieldWrites : List (Nat × FieldGEP)
  deriving DecidableEq, Repr

/-- The collections before the first pass. -/
def Collected.empty : Collected := ⟨[], [], [], []⟩

/-- The loop over `GEP->uses()`. -/
def usesLoop (GEP : GetElementPtrInst) (FieldName : String) (HookReads HookWrites : Bool) :
    List User → Collected → Collected
  | [], S => S
  | U :: rest, S =>
      let S1 :=
        if HookReads then
          match U with
          | User.Load Load =>
              { S with FieldReads := mapAssign S.FieldReads Load (GEP, FieldName) }
          | _ => S
        else S
      let S2 :=
        if HookWrites then
          match U with
          | User.Store Store =>
              { S1 with FieldWrites := mapAssign S1.FieldWrites Store (GEP, FieldName) }
          | _ => S1
        else S1
      usesLoop GEP FieldName HookReads HookWrites rest S2

/-- The body of the loop over the instructions of a function.  The result is
`none` when an `assert` fails (that of the policy queries, or the one on the
field name). -/
def visitInstruction (E : RegexEngine) (P : PolicyFileData) (Debug : DebugInfo)
    (Inst : Instruction) (S : Collected) : Option Collected :=
  match Inst with
  | Instruction.GEP GEP =>
      match asStructType GEP.SourceElementType with
      | some ST =>
          if GEP.getNumIndices ≠ 2 ∨ GEP.hasAllConstantIndices = false then some S
          else
            match StructTypeMatters E P ST with
            | none => none
            | some false => some S
            | some true =>
                let FieldName := Debug.FieldName GEP
                if FieldName = "" then none
                else
                  match FieldReadHook E P ST FieldName, FieldWriteHook E P ST FieldName with
                  | some HookReads, some HookWrites =>
                      if !HookReads && !HookWrites then some S
                      else some (usesLoop GEP FieldName HookReads HookWrites GEP.Users S)
                  | _, _ => none
      | none => some S
  | Instruction.Call Call Target =>
      match Target with
      | none => some S
      | some Target =>
          let Directions := CallHooks E P Target
          if Directions ≠ [] then some { S with Calls := mapEmplace S.Calls Call Directions }
          else some S
  | _ => some S

/-- The loop over the instructions of a function. -/
def instructionsLoop (E : RegexEngine) (P : PolicyFileData) (Debug : DebugInfo) :
    List Instruction → Collected → Option Collected
  | [], S => some S
  | Inst :: rest, S =>
      match visitInstruction E P Debug Inst S with
      | some S1 => instructionsLoop E P Debug rest S1
      | none => none

/-- The body of the loop over the functions of the module. -/
def visitFunction (E : RegexEngine) (P : PolicyFileData) (Debug : DebugInfo)
    (F : FunctionDef) (S : Collected) : Option Collected :=
  let Directions := FnHooks E P F.Fn
  let S1 :=
    if Directions ≠ [] then { S with Functions := mapEmplace S.Functions F.Fn Directions }
    else S
  instructionsLoop E P Debug F.Insts S1

/-- The loop over the functions of the module. -/
def functionsLoop (E : RegexEngine) (P : PolicyFileData) (Debug : DebugInfo) :
    List FunctionDef → Collected → Option Collected
  | [], S => some S
  | F :: rest, S =>
      match visitFunction E P Debug F S with
      | some S1 => functionsLoop E P Debug rest S1
      | none => none

/-- The first pass of `OptPass::runOnModule`: the collection. -/
def collect (E : RegexEngine) (P : PolicyFileData) (Debug : DebugInfo) (Mod : IRModule) :
    Option Collected :=
  functionsLoop E P Debug Mod Collected.empty

/-- Modelled from the spec: the `Instrumenter` (`Instrumenter.hh`, not part
of these sources).  Each application changes the module in place and returns
whether it modified it. -/
structure Instrumenter where
  InstrumentFunction : IRModule → Function → Directions → IRModule × Bool
  InstrumentCall : IRModule → Nat → Directions → IRModule × Bool
  InstrumentFieldRead : IRModule → GetElementPtrInst → Nat → String → IRModule × Bool
  InstrumentFieldWrite : IRModule → GetElementPtrInst → Nat → String → IRModule × Bool

/-- One of the four loops of the second pass: `ModifiedIR |= Instrument(...)`
for every entry of a collection (in the order of the list; the order in which
an `unordered_map` is traversed is not specified). -/
def instrumentLoop {α : Type} (f : IRModule → α → IRModule × Bool) :
    List α → IRModule × Bool → IRModule × Bool
  | [], st => st
  | i :: rest, st =>
      let r := f st.1 i
      instrumentLoop f rest (r.1, st.2 || r.2)

/-- The second pass of `OptPass::runOnModule`: the mutation. -/
def instrument (Instr : Instrumenter) (S : Collected) (Mod : IRModule) : IRModule × Bool :=
  let st0 : IRModule × Bool := (Mod, false)
  let st1 := instrumentLoop (fun M i => Instr.InstrumentFunction M i.1 i.2) S.Functions st0
  let st2 := instrumentLoop (fun M i => Instr.InstrumentCall M i.1 i.2) S.Calls st1
  let st3 :=
    instrumentLoop (fun M i => Instr.InstrumentFieldRead M i.2.1 i.1 i.2.2) S.FieldReads st2
  instrumentLoop (fun M i => Instr.InstrumentFieldWrite M i.2.1 i.1 i.2.2) S.FieldWrites st3

/-- `OptPass::runOnModule`: the module after the pass and whether it was
modified; `none` when an `assert` fails.  `PolFile` is `none` when the policy
file could not be opened. -/
def runOnModule (E : RegexEngine) (Debug : DebugInfo) (Instr : Instrumenter)
    (PolFile : Option PolicyFileData) (Mod : IRModule) : Option (IRModule × Bool) :=
  match PolFile with
  | none => some (Mod, false)
  | some P =>
      match collect E P Debug Mod with
      | some S => some (instrument Instr S Mod)
      | none => none

/-- The shape test of the driver: exactly two indices, all constant. -/
def hasFieldShape (GEP : GetElementPtrInst) : Prop :=
  GEP.getNumIndices = 2 ∧ GEP.hasAllConstantIndices = true

/-- Every field record comes from a GEP that satisfies `Q`, has the field
shape and is over a struct type selected by the policy, carries the field
name resolved for that GEP, and is keyed by a load (respectively store) among
the users of that GEP for which the read (respectively write) hook is true. -/
def FieldsJustified (E : RegexEngine) (P : PolicyFileData) (Debug : DebugInfo)
    (Q : Instruction → Prop) (S : Collected) : Prop :=
  (∀ e ∈ S.FieldReads, Q (Instruction.GEP e.2.1) ∧ hasFieldShape e.2.1 ∧
    User.Load e.1 ∈ e.2.1.Users ∧ e.2.2 = Debug.FieldName e.2.1 ∧
    ∃ ST, asStructType e.2.1.SourceElementType = some ST ∧
      StructTypeMatters E P ST = some true ∧ FieldReadHook E P ST e.2.2 = some true) ∧
  (∀ e ∈ S.FieldWrites, Q (Instruction.GEP e.2.1) ∧ hasFieldShape e.2.1 ∧
    User.Store e.1 ∈ e.2.1.Users ∧ e.2.2 = Debug.FieldName e.2.1 ∧
    ∃ ST, asStructType e.2.1.SourceElementType = some ST ∧
      StructTypeMatters E P ST = some true ∧ FieldWriteHook E P ST e.2.2 = some true)

/-- Every call record comes from a direct call that satisfies `Q` and holds
the non-empty directions `CallHooks` returns for its target. -/
def CallsJustified (E : RegexEngine) (P : PolicyFileData) (Q : Instruction → Prop)
    (S : Collected) : Prop :=
  ∀ e ∈ S.Calls, ∃ Target, Q (Instruction.Call e.1 (some Target)) ∧
    e.2 = CallHooks E P Target ∧ e.2 ≠ []

/-- The instructions of a module. -/
def inModule (Mod : IRModule) (Inst : Instruction) : Prop :=
  ∃ F ∈ Mod, Inst ∈ F.Insts

/-! ## Example programs -/

/-- A resolver of field names for `struct test_struct` of the test program:
field 0 is `test_int`, field 1 is `test_charp`. -/
def exampleDebug : DebugInfo :=
  ⟨fun GEP =>
    match GEP.Indices with
    | [_, GEPIndex.Constant 0] => "test_int"
    | [_, GEPIndex.Constant 1] => "test_charp"
    | _ => ""⟩

/-- An instrumenter that changes nothing and reports no modification. -/
def idleInstrumenter : Instrumenter :=
  ⟨fun M _ _ => (M, false), fun M _ _ => (M, false), fun M _ _ _ => (M, false),
    fun M _ _ _ => (M, false)⟩

/-- The address of an array element inside a struct: three indices, the last
one computed at run time.  Its only user is the store `3`, which stores this
address. -/
def elementGEP : GetElementPtrInst :=
  ⟨1, LLVMType.Struct (some "struct.buffers"),
    [GEPIndex.Constant 0, GEPIndex.Constant 1, GEPIndex.Variable], [User.Store 3]⟩

/-- The address of the field `test_charp` of a `struct test_struct`; its
only user is the store `3`, which stores to this address. -/
def charpGEP : GetElementPtrInst :=
  ⟨2, LLVMType.Struct (some "struct.test_struct"),
    [GEPIndex.Constant 0, GEPIndex.Constant 1], [User.Store 3]⟩

/-- A function that stores the address of an array element into the field
`test_charp`: `s.test_charp = &b.data[i]`. -/
def storeElementModule : IRModule :=
  [ ⟨⟨"main", none⟩,
      [Instruction.GEP elementGEP, Instruction.GEP charpGEP, Instruction.Store 3]⟩ ]

/-- A policy that hooks writes to the field `test_charp` of `test_struct`. -/
def charpWritePolicy : PolicyFileData :=
  { defaultPolicy with
    Structures := [⟨"^test_struct$", [⟨"^test_charp$", [Operation.Write]⟩]⟩] }

/-- A policy with a wildcard function rule: it matches every name and asks
for both call directions. -/
def wildcardPolicy : PolicyFileData :=
  { defaultPolicy with
    Functions :=
      [ { Name := ".*", FileName := "", Call := [Direction.In, Direction.Out], Body := [],
          Meta := ⟨"", 0⟩, Transforms := [] } ] }

/-- A function with an indirect call (`4`, no called function) and a direct
call (`5`) to `function_void_return_no_arg`. -/
def callsModule : IRModule :=
  [ ⟨⟨"main", none⟩,
      [ Instruction.Call 4 none,
        Instruction.Call 5 (some ⟨"function_void_return_no_arg", none⟩) ]⟩ ]

/-- The struct types the policy is asked about have the names it expects: every
GEP of the module with two constant indices over a struct type is over a type
that has no name or whose name starts with `struct.` or `union.`. -/
def typeNamesExpected (Mod : IRModule) : Prop :=
  ∀ (GEP : GetElementPtrInst) (ST : StructType), inModule Mod (Instruction.GEP GEP) →
    asStructType GEP.SourceElementType = some ST → hasFieldShape GEP →
    (ST.hasName = false ∨ startswith ST.getName "struct." = true ∨
      startswith ST.getName "union." = true)

/-- A C++ program: a load of field 0 of an object of the class `Counter`,
whose LLVM type is named `class.Counter`. -/
def classModule : IRModule :=
  [ ⟨⟨"main", none⟩,
      [ Instruction.GEP
          ⟨1, LLVMType.Struct (some "class.Counter"),
            [GEPIndex.Constant 0, GEPIndex.Constant 0], [User.Load 2]⟩,
        Instruction.Load 2 ]⟩ ]

/-- The address of the field `test_int` of a `struct test_struct`, used by a
load (`11`), a store (`12`) and another instruction (`13`). -/
def intGEP : GetElementPtrInst :=
  ⟨10, LLVMType.Struct (some "struct.test_struct"),
    [GEPIndex.Constant 0, GEPIndex.Constant 0],
    [User.Load 11, User.Store 12, User.Other 13]⟩

/-- A policy that hooks reads, and only reads, of the field `test_int` of
`test_struct`. -/
def intReadPolicy : PolicyFileData :=
  { defaultPolicy with
    Structures := [⟨"^test_struct$", [⟨"^test_int$", [Operation.Read]⟩]⟩] }

/-- The instruction is a GEP that the driver selects (struct source type,
two constant indices, `StructTypeMatters` true) with the read hook true for
its resolved field name, and the load is among its users. -/
def selectsRead (E : RegexEngine) (P : PolicyFileData) (Debug : DebugInfo)
    (I : Instruction) (Load : Nat) : Prop :=
  ∃ GEP ST, I = Instruction.GEP GEP ∧ asStructType GEP.SourceElementType = some ST ∧
    hasFieldShape GEP ∧ StructTypeMatters E P ST = some true ∧
    FieldReadHook E P ST (Debug.FieldName GEP) = some true ∧ User.Load Load ∈ GEP.Users

/-- The instruction is a GEP that the driver selects (struct source type,
two constant indices, `StructTypeMatters` true) with the write hook true for
its resolved field name, and the store is among its users. -/
def selectsWrite (E : RegexEngine) (P : PolicyFileData) (Debug : DebugInfo)
    (I : Instruction) (Store : Nat) : Prop :=
  ∃ GEP ST, I = Instruction.GEP GEP ∧ asStructType GEP.SourceElementType = some ST ∧
    hasFieldShape GEP ∧ StructTypeMatters E P ST = some true ∧
    FieldWriteHook E P ST (Debug.FieldName GEP) = some true ∧ User.Store Store ∈ GEP.Users

/-- A resolver of field names for a `struct list` with the fields `value`
(an `int`) and `cursor` (a pointer to `int`). -/
def listDebug : DebugInfo :=
  ⟨fun GEP =>
    match GEP.Indices with
    | [_, GEPIndex.Constant 0] => "value"
    | [_, GEPIndex.Constant 1] => "cursor"
    | _ => ""⟩

/-- The address of the field `value` of a `struct list`; its only user is
the store `22`, which stores this address. -/
def valueGEP : GetElementPtrInst :=
  ⟨20, LLVMType.Struct (some "struct.list"),
    [GEPIndex.Constant 0, GEPIndex.Constant 0], [User.Store 22]⟩

/-- The address of the field `cursor` of a `struct list`; its only user is
the store `22`, which stores to this address. -/
def cursorGEP : GetElementPtrInst :=
  ⟨21, LLVMType.Struct (some "struct.list"),
    [GEPIndex.Constant 0, GEPIndex.Constant 1], [User.Store 22]⟩

/-- A function that stores the address of one field into another field:
`l.cursor = &l.value`. -/
def cursorModule : IRModule :=
  [ ⟨⟨"main", none⟩,
      [Instruction.GEP valueGEP, Instruction.GEP cursorGEP, Instruction.Store 22]⟩ ]

/-- A policy that hooks writes to both fields of `list`. -/
def listWritePolicy : PolicyFileData :=
  { defaultPolicy with
    Structures :=
      [⟨"^list$", [⟨"^value$", [Operation.Write]⟩, ⟨"^cursor$", [Operation.Write]⟩]⟩] }

/-- A policy that hooks writes to the field `value` of `list` only. -/
def valueWritePolicy : PolicyFileData :=
  { defaultPolicy with Structures := [⟨"^list$", [⟨"^value$", [Operation.Write]⟩]⟩] }

/-! ## Theorems -/

/-! ### Function rules -/

theorem CallHooksLoop_eq_find (E : RegexEngine) (Name : String) (rules : List FnInstrumentation) :
    CallHooksLoop E Name rules =
      match rules.find? (fun F => MatchName E F.Name Name) with
      | some F => F.Call
      | none => [] := by
  induction rules with
  | nil => rfl
  | cons F rest ih =>
      by_cases h : MatchName E F.Name Name = true
      · simp [CallHooksLoop, List.find?, h]
      · simp only [Bool.not_eq_true] at h
        simp [CallHooksLoop, List.find?, h, ih]

theorem find_append_first {α : Type} (p : α → Bool) (pre post : List α) (x : α)
    (hpre : ∀ y ∈ pre, p y = false) (hx : p x = true) :
    (pre ++ x :: post).find? p = some x := by
  induction pre with
  | nil => simp [List.find?, hx]
  | cons y ys ih =>
      have hy : p y = false := hpre y (List.mem_cons_self _ _)
      have := ih (fun z hz => hpre z (List.mem_cons_of_mem _ hz))
      simp [List.find?, hy, this]

theorem find_none_of_all_false {α : Type} (p : α → Bool) (l : List α)
    (h : ∀ y ∈ l, p y = false) : l.find? p = none := by
  induction l with
  | nil => rfl
  | cons y ys ih =>
      have hy : p y = false := h y (List.mem_cons_self _ _)
      have := ih (fun z hz => h z (List.mem_cons_of_mem _ hz))
      simp [List.find?, hy, this]

/-- C1: `CallHooks` returns the caller directions of the first function
rule, in declared order, whose name pattern matches the function's name
(whatever that list is and whatever the later rules are), and the empty list
when no rule's name pattern matches. -/
theorem CallHooks_first_match (E : RegexEngine) (P : PolicyFileData) (Fn : Function) :
    (CallHooks E P Fn =
      match P.Functions.find? (fun F => MatchName E F.Name Fn.Name) with
      | some F => F.Call
      | none => []) ∧
    (∀ pre F post, P.Functions = pre ++ F :: post →
      (∀ G ∈ pre, MatchName E G.Name Fn.Name = false) →
      MatchName E F.Name Fn.Name = true → CallHooks E P Fn = F.Call) ∧
    ((∀ G ∈ P.Functions, MatchName E G.Name Fn.Name = false) → CallHooks E P Fn = []) := by
  refine ⟨CallHooksLoop_eq_find E Fn.Name P.Functions, ?_, ?_⟩
  · intro pre F post hsplit hpre hF
    unfold CallHooks
    rw [CallHooksLoop_eq_find, hsplit,
      find_append_first (fun F => MatchName E F.Name Fn.Name) pre post F hpre hF]
  · intro hnone
    unfold CallHooks
    rw [CallHooksLoop_eq_find,
      find_none_of_all_false (fun F => MatchName E F.Name Fn.Name) P.Functions hnone]

/-- C1 at a concrete policy: the first matching rule has an empty caller
list and a later rule that also matches has a non-empty one; the result is
the empty list of the first. -/
theorem CallHooks_first_match_witness :
    CallHooks llvmRegex
      { defaultPolicy with
        Functions :=
          [ { Name := "^bar$", FileName := "", Call := [Direction.Out], Body := [],
              Meta := ⟨"", 0⟩, Transforms := [] },
            { Name := "^foo$", FileName := "", Call := [], Body := [],
              Meta := ⟨"", 0⟩, Transforms := [] },
            { Name := "foo", FileName := "", Call := [Direction.In], Body := [],
              Meta := ⟨"", 0⟩, Transforms := [] } ] }
      ⟨"foo", none⟩ = [] :=
  (CallHooks_first_match llvmRegex _ ⟨"foo", none⟩).2.1
    [ { Name := "^bar$", FileName := "", Call := [Direction.Out], Body := [],
        Meta := ⟨"", 0⟩, Transforms := [] } ]
    { Name := "^foo$", FileName := "", Call := [], Body := [],
      Meta := ⟨"", 0⟩, Transforms := [] }
    [ { Name := "foo", FileName := "", Call := [Direction.In], Body := [],
        Meta := ⟨"", 0⟩, Transforms := [] } ]
    rfl (by decide) (by decide)

theorem FnHooksLoop_eq_find (E : RegexEngine) (Name Base : String)
    (rules : List FnInstrumentation) :
    FnHooksLoop E Name Base rules =
      match rules.find? (fun F => MatchName E F.Name Name &&
          (decide (F.FileName = "") || MatchName E F.FileName Base)) with
      | some F => F.Body
      | none => [] := by
  induction rules with
  | nil => rfl
  | cons F rest ih =>
      by_cases h : MatchName E F.Name Name = true
      · by_cases hf : F.FileName = ""
        · simp [FnHooksLoop, List.find?, h, hf]
        · by_cases hm : MatchName E F.FileName Base = true
          · simp [FnHooksLoop, List.find?, h, hf, hm]
          · simp only [Bool.not_eq_true] at hm
            simp [FnHooksLoop, List.find?, h, hf, hm, ih]
      · simp only [Bool.not_eq_true] at h
        simp [FnHooksLoop, List.find?, h, ih]

theorem find_last_of_from_none (chars : List Char) (s : List Char) (i best : Nat)
    (h : ∀ c ∈ s, c ∉ chars) : find_last_of_from chars s i best = best := by
  induction s generalizing i best with
  | nil => rfl
  | cons c cs ih =>
      have hc : c ∉ chars := h c (List.mem_cons_self _ _)
      simp only [find_last_of_from, hc, if_false]
      exact ih (i + 1) best (fun d hd => h d (List.mem_cons_of_mem _ hd))

theorem find_last_of_from_last (chars : List Char) (pre post : List Char) (sep : Char)
    (i best : Nat) (hsep : sep ∈ chars) (hpost : ∀ c ∈ post, c ∉ chars) :
    find_last_of_from chars (pre ++ sep :: post) i best = i + pre.length := by
  induction pre generalizing i best with
  | nil =>
      simp only [List.nil_append, find_last_of_from, hsep, if_true, List.length_nil,
        Nat.add_zero]
      exact find_last_of_from_none chars post (i + 1) i hpost
  | cons c cs ih =>
      show find_last_of_from chars (cs ++ sep :: post) (i + 1) _ = i + (cs.length + 1)
      rw [ih]
      omega

theorem mem_separators (c : Char) : c ∈ ("/\\" : String).data ↔ c = '/' ∨ c = '\\' := by
  show c ∈ ['/', '\\'] ↔ _
  simp

theorem BaseFileName_no_separator (path : String)
    (h : ∀ c ∈ path.data, c ≠ '/' ∧ c ≠ '\\') : BaseFileName path = path := by
  have hnone : find_last_of path "/\\" = npos := by
    unfold find_last_of
    apply find_last_of_from_none
    intro c hc hmem
    rcases (mem_separators c).1 hmem with h1 | h1
    · exact (h c hc).1 h1
    · exact (h c hc).2 h1
  have hz : (npos + 1) % 2 ^ 64 = 0 := by decide
  unfold BaseFileName substr
  rw [hnone, hz]
  rfl

theorem BaseFileName_after_last (path : String) (pre post : List Char) (sep : Char)
    (hlen : path.length < 2 ^ 64) (hsplit : path.data = pre ++ sep :: post)
    (hsep : sep = '/' ∨ sep = '\\') (hpost : ∀ c ∈ post, c ≠ '/' ∧ c ≠ '\\') :
    BaseFileName path = String.mk post := by
  have hfind : find_last_of path "/\\" = pre.length := by
    unfold find_last_of
    rw [hsplit, find_last_of_from_last _ pre post sep 0 npos ((mem_separators sep).2 hsep)]
    · omega
    · intro c hc hmem
      rcases (mem_separators c).1 hmem with h1 | h1
      · exact (hpost c hc).1 h1
      · exact (hpost c hc).2 h1
  have hl : pre.length + 1 < 2 ^ 64 := by
    have : path.length = (pre ++ sep :: post).length := by
      rw [← hsplit]; rfl
    simp only [List.length_append, List.length_cons] at this
    omega
  have hmod : (pre.length + 1) % 2 ^ 64 = pre.length + 1 := Nat.mod_eq_of_lt hl
  unfold BaseFileName substr
  rw [hfind, hmod, hsplit]
  congr 1
  have : pre ++ sep :: post = (pre ++ [sep]) ++ post := by simp
  rw [this]
  have hlen2 : pre.length + 1 = (pre ++ [sep]).length := by simp
  rw [hlen2, List.drop_left]

theorem FnFileName_of_subprogram (Name path : String) :
    FnFileName ⟨Name, some ⟨path⟩⟩ = path := rfl

/-- C2: `FnHooks` returns the callee directions of the first function rule
whose name pattern matches the function name and whose within-file pattern is
empty or matches the base name of the function's own file (the file name of
its subprogram; the empty string when it has none), and the empty list when
no rule qualifies; a name-matching rule whose file pattern does not match
that base name is skipped, one whose file pattern matches it decides, and a
matching rule without a file pattern decides whatever the file is; the base
name is the whole path when it has no `/` or `\`, and otherwise the text
after the last one. -/
theorem FnHooks_first_qualifying (E : RegexEngine) (P : PolicyFileData) (Fn : Function) :
    (FnHooks E P Fn =
      match P.Functions.find? (fun F => MatchName E F.Name Fn.Name &&
          (decide (F.FileName = "") ||
            MatchName E F.FileName
              (BaseFileName (match Fn.Subprogram with
                | some Sp => Sp.Filename
                | none => "")))) with
      | some F => F.Body
      | none => []) ∧
    (∀ path : String, Fn.Subprogram = some ⟨path⟩ →
      FnHooks E P Fn =
        match P.Functions.find? (fun F => MatchName E F.Name Fn.Name &&
            (decide (F.FileName = "") || MatchName E F.FileName (BaseFileName path))) with
        | some F => F.Body
        | none => []) ∧
    (∀ (path : String) F rest, Fn.Subprogram = some ⟨path⟩ → P.Functions = F :: rest →
      F.FileName ≠ "" → MatchName E F.FileName (BaseFileName path) = false →
      FnHooks E P Fn = FnHooks E { P with Functions := rest } Fn) ∧
    (∀ (path : String) F rest, Fn.Subprogram = some ⟨path⟩ → P.Functions = F :: rest →
      MatchName E F.Name Fn.Name = true → F.FileName ≠ "" →
      MatchName E F.FileName (BaseFileName path) = true → FnHooks E P Fn = F.Body) ∧
    (∀ F rest, P.Functions = F :: rest → F.FileName = "" →
      MatchName E F.Name Fn.Name = true → FnHooks E P Fn = F.Body) ∧
    (∀ path : String, (∀ c ∈ path.data, c ≠ '/' ∧ c ≠ '\\') → BaseFileName path = path) ∧
    (∀ (path : String) (pre post : List Char) (sep : Char), path.length < 2 ^ 64 →
      path.data = pre ++ sep :: post → (sep = '/' ∨ sep = '\\') →
      (∀ c ∈ post, c ≠ '/' ∧ c ≠ '\\') → BaseFileName path = String.mk post) := by
  have hfile : ∀ path : String, Fn.Subprogram = some ⟨path⟩ → FnFileName Fn = path := by
    intro path h
    simp only [FnFileName, h]
  have hname : FnFileName Fn = (match Fn.Subprogram with
      | some Sp => Sp.Filename
      | none => "") := rfl
  have main := FnHooksLoop_eq_find E Fn.Name (BaseFileName (FnFileName Fn)) P.Functions
  refine ⟨?_, ?_, ?_, ?_, ?_, BaseFileName_no_separator, BaseFileName_after_last⟩
  · rw [← hname]
    exact main
  · intro path hsub
    rw [← hfile path hsub]
    exact main
  · intro path F rest hsub hsplit hfileName hmiss
    unfold FnHooks
    rw [hsplit, hfile path hsub]
    by_cases h : MatchName E F.Name Fn.Name = true
    · simp [FnHooksLoop, h, hfileName, hmiss]
    · simp only [Bool.not_eq_true] at h
      simp [FnHooksLoop, h]
  · intro path F rest hsub hsplit hmatch hfileName hhit
    unfold FnHooks
    rw [hsplit, hfile path hsub]
    simp [FnHooksLoop, hmatch, hfileName, hhit]
  · intro F rest hsplit hfileName hmatch
    unfold FnHooks
    rw [hsplit]
    simp [FnHooksLoop, hmatch, hfileName]

/-- C2 at concrete policies, for the function `alloc` of the file
`src/b.c`: a rule with within-file `a\.c` gives the empty list; a rule with
within-file `^b\.c$`, which matches the base name `b.c` and not the whole
path, gives its callee directions; and a rule without a within-file pattern
gives its callee directions. -/
theorem FnHooks_first_qualifying_witness :
    FnHooks llvmRegex
      { defaultPolicy with
        Functions :=
          [ { Name := "^alloc$", FileName := "a\\.c", Call := [],
              Body := [Direction.In, Direction.Out], Meta := ⟨"", 0⟩, Transforms := [] } ] }
      ⟨"alloc", some ⟨"src/b.c"⟩⟩ = [] ∧
    FnHooks llvmRegex
      { defaultPolicy with
        Functions :=
          [ { Name := "^alloc$", FileName := "^b\\.c$", Call := [],
              Body := [Direction.In], Meta := ⟨"", 0⟩, Transforms := [] } ] }
      ⟨"alloc", some ⟨"src/b.c"⟩⟩ = [Direction.In] ∧
    FnHooks llvmRegex
      { defaultPolicy with
        Functions :=
          [ { Name := "^alloc$", FileName := "", Call := [],
              Body := [Direction.In, Direction.Out], Meta := ⟨"", 0⟩, Transforms := [] } ] }
      ⟨"alloc", some ⟨"src/b.c"⟩⟩ = [Direction.In, Direction.Out] ∧
    MatchName llvmRegex "^b\\.c$" "src/b.c" = false :=
  ⟨(FnHooks_first_qualifying llvmRegex _ ⟨"alloc", some ⟨"src/b.c"⟩⟩).2.2.1 "src/b.c"
      { Name := "^alloc$", FileName := "a\\.c", Call := [],
        Body := [Direction.In, Direction.Out], Meta := ⟨"", 0⟩, Transforms := [] }
      [] rfl rfl (by decide) (by decide),
   (FnHooks_first_qualifying llvmRegex _ ⟨"alloc", some ⟨"src/b.c"⟩⟩).2.2.2.1 "src/b.c"
      { Name := "^alloc$", FileName := "^b\\.c$", Call := [],
        Body := [Direction.In], Meta := ⟨"", 0⟩, Transforms := [] }
      [] rfl rfl (by decide) (by decide) (by decide),
   (FnHooks_first_qualifying llvmRegex _ ⟨"alloc", some ⟨"src/b.c"⟩⟩).2.2.2.2.1
      { Name := "^alloc$", FileName := "", Call := [],
        Body := [Direction.In, Direction.Out], Meta := ⟨"", 0⟩, Transforms := [] }
      [] rfl rfl (by decide),
   by decide⟩

/-! ### Struct and field rules -/

theorem startswith_struct_marker (N : String) : startswith ("struct." ++ N) "struct." = true := by
  unfold startswith
  rw [List.isPrefixOf_iff_prefix, String.data_append]
  exact List.prefix_append _ _

theorem substr_struct_marker (N : String) : substr ("struct." ++ N) 7 = N := by
  unfold substr
  rw [String.data_append]
  have h7 : 7 = ("struct." : String).data.length := rfl
  rw [h7, List.drop_left]

theorem getName_named (n : String) : (StructType.mk (some n)).getName = n := rfl

theorem FieldLoop_eq_find (E : RegexEngine) (Field : String) (Op : Operation)
    (fields : List FieldInstrumentation) :
    FieldLoop E Field Op fields =
      (fields.find? (fun F => MatchName E F.Name Field)).map
        (fun F => decide (Op ∈ F.Operations)) := by
  induction fields with
  | nil => rfl
  | cons F rest ih =>
      by_cases h : MatchName E F.Name Field = true
      · simp [FieldLoop, List.find?, h, vecContains]
      · simp only [Bool.not_eq_true] at h
        simp [FieldLoop, List.find?, h, ih]

theorem FieldHookLoop_eq (E : RegexEngine) (Name Field : String) (Op : Operation)
    (rules : List StructInstrumentation) :
    FieldHookLoop E Name Field Op rules =
      match (rules.filter (fun S => MatchName E S.Name Name)).findSome?
          (fun S => S.Fields.find? (fun F => MatchName E F.Name Field)) with
      | some F => decide (Op ∈ F.Operations)
      | none => false := by
  induction rules with
  | nil => rfl
  | cons S rest ih =>
      by_cases h : MatchName E S.Name Name = true
      · simp only [FieldHookLoop, h, Bool.not_true, Bool.false_eq_true, if_false,
          List.filter_cons_of_pos, List.findSome?_cons, FieldLoop_eq_find]
        cases hf : S.Fields.find? (fun F => MatchName E F.Name Field) with
        | none => simpa using ih
        | some F => simp
      · simp only [Bool.not_eq_true] at h
        simp [FieldHookLoop, h, ih]

theorem FieldHook_struct (E : RegexEngine) (P : PolicyFileData) (Op : Operation)
    (N Field : String) :
    FieldHook E P Op ⟨some ("struct." ++ N)⟩ Field =
      some (FieldHookLoop E N Field Op P.Structures) := by
  simp [FieldHook, getName_named, startswith_struct_marker, substr_struct_marker]

theorem filter_append_first {α : Type} (p : α → Bool) (pre post : List α) (x : α)
    (hpre : ∀ y ∈ pre, p y = false) (hx : p x = true) :
    (pre ++ x :: post).filter p = x :: post.filter p := by
  have hnil : pre.filter p = [] := by
    rw [List.filter_eq_nil_iff]
    intro y hy
    simp [hpre y hy]
  rw [List.filter_append, hnil, List.filter_cons_of_pos hx, List.nil_append]

theorem filter_none {α : Type} (p : α → Bool) (l : List α)
    (h : ∀ y ∈ l, p y = false) : l.filter p = [] := by
  rw [List.filter_eq_nil_iff]
  intro y hy
  simp [h y hy]

/-- C3 does not hold as stated.  At this concrete policy two struct
rules match the struct name `test_struct`; the first one has no field rule
matching `test_int`, and yet both field hooks are true, decided by the field
rule of the second struct rule. -/
theorem FieldHooks_consult_later_struct_rule :
    [ (⟨"^test_struct$", [⟨"^test_charp$", [Operation.Read]⟩]⟩ : StructInstrumentation),
      ⟨"test_", [⟨"^test_int$", [Operation.Read, Operation.Write]⟩]⟩ ].find?
        (fun S => MatchName llvmRegex S.Name "test_struct") =
      some ⟨"^test_struct$", [⟨"^test_charp$", [Operation.Read]⟩]⟩ ∧
    [ (⟨"^test_charp$", [Operation.Read]⟩ : FieldInstrumentation) ].find?
        (fun F => MatchName llvmRegex F.Name "test_int") = none ∧
    FieldReadHook llvmRegex
      { defaultPolicy with
        Structures :=
          [ ⟨"^test_struct$", [⟨"^test_charp$", [Operation.Read]⟩]⟩,
            ⟨"test_", [⟨"^test_int$", [Operation.Read, Operation.Write]⟩]⟩ ] }
      ⟨some "struct.test_struct"⟩ "test_int" = some true ∧
    FieldWriteHook llvmRegex
      { defaultPolicy with
        Structures :=
          [ ⟨"^test_struct$", [⟨"^test_charp$", [Operation.Read]⟩]⟩,
            ⟨"test_", [⟨"^test_int$", [Operation.Read, Operation.Write]⟩]⟩ ] }
      ⟨some "struct.test_struct"⟩ "test_int" = some true := by
  decide

/-- C3 (amended): for a struct type named `struct.N` and a field name `f`,
the field hooks scan the struct rules whose name pattern matches `N` in
declared order and are decided by the first of them that has a field rule
matching `f`: the result is true exactly when the first field rule of that
struct rule matching `f` has Read (respectively Write) among its operations.
When the first struct rule matching `N` has a field rule matching `f`, that
rule decides alone, whatever the later rules contain.  The result is false
when no struct rule matching `N` has a field rule matching `f`, in particular
when no struct rule matches `N`. -/
theorem FieldHooks_first_struct_rule_with_field (E : RegexEngine) (P : PolicyFileData)
    (N f : String) :
    (FieldReadHook E P ⟨some ("struct." ++ N)⟩ f =
      some (match (P.Structures.filter (fun S => MatchName E S.Name N)).findSome?
          (fun S => S.Fields.find? (fun F => MatchName E F.Name f)) with
        | some F => decide (Operation.Read ∈ F.Operations)
        | none => false)) ∧
    (FieldWriteHook E P ⟨some ("struct." ++ N)⟩ f =
      some (match (P.Structures.filter (fun S => MatchName E S.Name N)).findSome?
          (fun S => S.Fields.find? (fun F => MatchName E F.Name f)) with
        | some F => decide (Operation.Write ∈ F.Operations)
        | none => false)) ∧
    (∀ pre S post F, P.Structures = pre ++ S :: post →
      (∀ G ∈ pre, MatchName E G.Name N = false) → MatchName E S.Name N = true →
      S.Fields.find? (fun F => MatchName E F.Name f) = some F →
      FieldReadHook E P ⟨some ("struct." ++ N)⟩ f =
          some (decide (Operation.Read ∈ F.Operations)) ∧
        FieldWriteHook E P ⟨some ("struct." ++ N)⟩ f =
          some (decide (Operation.Write ∈ F.Operations))) ∧
    ((∀ G ∈ P.Structures, MatchName E G.Name N = false) →
      FieldReadHook E P ⟨some ("struct." ++ N)⟩ f = some false ∧
        FieldWriteHook E P ⟨some ("struct." ++ N)⟩ f = some false) := by
  have key : ∀ Op, FieldHook E P Op ⟨some ("struct." ++ N)⟩ f =
      some (match (P.Structures.filter (fun S => MatchName E S.Name N)).findSome?
          (fun S => S.Fields.find? (fun F => MatchName E F.Name f)) with
        | some F => decide (Op ∈ F.Operations)
        | none => false) := by
    intro Op
    rw [FieldHook_struct, FieldHookLoop_eq]
  refine ⟨key _, key _, ?_, ?_⟩
  · intro pre S post F hsplit hpre hS hF
    have hfilter := filter_append_first (fun S => MatchName E S.Name N) pre post S hpre hS
    unfold FieldReadHook FieldWriteHook
    rw [key, key, hsplit, hfilter]
    simp [List.findSome?_cons, hF]
  · intro hnone
    have hfilter := filter_none (fun S => MatchName E S.Name N) P.Structures hnone
    unfold FieldReadHook FieldWriteHook
    rw [key, key, hfilter]
    simp

/-- C3 (amended) at a concrete policy: the first struct rule matching
`test_struct` has a field rule matching `test_int` with only Read, so reads
are hooked and writes are not, although a later struct rule asks for both. -/
theorem FieldHooks_first_struct_rule_with_field_witness :
    FieldReadHook llvmRegex
      { defaultPolicy with
        Structures :=
          [ ⟨"^other$", [⟨"test_int", [Operation.Write]⟩]⟩,
            ⟨"^test_struct$", [⟨"^test_int$", [Operation.Read]⟩]⟩,
            ⟨"test_", [⟨"^test_int$", [Operation.Read, Operation.Write]⟩]⟩ ] }
      ⟨some ("struct." ++ "test_struct")⟩ "test_int" = some (decide (Operation.Read ∈ [Operation.Read])) ∧
    FieldWriteHook llvmRegex
      { defaultPolicy with
        Structures :=
          [ ⟨"^other$", [⟨"test_int", [Operation.Write]⟩]⟩,
            ⟨"^test_struct$", [⟨"^test_int$", [Operation.Read]⟩]⟩,
            ⟨"test_", [⟨"^test_int$", [Operation.Read, Operation.Write]⟩]⟩ ] }
      ⟨some ("struct." ++ "test_struct")⟩ "test_int" = some (decide (Operation.Write ∈ [Operation.Read])) :=
  (FieldHooks_first_struct_rule_with_field llvmRegex _ "test_struct" "test_int").2.2.1
    [⟨"^other$", [⟨"test_int", [Operation.Write]⟩]⟩]
    ⟨"^test_struct$", [⟨"^test_int$", [Operation.Read]⟩]⟩
    [⟨"test_", [⟨"^test_int$", [Operation.Read, Operation.Write]⟩]⟩]
    ⟨"^test_int$", [Operation.Read]⟩
    rfl (by decide) (by decide) (by decide)

theorem StructTypeMattersLoop_iff (E : RegexEngine) (Name : String)
    (rules : List StructInstrumentation) :
    StructTypeMattersLoop E Name rules = true ↔
      ∃ S ∈ rules, MatchName E S.Name Name = true := by
  induction rules with
  | nil => simp [StructTypeMattersLoop]
  | cons S rest ih =>
      by_cases h : MatchName E S.Name Name = true
      · simp [StructTypeMattersLoop, h]
      · simp only [Bool.not_eq_true] at h
        simp [StructTypeMattersLoop, h, ih]

theorem struct_marker_excludes_union (s : String) (h : startswith s "struct." = true) :
    startswith s "union." = false := by
  unfold startswith at h ⊢
  cases hs : s.data with
  | nil => rw [hs] at h; exact absurd h (by decide)
  | cons c cs =>
      rw [hs] at h
      have hc : c = 's' := by
        have h1 : (('s' :: "truct.".data).isPrefixOf (c :: cs)) = true := h
        simp only [List.isPrefixOf, Bool.and_eq_true, beq_iff_eq] at h1
        exact h1.1.symm
      subst hc
      show (('u' :: "nion.".data).isPrefixOf ('s' :: cs)) = false
      simp [List.isPrefixOf]

/-- C4: `StructTypeMatters` returns true exactly when the type has a name,
the name starts with `struct.` (so it is not a `union.` name), and the name
without its first 7 characters matches the name pattern of some struct rule;
for a name that starts with `struct.` or `union.` the function returns a
value, which is true exactly under those conditions. -/
theorem StructTypeMatters_true_iff (E : RegexEngine) (P : PolicyFileData) (T : StructType) :
    (StructTypeMatters E P T = some true ↔
      (T.hasName = true ∧ startswith T.getName "struct." = true ∧
        ∃ S ∈ P.Structures, MatchName E S.Name (substr T.getName 7) = true)) ∧
    (StructTypeMatters E P T = some true → startswith T.getName "union." = false) ∧
    ((startswith T.getName "struct." = true ∨ startswith T.getName "union." = true) →
      ∃ b, StructTypeMatters E P T = some b ∧
        (b = true ↔
          (T.hasName = true ∧ startswith T.getName "struct." = true ∧
            ∃ S ∈ P.Structures, MatchName E S.Name (substr T.getName 7) = true))) := by
  have main : StructTypeMatters E P T = some true ↔
      (T.hasName = true ∧ startswith T.getName "struct." = true ∧
        ∃ S ∈ P.Structures, MatchName E S.Name (substr T.getName 7) = true) := by
    unfold StructTypeMatters
    by_cases hn : T.hasName = true
    · by_cases hs : startswith T.getName "struct." = true
      · simp [hn, hs, StructTypeMattersLoop_iff]
      · simp only [Bool.not_eq_true] at hs
        by_cases hu : startswith T.getName "union." = true
        · simp [hn, hs, hu]
        · simp only [Bool.not_eq_true] at hu
          simp [hn, hs, hu]
    · simp only [Bool.not_eq_true] at hn
      simp [hn]
  refine ⟨main, ?_, ?_⟩
  · intro h
    exact struct_marker_excludes_union _ (main.1 h).2.1
  · intro hmark
    by_cases hn : T.hasName = true
    · by_cases hs : startswith T.getName "struct." = true
      · refine ⟨StructTypeMattersLoop E (substr T.getName 7) P.Structures, ?_, ?_⟩
        · simp [StructTypeMatters, hn, hs]
        · simp [hn, hs, StructTypeMattersLoop_iff]
      · simp only [Bool.not_eq_true] at hs
        have hu : startswith T.getName "union." = true := by
          rcases hmark with h | h
          · rw [h] at hs; exact absurd hs (by decide)
          · exact h
        refine ⟨false, ?_, ?_⟩
        · simp [StructTypeMatters, hn, hs, hu]
        · simp [hs]
    · simp only [Bool.not_eq_true] at hn
      refine ⟨false, ?_, ?_⟩
      · simp [StructTypeMatters, hn]
      · simp [hn]

/-- C4 at concrete types: with a rule for `^test_struct$` the type
`struct.test_struct` matters, and the type `union.test_struct` does not. -/
theorem StructTypeMatters_true_iff_witness :
    StructTypeMatters llvmRegex
      { defaultPolicy with Structures := [⟨"^test_struct$", []⟩] }
      ⟨some "struct.test_struct"⟩ = some true ∧
    ∃ b, StructTypeMatters llvmRegex
        { defaultPolicy with Structures := [⟨"^test_struct$", []⟩] }
        ⟨some "union.test_struct"⟩ = some b ∧ b = false :=
  ⟨(StructTypeMatters_true_iff llvmRegex _ ⟨some "struct.test_struct"⟩).1.2
      ⟨rfl, by decide, ⟨"^test_struct$", []⟩, by simp [defaultPolicy], by decide⟩,
   match (StructTypeMatters_true_iff llvmRegex
      { defaultPolicy with Structures := [⟨"^test_struct$", []⟩] }
      ⟨some "union.test_struct"⟩).2.2 (Or.inr (by decide)) with
   | ⟨b, hb, hiff⟩ =>
      ⟨b, hb, by
        cases b with
        | false => rfl
        | true => exact absurd (hiff.1 rfl).2.1 (by decide)⟩⟩

/-! ### Global rules -/

theorem GlobalValueMattersLoop_iff (Name : String) (rules : List GlobalInstrumentation) :
    GlobalValueMattersLoop Name rules = true ↔ ∃ G ∈ rules, G.Name = Name := by
  induction rules with
  | nil => simp [GlobalValueMattersLoop]
  | cons G rest ih =>
      by_cases h : G.Name = Name
      · simp [GlobalValueMattersLoop, h]
      · simp [GlobalValueMattersLoop, h, ih]

theorem GlobalHookLoop_eq_find (Name : String) (Op : Operation)
    (rules : List GlobalInstrumentation) :
    GlobalHookLoop Name Op rules =
      match rules.find? (fun G => decide (G.Name = Name)) with
      | some G => decide (Op ∈ G.Operations)
      | none => false := by
  induction rules with
  | nil => rfl
  | cons G rest ih =>
      by_cases h : G.Name = Name
      · simp [GlobalHookLoop, List.find?, h, vecContains]
      · simp [GlobalHookLoop, List.find?, h, ih]

/-- C5: for a named global `g`, `GlobalValueMatters` is true exactly when
some global rule's name equals `g`'s name as a string; `GlobalReadHook`
(respectively `GlobalWriteHook`) is true exactly when the first rule whose
name equals `g`'s name has Read (respectively Write) among its operations,
and false when no rule's name equals it. -/
theorem GlobalHooks_exact_name (P : PolicyFileData) (V : Value) :
    (V.hasName = true →
      (GlobalValueMatters P V = true ↔ ∃ G ∈ P.Globals, G.Name = V.getName)) ∧
    (GlobalReadHook P V =
      match P.Globals.find? (fun G => decide (G.Name = V.getName)) with
      | some G => decide (Operation.Read ∈ G.Operations)
      | none => false) ∧
    (GlobalWriteHook P V =
      match P.Globals.find? (fun G => decide (G.Name = V.getName)) with
      | some G => decide (Operation.Write ∈ G.Operations)
      | none => false) ∧
    ((∀ G ∈ P.Globals, G.Name ≠ V.getName) →
      GlobalReadHook P V = false ∧ GlobalWriteHook P V = false) := by
  refine ⟨?_, GlobalHookLoop_eq_find _ _ _, GlobalHookLoop_eq_find _ _ _, ?_⟩
  · intro hn
    simp [GlobalValueMatters, hn, GlobalValueMattersLoop_iff]
  · intro hnone
    have hfind : P.Globals.find? (fun G => decide (G.Name = V.getName)) = none :=
      find_none_of_all_false _ _ (fun G hG => by simp [hnone G hG])
    unfold GlobalReadHook GlobalWriteHook
    rw [GlobalHookLoop_eq_find, GlobalHookLoop_eq_find, hfind]
    exact ⟨rfl, rfl⟩

/-- C5 at a concrete policy: rules named `^g` and `g` do not select the
global `g1` (names are compared for equality, not matched as patterns), and
hook nothing on it. -/
theorem GlobalHooks_exact_name_witness :
    GlobalValueMatters
      { defaultPolicy with
        Globals := [⟨"^g", [Operation.Read]⟩, ⟨"g", [Operation.Read, Operation.Write]⟩] }
      ⟨some "g1"⟩ = false ∧
    GlobalReadHook
      { defaultPolicy with
        Globals := [⟨"^g", [Operation.Read]⟩, ⟨"g", [Operation.Read, Operation.Write]⟩] }
      ⟨some "g1"⟩ = false ∧
    GlobalWriteHook
      { defaultPolicy with
        Globals := [⟨"^g", [Operation.Read]⟩, ⟨"g", [Operation.Read, Operation.Write]⟩] }
      ⟨some "g1"⟩ = false :=
  ⟨Bool.eq_false_iff.2 fun h =>
      absurd (((GlobalHooks_exact_name
        { defaultPolicy with
          Globals := [⟨"^g", [Operation.Read]⟩, ⟨"g", [Operation.Read, Operation.Write]⟩] }
        ⟨some "g1"⟩).1 rfl).1 h) (by decide),
   (GlobalHooks_exact_name
      { defaultPolicy with
        Globals := [⟨"^g", [Operation.Read]⟩, ⟨"g", [Operation.Read, Operation.Write]⟩] }
      ⟨some "g1"⟩).2.2.2 (by decide)⟩

/-! ### The name matcher -/
namespace RE

theorem Matches.le {s : List Nat} {r : RE} {i j : Nat} (h : Matches s r i j) :
    i ≤ j ∧ (i < j → j ≤ s.length) := by
  induction h with
  | empty i => exact ⟨Nat.le_refl _, fun h => absurd h (Nat.lt_irrefl _)⟩
  | chr c i hget =>
      have := (List.get?_eq_some.1 hget).1
      exact ⟨Nat.le_succ _, fun _ => this⟩
  | any i hlt => exact ⟨Nat.le_succ _, fun _ => hlt⟩
  | set invert ranges c i hget _ =>
      have := (List.get?_eq_some.1 hget).1
      exact ⟨Nat.le_succ _, fun _ => this⟩
  | bol => exact ⟨Nat.le_refl _, fun h => absurd h (Nat.lt_irrefl _)⟩
  | eol => exact ⟨Nat.le_refl _, fun _ => Nat.le_refl _⟩
  | bow i _ => exact ⟨Nat.le_refl _, fun h => absurd h (Nat.lt_irrefl _)⟩
  | eow i _ => exact ⟨Nat.le_refl _, fun h => absurd h (Nat.lt_irrefl _)⟩
  | seq a b i k j _ _ ih1 ih2 =>
      refine ⟨Nat.le_trans ih1.1 ih2.1, fun hlt => ?_⟩
      by_cases hkj : k < j
      · exact ih2.2 hkj
      · have : k = j := by omega
        subst this
        exact ih1.2 hlt
  | altLeft a b i j _ ih => exact ih
  | altRight a b i j _ ih => exact ih
  | plusOne a i j _ ih => exact ih
  | plusCons a i k j _ _ ih1 ih2 =>
      refine ⟨Nat.le_trans ih1.1 ih2.1, fun hlt => ?_⟩
      by_cases hkj : k < j
      · exact ih2.2 hkj
      · have : k = j := by omega
        subst this
        exact ih1.2 hlt
  | group n a i j _ ih => exact ih
  | backref n body i j _ ih => exact ih

theorem plusEnds_of_one (f : Nat → List Nat) (fuel i j : Nat) (h : j ∈ f i) :
    j ∈ plusEnds f fuel i := by
  cases fuel with
  | zero => exact h
  | succ n =>
      simp only [plusEnds, List.mem_append]
      exact Or.inl h

theorem plusEnds_mono (f : Nat → List Nat) {n m : Nat} (hnm : n ≤ m) {k j : Nat}
    (h : j ∈ plusEnds f n k) : j ∈ plusEnds f m k := by
  induction n generalizing m k j with
  | zero => exact plusEnds_of_one f m k j h
  | succ n ih =>
      obtain ⟨m, rfl⟩ : ∃ m', m = m' + 1 := ⟨m - 1, by omega⟩
      simp only [plusEnds, List.mem_append, List.mem_flatMap, List.mem_filter,
        decide_eq_true_eq] at h ⊢
      rcases h with h | ⟨k2, hk2, hj⟩
      · exact Or.inl h
      · exact Or.inr ⟨k2, hk2, ih (by omega) hj⟩

theorem plusEnds_sound (s : List Nat) (a : RE)
    (iha : ∀ i j, j ∈ ends s a i → Matches s a i j) (fuel : Nat) :
    ∀ i j, j ∈ plusEnds (ends s a) fuel i → Matches s (RE.plus a) i j := by
  induction fuel with
  | zero =>
      intro i j h
      exact Matches.plusOne a i j (iha i j h)
  | succ fuel ih =>
      intro i j h
      simp only [plusEnds, List.mem_append, List.mem_flatMap, List.mem_filter,
        decide_eq_true_eq] at h
      rcases h with h | ⟨k, hk, hj⟩
      · exact Matches.plusOne a i j (iha i j h)
      · exact Matches.plusCons a i k j (iha i k hk.1) (ih k j hj)

theorem ends_sound (s : List Nat) (r : RE) :
    ∀ i j, j ∈ ends s r i → Matches s r i j := by
  induction r with
  | empty =>
      intro i j h
      simp only [ends, List.mem_singleton] at h
      subst h
      exact Matches.empty j
  | chr c =>
      intro i j h
      simp only [ends] at h
      split at h
      · rename_i hget
        simp only [List.mem_singleton] at h
        subst h
        exact Matches.chr c i hget
      · simp at h
  | any =>
      intro i j h
      simp only [ends] at h
      split at h
      · rename_i hlt
        simp only [List.mem_singleton] at h
        subst h
        exact Matches.any i hlt
      · simp at h
  | set invert ranges =>
      intro i j h
      simp only [ends] at h
      split at h
      · rename_i c hget
        split at h
        · rename_i hin
          simp only [List.mem_singleton] at h
          subst h
          exact Matches.set invert ranges c i hget hin
        · simp at h
      · simp at h
  | bol =>
      intro i j h
      simp only [ends] at h
      split at h
      · rename_i hi
        simp only [List.mem_singleton] at h
        subst h
        subst hi
        exact Matches.bol
      · simp at h
  | eol =>
      intro i j h
      simp only [ends] at h
      split at h
      · rename_i hi
        simp only [List.mem_singleton] at h
        subst h
        subst hi
        exact Matches.eol
      · simp at h
  | bow =>
      intro i j h
      simp only [ends] at h
      split at h
      · rename_i hi
        simp only [List.mem_singleton] at h
        subst h
        exact Matches.bow j hi
      · simp at h
  | eow =>
      intro i j h
      simp only [ends] at h
      split at h
      · rename_i hi
        simp only [List.mem_singleton] at h
        subst h
        exact Matches.eow j hi
      · simp at h
  | seq a b iha ihb =>
      intro i j h
      simp only [ends, List.mem_flatMap] at h
      obtain ⟨k, hk, hj⟩ := h
      exact Matches.seq a b i k j (iha i k hk) (ihb k j hj)
  | alt a b iha ihb =>
      intro i j h
      simp only [ends, List.mem_append] at h
      rcases h with h | h
      · exact Matches.altLeft a b i j (iha i j h)
      · exact Matches.altRight a b i j (ihb i j h)
  | plus a iha =>
      intro i j h
      simp only [ends] at h
      exact plusEnds_sound s a iha _ i j h
  | group n a iha =>
      intro i j h
      simp only [ends] at h
      exact Matches.group n a i j (iha i j h)
  | backref n body ih =>
      intro i j h
      simp only [ends] at h
      exact Matches.backref n body i j (ih i j h)

theorem ends_complete (s : List Nat) {r : RE} {i j : Nat} (h : Matches s r i j) :
    j ∈ ends s r i := by
  induction h with
  | empty i => simp [ends]
  | chr c i hget =>
      have hget2 : s[i]? = some c := by simpa using hget
      simp [ends, hget2]
  | any i hlt => simp [ends, hlt]
  | set invert ranges c i hget hin =>
      have hget2 : s[i]? = some c := by simpa using hget
      simp [ends, hget2, hin]
  | bol => simp [ends]
  | eol => simp [ends]
  | bow i hi => simp [ends, hi]
  | eow i hi => simp [ends, hi]
  | seq a b i k j _ _ ih1 ih2 =>
      simp only [ends, List.mem_flatMap]
      exact ⟨k, ih1, ih2⟩
  | altLeft a b i j _ ih => simp [ends, ih]
  | altRight a b i j _ ih => simp [ends, ih]
  | plusOne a i j _ ih =>
      simp only [ends]
      exact plusEnds_of_one _ _ _ _ ih
  | plusCons a i k j h1 _ ih1 ih2 =>
      simp only [ends] at ih2 ⊢
      by_cases hik : i < k
      · have hk : k ≤ s.length := h1.le.2 hik
        obtain ⟨n, hn⟩ : ∃ n, s.length - i = n + 1 := ⟨s.length - i - 1, by omega⟩
        rw [hn]
        simp only [plusEnds, List.mem_append, List.mem_flatMap, List.mem_filter,
          decide_eq_true_eq]
        exact Or.inr ⟨k, ⟨ih1, hik⟩, plusEnds_mono _ (by omega) ih2⟩
      · have : k = i := by
          have := h1.le.1
          omega
        subst this
        exact ih2
  | group n a i j _ ih =>
      simp only [ends]
      exact ih
  | backref n body i j _ ih =>
      simp only [ends]
      exact ih

theorem mem_ends_iff (s : List Nat) (r : RE) (i j : Nat) :
    j ∈ ends s r i ↔ Matches s r i j :=
  ⟨ends_sound s r i j, ends_complete s⟩

theorem MatchesB_le {s : List Nat} {r : RE} {x y : Nat × Env} (h : MatchesB s r x y) :
    x.1 ≤ y.1 ∧ (x.1 < y.1 → y.1 ≤ s.length) := by
  induction h with
  | empty x => exact ⟨Nat.le_refl _, fun h => absurd h (Nat.lt_irrefl _)⟩
  | chr c x hget =>
      have := (List.get?_eq_some.1 hget).1
      exact ⟨Nat.le_succ _, fun _ => this⟩
  | any x hlt => exact ⟨Nat.le_succ _, fun _ => hlt⟩
  | set invert ranges c x hget _ =>
      have := (List.get?_eq_some.1 hget).1
      exact ⟨Nat.le_succ _, fun _ => this⟩
  | bol x _ => exact ⟨Nat.le_refl _, fun h => absurd h (Nat.lt_irrefl _)⟩
  | eol x _ => exact ⟨Nat.le_refl _, fun h => absurd h (Nat.lt_irrefl _)⟩
  | bow x _ => exact ⟨Nat.le_refl _, fun h => absurd h (Nat.lt_irrefl _)⟩
  | eow x _ => exact ⟨Nat.le_refl _, fun h => absurd h (Nat.lt_irrefl _)⟩
  | seq a b x y z _ _ ih1 ih2 =>
      refine ⟨Nat.le_trans ih1.1 ih2.1, fun hlt => ?_⟩
      by_cases hkj : y.1 < z.1
      · exact ih2.2 hkj
      · have : y.1 = z.1 := by omega
        rw [← this]
        exact ih1.2 (by omega)
  | altLeft a b x y _ ih => exact ih
  | altRight a b x y _ ih => exact ih
  | plusOne a x y _ ih => exact ih
  | plusCons a x y z _ _ _ ih1 ih2 =>
      refine ⟨Nat.le_trans ih1.1 ih2.1, fun hlt => ?_⟩
      by_cases hkj : y.1 < z.1
      · exact ih2.2 hkj
      · have : y.1 = z.1 := by omega
        rw [← this]
        exact ih1.2 (by omega)
  | group n a x y _ ih => exact ih
  | backref n body x so eo _ hle _ => exact ⟨Nat.le_add_right _ _, fun _ => hle⟩

theorem plusEndsB_of_one (f : Nat × Env → List (Nat × Env)) (fuel : Nat) (x y : Nat × Env)
    (h : y ∈ f x) : y ∈ plusEndsB f fuel x := by
  cases fuel with
  | zero => exact h
  | succ n =>
      simp only [plusEndsB, List.mem_append]
      exact Or.inl h

theorem plusEndsB_mono (f : Nat × Env → List (Nat × Env)) {n m : Nat} (hnm : n ≤ m)
    {x y : Nat × Env} (h : y ∈ plusEndsB f n x) : y ∈ plusEndsB f m x := by
  induction n generalizing m x y with
  | zero => exact plusEndsB_of_one f m x y h
  | succ n ih =>
      obtain ⟨m, rfl⟩ : ∃ m', m = m' + 1 := ⟨m - 1, by omega⟩
      simp only [plusEndsB, List.mem_append, List.mem_flatMap, List.mem_filter,
        decide_eq_true_eq] at h ⊢
      rcases h with h | ⟨k2, hk2, hj⟩
      · exact Or.inl h
      · exact Or.inr ⟨k2, hk2, ih (by omega) hj⟩

theorem plusEndsB_sound (s : List Nat) (a : RE)
    (iha : ∀ x y, y ∈ endsB s a x → MatchesB s a x y) (fuel : Nat) :
    ∀ x y, y ∈ plusEndsB (endsB s a) fuel x → MatchesB s (RE.plus a) x y := by
  induction fuel with
  | zero =>
      intro x y h
      exact MatchesB.plusOne a x y (iha x y h)
  | succ fuel ih =>
      intro x y h
      simp only [plusEndsB, List.mem_append, List.mem_flatMap, List.mem_filter,
        decide_eq_true_eq] at h
      rcases h with h | ⟨k, hk, hj⟩
      · exact MatchesB.plusOne a x y (iha x y h)
      · exact MatchesB.plusCons a x k y (iha x k hk.1) hk.2 (ih k y hj)

theorem endsB_sound (s : List Nat) (r : RE) :
    ∀ x y, y ∈ endsB s r x → MatchesB s r x y := by
  induction r with
  | empty =>
      intro x y h
      simp only [endsB, List.mem_singleton] at h
      subst h
      exact MatchesB.empty y
  | chr c =>
      intro x y h
      simp only [endsB] at h
      split at h
      · rename_i hget
        simp only [List.mem_singleton] at h
        subst h
        exact MatchesB.chr c x hget
      · simp at h
  | any =>
      intro x y h
      simp only [endsB] at h
      split at h
      · rename_i hlt
        simp only [List.mem_singleton] at h
        subst h
        exact MatchesB.any x hlt
      · simp at h
  | set invert ranges =>
      intro x y h
      simp only [endsB] at h
      split at h
      · rename_i c hget
        split at h
        · rename_i hin
          simp only [List.mem_singleton] at h
          subst h
          exact MatchesB.set invert ranges c x hget hin
        · simp at h
      · simp at h
  | bol =>
      intro x y h
      simp only [endsB] at h
      split at h
      · rename_i hi
        simp only [List.mem_singleton] at h
        subst h
        exact MatchesB.bol y hi
      · simp at h
  | eol =>
      intro x y h
      simp only [endsB] at h
      split at h
      · rename_i hi
        simp only [List.mem_singleton] at h
        subst h
        exact MatchesB.eol y hi
      · simp at h
  | bow =>
      intro x y h
      simp only [endsB] at h
      split at h
      · rename_i hi
        simp only [List.mem_singleton] at h
        subst h
        exact MatchesB.bow y hi
      · simp at h
  | eow =>
      intro x y h
      simp only [endsB] at h
      split at h
      · rename_i hi
        simp only [List.mem_singleton] at h
        subst h
        exact MatchesB.eow y hi
      · simp at h
  | seq a b iha ihb =>
      intro x y h
      simp only [endsB, List.mem_flatMap] at h
      obtain ⟨k, hk, hj⟩ := h
      exact MatchesB.seq a b x k y (iha x k hk) (ihb k y hj)
  | alt a b iha ihb =>
      intro x y h
      simp only [endsB, List.mem_append] at h
      rcases h with h | h
      · exact MatchesB.altLeft a b x y (iha x y h)
      · exact MatchesB.altRight a b x y (ihb x y h)
  | plus a iha =>
      intro x y h
      simp only [endsB] at h
      exact plusEndsB_sound s a iha _ x y h
  | group n a iha =>
      intro x y h
      simp only [endsB, List.mem_map] at h
      obtain ⟨z, hz, rfl⟩ := h
      exact MatchesB.group n a x z (iha x z hz)
  | backref n body _ =>
      intro x y h
      simp only [endsB] at h
      split at h
      · rename_i so eo hlook
        split at h
        · rename_i hcond
          simp only [List.mem_singleton] at h
          subst h
          exact MatchesB.backref n body x so eo hlook hcond.1 hcond.2
        · simp at h
      · simp at h

theorem endsB_complete (s : List Nat) {r : RE} {x y : Nat × Env} (h : MatchesB s r x y) :
    y ∈ endsB s r x := by
  induction h with
  | empty x => simp [endsB]
  | chr c x hget =>
      have hget2 : s[x.1]? = some c := by simpa using hget
      simp [endsB, hget2]
  | any x hlt => simp [endsB, hlt]
  | set invert ranges c x hget hin =>
      have hget2 : s[x.1]? = some c := by simpa using hget
      simp [endsB, hget2, hin]
  | bol x hx => simp [endsB, hx]
  | eol x hx => simp [endsB, hx]
  | bow x hx => simp [endsB, hx]
  | eow x hx => simp [endsB, hx]
  | seq a b x y z _ _ ih1 ih2 =>
      simp only [endsB, List.mem_flatMap]
      exact ⟨y, ih1, ih2⟩
  | altLeft a b x y _ ih => simp [endsB, ih]
  | altRight a b x y _ ih => simp [endsB, ih]
  | plusOne a x y _ ih =>
      simp only [endsB]
      exact plusEndsB_of_one _ _ _ _ ih
  | plusCons a x y z h1 hlt _ ih1 ih2 =>
      simp only [endsB] at ih2 ⊢
      have hk : y.1 ≤ s.length := (MatchesB_le h1).2 hlt
      obtain ⟨n, hn⟩ : ∃ n, s.length - x.1 = n + 1 := ⟨s.length - x.1 - 1, by omega⟩
      rw [hn]
      simp only [plusEndsB, List.mem_append, List.mem_flatMap, List.mem_filter,
        decide_eq_true_eq]
      exact Or.inr ⟨y, ⟨ih1, hlt⟩, plusEndsB_mono _ (by omega) ih2⟩
  | group n a x y _ ih =>
      simp only [endsB, List.mem_map]
      exact ⟨y, ih, rfl⟩
  | backref n body x so eo hlook hle heq =>
      simp only [endsB, hlook]
      rw [if_pos ⟨hle, heq⟩]
      exact List.mem_singleton.2 rfl

theorem mem_endsB_iff (s : List Nat) (r : RE) (x y : Nat × Env) :
    y ∈ endsB s r x ↔ MatchesB s r x y :=
  ⟨endsB_sound s r x y, endsB_complete s⟩

theorem search_iff (r : RE) (backrefs : Bool) (s : List Nat) :
    search r backrefs s = true ↔
      ∃ i j, i ≤ j ∧ j ≤ s.length ∧ Matches s r i j ∧
        (backrefs = true → ∃ e, MatchesB s r (i, []) (j, e)) := by
  unfold search
  rw [List.any_eq_true]
  constructor
  · rintro ⟨i, hi, hne⟩
    rw [List.mem_range] at hi
    rw [List.any_eq_true] at hne
    obtain ⟨j, hj, hb⟩ := hne
    have hm : Matches s r i j := ends_sound s r i j hj
    refine ⟨i, j, hm.le.1, ?_, hm, ?_⟩
    · by_cases hij : i < j
      · exact hm.le.2 hij
      · have := hm.le.1
        omega
    · intro hbt
      rw [hbt] at hb
      simp only [Bool.not_true, Bool.false_or, List.any_eq_true, decide_eq_true_eq] at hb
      obtain ⟨y, hy, hyj⟩ := hb
      refine ⟨y.2, ?_⟩
      have := endsB_sound s r (i, []) y hy
      rw [← hyj]
      exact this
  · rintro ⟨i, j, hij, hj, hm, hb⟩
    refine ⟨i, List.mem_range.2 (by omega), ?_⟩
    rw [List.any_eq_true]
    refine ⟨j, ends_complete s hm, ?_⟩
    cases hbt : backrefs with
    | false => rfl
    | true =>
        obtain ⟨e, he⟩ := hb hbt
        simp only [Bool.not_true, Bool.false_or, List.any_eq_true, decide_eq_true_eq]
        exact ⟨(j, e), endsB_complete s he, rfl⟩

end RE

/-! #### The parser's fuel -/

theorem p_count_loop_length (inp : List Nat) (count nd : Nat) :
    (p_count_loop inp count nd).2.2.length ≤ inp.length := by
  induction inp generalizing count nd with
  | nil => simp [p_count_loop]
  | cons c rest ih =>
      simp only [p_count_loop]
      split
      · exact Nat.le_succ_of_le (ih _ _)
      · exact Nat.le_refl _

theorem p_count_length {inp : List Nat} {k : Nat} {rest : List Nat}
    (h : p_count inp = some (k, rest)) : rest.length ≤ inp.length := by
  simp only [p_count] at h
  split at h
  · simp only [Option.some.injEq, Prod.mk.injEq] at h
    rw [← h.2]
    exact p_count_loop_length inp 0 0
  · exact absurd h (by simp)

theorem p_bound_length {atom : RE} {inp : List Nat} {x : Option RE} {rest : List Nat}
    (h : p_bound atom inp = some (x, rest)) : rest.length ≤ inp.length := by
  unfold p_bound at h
  cases hc : p_count inp with
  | none => rw [hc] at h; exact absurd h (by simp)
  | some r =>
      obtain ⟨count, r1⟩ := r
      rw [hc] at h
      have h1 := p_count_length hc
      dsimp only at h
      split at h
      · exact absurd h (by simp)
      · rename_i count2 r3 hcounts
        have h3 : r3.length ≤ r1.length := by
          split at hcounts
          · rename_i c r2
            split at hcounts
            · split at hcounts
              · split at hcounts
                · rename_i count2b r3b hc2
                  split at hcounts
                  · simp only [Option.some.injEq, Prod.mk.injEq] at hcounts
                    rw [← hcounts.2]
                    exact Nat.le_succ_of_le (p_count_length hc2)
                  · exact absurd hcounts (by simp)
                · exact absurd hcounts (by simp)
              · simp only [Option.some.injEq, Prod.mk.injEq] at hcounts
                rw [← hcounts.2]
                exact Nat.le_succ _
            · simp only [Option.some.injEq, Prod.mk.injEq] at hcounts
              rw [← hcounts.2]
          · simp only [Option.some.injEq, Prod.mk.injEq] at hcounts
            rw [← hcounts.2]
        split at h
        · rename_i c r4
          split at h
          · simp only [Option.some.injEq, Prod.mk.injEq] at h
            rw [← h.2]
            simp only [List.length_cons] at h3
            omega
          · exact absurd h (by simp)
        · exact absurd h (by simp)

theorem p_repetition_length {atom : RE} {w : Bool} {inp : List Nat} {x : Option RE}
    {rest : List Nat} (h : p_repetition atom w inp = some (x, rest)) :
    rest.length ≤ inp.length := by
  unfold p_repetition at h
  split at h
  · split at h
    · exact absurd h (by simp)
    · split at h
      · exact absurd h (by simp)
      · rename_i c r
        dsimp only at h
        split at h
        · rename_i y rest2 hr
          split at h
          · exact absurd h (by simp)
          · simp only [Option.some.injEq, Prod.mk.injEq] at h
            rw [← h.2]
            split at hr
            · simp only [Option.some.injEq, Prod.mk.injEq] at hr
              rw [← hr.2]
              exact Nat.le_succ _
            · split at hr
              · simp only [Option.some.injEq, Prod.mk.injEq] at hr
                rw [← hr.2]
                exact Nat.le_succ _
              · split at hr
                · simp only [Option.some.injEq, Prod.mk.injEq] at hr
                  rw [← hr.2]
                  exact Nat.le_succ _
                · exact Nat.le_succ_of_le (p_bound_length hr)
        · exact absurd h (by simp)
  · simp only [Option.some.injEq, Prod.mk.injEq] at h
    rw [← h.2]

theorem spanAlpha_length (inp : List Nat) : (spanAlpha inp).2.length ≤ inp.length := by
  induction inp with
  | nil => simp [spanAlpha]
  | cons c rest ih =>
      simp only [spanAlpha]
      split
      · exact Nat.le_succ_of_le ih
      · exact Nat.le_refl _

theorem p_b_cclass_length {inp : List Nat} {items : List (Nat × Nat)} {rest : List Nat}
    (h : p_b_cclass inp = some (items, rest)) : rest.length ≤ inp.length := by
  unfold p_b_cclass at h
  split at h
  · simp only [Option.some.injEq, Prod.mk.injEq] at h
    rw [← h.2]
    exact spanAlpha_length inp
  · exact absurd h (by simp)

theorem spanCollElem_length (endc : Nat) {inp : List Nat} {name rest : List Nat}
    (h : spanCollElem endc inp = some (name, rest)) : rest.length ≤ inp.length := by
  induction inp generalizing name rest with
  | nil => simp [spanCollElem] at h
  | cons c r ih =>
      simp only [spanCollElem] at h
      split at h
      · simp only [Option.some.injEq, Prod.mk.injEq] at h
        rw [← h.2]
      · cases hs : spanCollElem endc r with
        | none => rw [hs] at h; exact absurd h (by simp)
        | some q =>
            rw [hs] at h
            simp only [Option.map_some', Option.some.injEq, Prod.mk.injEq] at h
            rw [← h.2]
            exact Nat.le_succ_of_le (@ih q.1 q.2 (by rw [hs]))

theorem p_b_coll_elem_length {endc : Nat} {inp : List Nat} {v : Nat} {rest : List Nat}
    (h : p_b_coll_elem endc inp = some (v, rest)) : rest.length ≤ inp.length := by
  unfold p_b_coll_elem at h
  split at h
  · exact absurd h (by simp)
  · rename_i name r hs
    have hr := spanCollElem_length endc hs
    split at h
    · simp only [Option.some.injEq, Prod.mk.injEq] at h
      rw [← h.2]
      exact hr
    · split at h
      · simp only [Option.some.injEq, Prod.mk.injEq] at h
        rw [← h.2]
        exact hr
      · exact absurd h (by simp)

theorem p_b_symbol_length {inp : List Nat} {v : Nat} {rest : List Nat}
    (h : p_b_symbol inp = some (v, rest)) : rest.length < inp.length := by
  unfold p_b_symbol at h
  split at h
  · exact absurd h (by simp)
  · rename_i c r
    split at h
    · split at h
      · rename_i v2 r2 hce
        have hr := p_b_coll_elem_length hce
        have ht : r.tail.length ≤ r.length := by
          cases r <;> simp
        split at h
        · rename_i d e r3
          split at h
          · simp only [Option.some.injEq, Prod.mk.injEq] at h
            rw [← h.2]
            simp only [List.length_cons] at hr ⊢
            omega
          · exact absurd h (by simp)
        · exact absurd h (by simp)
      · exact absurd h (by simp)
    · simp only [Option.some.injEq, Prod.mk.injEq] at h
      rw [← h.2]
      exact Nat.lt_succ_self _

theorem p_b_term_length {inp : List Nat} {items : List (Nat × Nat)} {rest : List Nat}
    (h : p_b_term inp = some (items, rest)) : rest.length < inp.length := by
  unfold p_b_term at h
  split at h
  · exact absurd h (by simp)
  · rename_i c r
    have ht : r.tail.length ≤ r.length := by
      cases r <;> simp
    split at h
    · exact absurd h (by simp)
    · split at h
      · split at h
        · exact absurd h (by simp)
        · rename_i c2 rest2 htail
          split at h
          · exact absurd h (by simp)
          · split at h
            · rename_i items2 d e r2 hcc
              have hl := p_b_cclass_length hcc
              split at h
              · simp only [Option.some.injEq, Prod.mk.injEq] at h
                rw [← h.2]
                rw [htail] at ht
                simp only [List.length_cons] at hl ht ⊢
                omega
              · exact absurd h (by simp)
            · exact absurd h (by simp)
      · split at h
        · split at h
          · exact absurd h (by simp)
          · rename_i c2 rest2 htail
            split at h
            · exact absurd h (by simp)
            · split at h
              · rename_i v d e r2 hcc
                have hl := p_b_coll_elem_length hcc
                split at h
                · simp only [Option.some.injEq, Prod.mk.injEq] at h
                  rw [← h.2]
                  rw [htail] at ht
                  simp only [List.length_cons] at hl ht ⊢
                  omega
                · exact absurd h (by simp)
              · exact absurd h (by simp)
        · split at h
          · exact absurd h (by simp)
          · rename_i start r1 hsym
            have hl := p_b_symbol_length hsym
            split at h
            · rename_i d e r2
              split at h
              · split at h
                · split at h
                  · simp only [Option.some.injEq, Prod.mk.injEq] at h
                    rw [← h.2]
                    simp only [List.length_cons] at hl ⊢
                    omega
                  · exact absurd h (by simp)
                · split at h
                  · rename_i finish r3 hsym2
                    have hl2 := p_b_symbol_length hsym2
                    split at h
                    · simp only [Option.some.injEq, Prod.mk.injEq] at h
                      rw [← h.2]
                      simp only [List.length_cons] at hl hl2 ⊢
                      omega
                    · exact absurd h (by simp)
                  · exact absurd h (by simp)
              · simp only [Option.some.injEq, Prod.mk.injEq] at h
                rw [← h.2]
                exact hl
            · simp only [Option.some.injEq, Prod.mk.injEq] at h
              rw [← h.2]
              exact hl

theorem p_b_terms_length (fuel : Nat) : ∀ {inp : List Nat} {acc items : List (Nat × Nat)}
    {rest : List Nat}, p_b_terms fuel inp acc = some (items, rest) →
    rest.length ≤ inp.length := by
  induction fuel with
  | zero => intro inp acc items rest h; simp [p_b_terms] at h
  | succ fuel ih =>
      intro inp acc items rest h
      simp only [p_b_terms] at h
      split at h
      · simp only [Option.some.injEq, Prod.mk.injEq] at h
        rw [← h.2]
      · rename_i c r
        split at h
        · simp only [Option.some.injEq, Prod.mk.injEq] at h
          rw [← h.2]
        · split at h
          · simp only [Option.some.injEq, Prod.mk.injEq] at h
            rw [← h.2]
          · split at h
            · rename_i items2 r2 hterm
              have := p_b_term_length hterm
              have := ih h
              omega
            · exact absurd h (by simp)

theorem p_b_terms_fuel (fuel : Nat) : ∀ (inp : List Nat) (acc : List (Nat × Nat)) (fuel2 : Nat),
    inp.length < fuel → fuel ≤ fuel2 → p_b_terms fuel2 inp acc = p_b_terms fuel inp acc := by
  induction fuel with
  | zero => intro inp acc fuel2 h; exact absurd h (Nat.not_lt_zero _)
  | succ fuel ih =>
      intro inp acc fuel2 hlen hle
      obtain ⟨f2, rfl⟩ : ∃ f2, fuel2 = f2 + 1 := ⟨fuel2 - 1, by omega⟩
      simp only [p_b_terms]
      cases inp with
      | nil => rfl
      | cons c r =>
          dsimp only
          split
          · rfl
          · split
            · rfl
            · cases hterm : p_b_term (c :: r) with
              | none => rfl
              | some q =>
                  obtain ⟨items2, r2⟩ := q
                  have := p_b_term_length hterm
                  dsimp only
                  exact ih r2 _ f2 (by simp only [List.length_cons] at hlen this; omega) (by omega)

theorem p_bracket_length {inp : List Nat} {a : RE} {rest : List Nat}
    (h : p_bracket inp = some (a, rest)) : rest.length ≤ inp.length := by
  unfold p_bracket at h
  split at h
  · simp only [Option.some.injEq, Prod.mk.injEq] at h
    rw [← h.2]
    simp
  · split at h
    · simp only [Option.some.injEq, Prod.mk.injEq] at h
      rw [← h.2]
      simp
    · generalize hinv : (match inp with
        | c :: r => if c = ch '^' then (true, r) else (false, inp)
        | [] => (false, inp)) = q1 at h
      obtain ⟨invert, inp1⟩ := q1
      have h1 : inp1.length ≤ inp.length := by
        split at hinv
        · split at hinv
          · simp only [Prod.mk.injEq] at hinv
            rw [← hinv.2]
            exact Nat.le_succ _
          · simp only [Prod.mk.injEq] at hinv
            rw [← hinv.2]
        · simp only [Prod.mk.injEq] at hinv
          rw [← hinv.2]
      dsimp only at h
      generalize hfirst : (match inp1 with
        | c :: r =>
          if c = ch ']' then ([(ch ']', ch ']')], r)
          else if c = ch '-' then ([(ch '-', ch '-')], r) else ([], inp1)
        | [] => ([], inp1)) = q2 at h
      obtain ⟨first, inp2⟩ := q2
      have h2 : inp2.length ≤ inp1.length := by
        split at hfirst
        · split at hfirst
          · simp only [Prod.mk.injEq] at hfirst
            rw [← hfirst.2]
            exact Nat.le_succ _
          · split at hfirst
            · simp only [Prod.mk.injEq] at hfirst
              rw [← hfirst.2]
              exact Nat.le_succ _
            · simp only [Prod.mk.injEq] at hfirst
              rw [← hfirst.2]
        · simp only [Prod.mk.injEq] at hfirst
          rw [← hfirst.2]
      dsimp only at h
      cases hterms : p_b_terms (inp2.length + 1) inp2 first with
      | none => rw [hterms] at h; exact absurd h (by simp)
      | some q3 =>
          obtain ⟨items, inp3⟩ := q3
          rw [hterms] at h
          have h3 := p_b_terms_length _ hterms
          dsimp only at h
          generalize hlast : (match inp3 with
            | c :: r => if c = ch '-' then (items ++ [(ch '-', ch '-')], r) else (items, inp3)
            | [] => (items, inp3)) = q4 at h
          obtain ⟨items2, inp4⟩ := q4
          have h4 : inp4.length ≤ inp3.length := by
            split at hlast
            · split at hlast
              · simp only [Prod.mk.injEq] at hlast
                rw [← hlast.2]
                exact Nat.le_succ _
              · simp only [Prod.mk.injEq] at hlast
                rw [← hlast.2]
            · simp only [Prod.mk.injEq] at hlast
              rw [← hlast.2]
          dsimp only at h
          split at h
          · split at h
            · simp only [Option.some.injEq, Prod.mk.injEq] at h
              rw [← h.2]
              simp only [List.length_cons] at h4
              omega
            · exact absurd h (by simp)
          · exact absurd h (by simp)

theorem p_ere_exp_length {sub : ParseState → List Nat → Option (RE × List Nat × ParseState)}
    {st : ParseState} {c : Nat} {rest : List Nat} {x : Option RE} {rest2 : List Nat}
    {st2 : ParseState}
    (hsub : ∀ st1 r, sub st1 rest = some r → r.2.1.length ≤ rest.length)
    (h : p_ere_exp sub st c rest = some (x, rest2, st2)) : rest2.length ≤ rest.length := by
  have hrep : ∀ {atom : RE} {w : Bool} {inp : List Nat} {st3 : ParseState},
      ((p_repetition atom w inp).map fun r => (r.1, r.2, st3)) = some (x, rest2, st2) →
      rest2.length ≤ inp.length := by
    intro atom w inp st3 hr
    cases hp : p_repetition atom w inp with
    | none => rw [hp] at hr; exact absurd hr (by simp)
    | some q =>
        rw [hp] at hr
        simp only [Option.map_some', Option.some.injEq, Prod.mk.injEq] at hr
        rw [← hr.2.1]
        exact @p_repetition_length atom w inp q.1 q.2 hp
  unfold p_ere_exp at h
  split at h
  · dsimp only at h
    split at h
    · rename_i g c3 r2 st2b hinner
      split at h
      · have hl := hrep h
        have hin : (c3 :: r2).length ≤ rest.length := by
          split at hinner
          · exact absurd hinner (by simp)
          · split at hinner
            · simp only [Option.some.injEq, Prod.mk.injEq] at hinner
              rw [← hinner.2.1]
            · exact hsub _ _ hinner
        simp only [List.length_cons] at hin
        omega
      · exact absurd h (by simp)
    · exact absurd h (by simp)
  · split at h
    · exact absurd h (by simp)
    · split at h
      · exact hrep h
      · split at h
        · exact hrep h
        · split at h
          · exact hrep h
          · split at h
            · split at h
              · rename_i a r2 hb
                have := p_bracket_length hb
                have := hrep h
                omega
              · exact absurd h (by simp)
            · split at h
              · split at h
                · exact absurd h (by simp)
                · rename_i e r2
                  split at h
                  · split at h
                    · exact absurd h (by simp)
                    · have := hrep h
                      simp only [List.length_cons]
                      omega
                  · have := hrep h
                    simp only [List.length_cons]
                    omega
              · split at h
                · exact absurd h (by simp)
                · exact hrep h

theorem p_ere_exp_congr {sub1 sub2 : ParseState → List Nat → Option (RE × List Nat × ParseState)}
    (st : ParseState) (c : Nat) (rest : List Nat)
    (hsub : ∀ st1, sub1 st1 rest = sub2 st1 rest) :
    p_ere_exp sub1 st c rest = p_ere_exp sub2 st c rest := by
  unfold p_ere_exp
  simp only [hsub]

theorem p_ere_length (fuel : Nat) : ∀ (stop : Option Nat) (alts branch : Option RE)
    (st : ParseState) (inp : List Nat) (r : RE × List Nat × ParseState),
    p_ere fuel stop alts branch st inp = some r → r.2.1.length ≤ inp.length := by
  induction fuel with
  | zero => intro stop alts branch st inp r h; simp [p_ere] at h
  | succ fuel ih =>
      intro stop alts branch st inp r h
      simp only [p_ere] at h
      split at h
      · cases branch with
        | none => exact absurd h (by simp)
        | some b =>
            simp only [Option.map_some', Option.some.injEq] at h
            rw [← h]
      · rename_i c rest
        split at h
        · split at h
          · exact Nat.le_succ_of_le (ih _ _ _ _ _ _ h)
          · exact absurd h (by simp)
        · split at h
          · cases branch with
            | none => exact absurd h (by simp)
            | some b =>
                simp only [Option.map_some', Option.some.injEq] at h
                rw [← h]
          · split at h
            · rename_i x rest2 st2 hexp
              have h1 := p_ere_exp_length (fun st1 r hr => ih _ _ _ st1 rest r hr) hexp
              have h2 := ih _ _ _ _ _ _ h
              simp only [List.length_cons]
              omega
            · exact absurd h (by simp)

theorem p_ere_fuel (fuel : Nat) : ∀ (stop : Option Nat) (alts branch : Option RE)
    (st : ParseState) (inp : List Nat) (fuel2 : Nat), inp.length < fuel → fuel ≤ fuel2 →
    p_ere fuel2 stop alts branch st inp = p_ere fuel stop alts branch st inp := by
  induction fuel with
  | zero => intro stop alts branch st inp fuel2 h; exact absurd h (Nat.not_lt_zero _)
  | succ fuel ih =>
      intro stop alts branch st inp fuel2 hlen hle
      obtain ⟨f2, rfl⟩ : ∃ f2, fuel2 = f2 + 1 := ⟨fuel2 - 1, by omega⟩
      have hf : fuel ≤ f2 := by omega
      cases inp with
      | nil => simp only [p_ere]
      | cons c rest =>
          have hrest : rest.length < fuel := by
            simp only [List.length_cons] at hlen
            omega
          simp only [p_ere]
          split
          · cases branch with
            | none => rfl
            | some b => exact ih _ _ _ _ rest f2 hrest hf
          · split
            · rfl
            · have hexp : p_ere_exp (p_ere f2 (some (ch ')')) none none) st c rest =
                  p_ere_exp (p_ere fuel (some (ch ')')) none none) st c rest :=
                p_ere_exp_congr st c rest (fun st1 => ih _ _ _ st1 rest f2 hrest hf)
              rw [hexp]
              cases hq : p_ere_exp (p_ere fuel (some (ch ')')) none none) st c rest with
              | none => rfl
              | some q =>
                  obtain ⟨x, rest2, st2⟩ := q
                  have h1 := p_ere_exp_length
                    (fun st1 r hr => p_ere_length fuel _ _ _ st1 rest r hr) hq
                  exact ih _ _ _ _ rest2 f2 (by omega) hf

theorem parsePattern_fuel (p : String) (fuel : Nat) (h : (bytes p).length < fuel) :
    p_ere fuel none none none ⟨0, [], false⟩ (bytes p) =
      p_ere ((bytes p).length + 1) none none none ⟨0, [], false⟩ (bytes p) :=
  p_ere_fuel _ _ _ _ _ _ fuel (Nat.lt_succ_self _) h

theorem repeatLoop_fuel (x : RE) (fuel : Nat) : ∀ (lo : Nat) (hi : Option Nat) (fuel2 : Nat),
    max lo (hi.getD 0) < fuel → fuel ≤ fuel2 →
    repeatLoop x fuel2 lo hi = repeatLoop x fuel lo hi := by
  induction fuel with
  | zero => intro lo hi fuel2 h; exact absurd h (Nat.not_lt_zero _)
  | succ fuel ih =>
      intro lo hi fuel2 hlt hle
      obtain ⟨f2, rfl⟩ : ∃ f2, fuel2 = f2 + 1 := ⟨fuel2 - 1, by omega⟩
      simp only [repeatLoop]
      split
      · rename_i hlo
        cases hi with
        | none => rfl
        | some n =>
            dsimp only
            split
            · rfl
            · rename_i hn
              simp only [Option.getD_some] at hlt
              rw [ih 1 (some (n - 1)) f2 (by simp only [Option.getD_some]; omega) (by omega)]
      · rename_i hlo
        cases hi with
        | none =>
            simp only [Option.getD_none] at hlt
            rw [ih (lo - 1) (Option.map (fun n => n - 1) none) f2
              (by simp only [Option.map_none', Option.getD_none]; omega) (by omega)]
        | some n =>
            simp only [Option.getD_some] at hlt
            rw [ih (lo - 1) (Option.map (fun n => n - 1) (some n)) f2
              (by simp only [Option.map_some', Option.getD_some]; omega) (by omega)]

theorem MatchName_llvmRegex_valid (p c : String) (r : RE × Bool) (hp : parsePattern p = some r) :
    MatchName llvmRegex p c = r.1.search r.2 (bytes c) := by
  simp [MatchName, llvmRegex, hp]

theorem MatchName_llvmRegex_invalid (p c : String) (hp : parsePattern p = none) :
    MatchName llvmRegex p c = false := by
  simp [MatchName, llvmRegex, hp]

/-- C6: `MatchName` has search semantics and is case-sensitive.  It returns
what `match` of the compiled pattern returns and false for a pattern that is
not valid, for every regex engine.  For a valid pattern it is true exactly
when the pattern matches the candidate between some two positions `i ≤ j`
(some substring), not only the whole candidate; a pattern with
back-references matches there in the backtracking matcher too, starting
with no sub-expression offsets.  `foo` matches `foobar` and `myfoo`, `^foo$`
matches `foo` and neither `foobar` nor `myfoo`, and `foo` does not match
`FOO`.  Whether a pattern is valid does not depend on the fuel of the
parser.  Bounds, character classes and back-references are matched within
the candidate too, and `.` stands for one byte: `^.$` does not match the
two-byte `é`. -/
theorem MatchName_search_semantics :
    (∀ (E : RegexEngine) (p c : String),
      MatchName E p c = ((E p).isValid && (E p).matchStr c)) ∧
    (∀ p c : String, (llvmRegex p).isValid = true →
      ∃ r backrefs, parsePattern p = some (r, backrefs) ∧
        (MatchName llvmRegex p c = true ↔
          ∃ i j, i ≤ j ∧ j ≤ (bytes c).length ∧ RE.Matches (bytes c) r i j ∧
            (backrefs = true → ∃ e, RE.MatchesB (bytes c) r (i, []) (j, e)))) ∧
    MatchName llvmRegex "foo" "foobar" = true ∧
    MatchName llvmRegex "foo" "myfoo" = true ∧
    MatchName llvmRegex "^foo$" "foo" = true ∧
    MatchName llvmRegex "^foo$" "foobar" = false ∧
    MatchName llvmRegex "^foo$" "myfoo" = false ∧
    MatchName llvmRegex "foo" "FOO" = false ∧
    (∀ (p : String) (fuel : Nat), (bytes p).length < fuel →
      p_ere fuel none none none ⟨0, [], false⟩ (bytes p) =
        p_ere ((bytes p).length + 1) none none none ⟨0, [], false⟩ (bytes p)) ∧
    MatchName llvmRegex "a{2}" "baab" = true ∧
    MatchName llvmRegex "a{2}" "baba" = false ∧
    MatchName llvmRegex "[[:digit:]]" "a1" = true ∧
    MatchName llvmRegex "[[:digit:]]" "ab" = false ∧
    MatchName llvmRegex "(a)\\1" "baab" = true ∧
    MatchName llvmRegex "(a|b)\\1" "ab" = false ∧
    MatchName llvmRegex "^.$" "é" = false ∧
    MatchName llvmRegex "^..$" "é" = true := by
  refine ⟨?_, ?_, by decide, by decide, by decide, by decide, by decide, by decide,
    fun p fuel h => parsePattern_fuel p fuel h, by decide, by decide, by decide, by decide,
    by decide, by decide, by decide, by decide⟩
  · intro E p c
    simp only [MatchName]
    cases hv : (E p).isValid <;> cases hm : (E p).matchStr c <;> simp
  intro p c hvalid
  cases hp : parsePattern p with
  | none => simp [llvmRegex, hp] at hvalid
  | some r =>
      refine ⟨r.1, r.2, rfl, ?_⟩
      rw [MatchName_llvmRegex_valid p c r hp, RE.search_iff]

/-- C6 at the pattern `^foo$` and the candidate `foo`: the pattern is valid
and matches between two positions of the candidate. -/
theorem MatchName_search_semantics_witness :
    ∃ r backrefs, parsePattern "^foo$" = some (r, backrefs) ∧
      (MatchName llvmRegex "^foo$" "foo" = true ↔
        ∃ i j, i ≤ j ∧ j ≤ (bytes "foo").length ∧ RE.Matches (bytes "foo") r i j ∧
          (backrefs = true → ∃ e, RE.MatchesB (bytes "foo") r (i, []) (j, e))) :=
  MatchName_search_semantics.2.1 "^foo$" "foo" (by decide)

theorem MatchName_of_invalid (E : RegexEngine) (p c : String)
    (hp : (E p).isValid = false) : MatchName E p c = false := by
  simp [MatchName, hp]

theorem CallHooksLoop_skip (E : RegexEngine) (Name : String) (pre post : List FnInstrumentation)
    (F : FnInstrumentation) (hF : MatchName E F.Name Name = false) :
    CallHooksLoop E Name (pre ++ F :: post) = CallHooksLoop E Name (pre ++ post) := by
  induction pre with
  | nil => simp [CallHooksLoop, hF]
  | cons G rest ih => simp [CallHooksLoop, ih]

theorem FnHooksLoop_skip (E : RegexEngine) (Name Base : String)
    (pre post : List FnInstrumentation) (F : FnInstrumentation)
    (hF : MatchName E F.Name Name = false ∨
      (F.FileName ≠ "" ∧ MatchName E F.FileName Base = false)) :
    FnHooksLoop E Name Base (pre ++ F :: post) = FnHooksLoop E Name Base (pre ++ post) := by
  induction pre with
  | nil =>
      rcases hF with h | ⟨h1, h2⟩
      · simp [FnHooksLoop, h]
      · by_cases hn : MatchName E F.Name Name = true
        · simp [FnHooksLoop, hn, h1, h2]
        · simp only [Bool.not_eq_true] at hn
          simp [FnHooksLoop, hn]
  | cons G rest ih => simp [FnHooksLoop, ih]

theorem StructTypeMattersLoop_skip (E : RegexEngine) (Name : String)
    (pre post : List StructInstrumentation) (S : StructInstrumentation)
    (hS : MatchName E S.Name Name = false) :
    StructTypeMattersLoop E Name (pre ++ S :: post) =
      StructTypeMattersLoop E Name (pre ++ post) := by
  induction pre with
  | nil => simp [StructTypeMattersLoop, hS]
  | cons G rest ih => simp [StructTypeMattersLoop, ih]

theorem FieldHookLoop_skip (E : RegexEngine) (Name Field : String) (Op : Operation)
    (pre post : List StructInstrumentation) (S : StructInstrumentation)
    (hS : MatchName E S.Name Name = false) :
    FieldHookLoop E Name Field Op (pre ++ S :: post) =
      FieldHookLoop E Name Field Op (pre ++ post) := by
  induction pre with
  | nil => simp [FieldHookLoop, hS]
  | cons G rest ih => simp [FieldHookLoop, ih]

theorem FieldLoop_skip (E : RegexEngine) (Field : String) (Op : Operation)
    (pre post : List FieldInstrumentation) (F : FieldInstrumentation)
    (hF : MatchName E F.Name Field = false) :
    FieldLoop E Field Op (pre ++ F :: post) = FieldLoop E Field Op (pre ++ post) := by
  induction pre with
  | nil => simp [FieldLoop, hF]
  | cons G rest ih => simp [FieldLoop, ih]

theorem FieldHookLoop_skip_field (E : RegexEngine) (Name Field : String) (Op : Operation)
    (pre post : List StructInstrumentation) (S : StructInstrumentation)
    (fpre fpost : List FieldInstrumentation) (F : FieldInstrumentation)
    (hS : S.Fields = fpre ++ F :: fpost) (hF : MatchName E F.Name Field = false) :
    FieldHookLoop E Name Field Op (pre ++ S :: post) =
      FieldHookLoop E Name Field Op (pre ++ { S with Fields := fpre ++ fpost } :: post) := by
  induction pre with
  | nil => simp [FieldHookLoop, hS, FieldLoop_skip E Field Op fpre fpost F hF]
  | cons G rest ih => simp [FieldHookLoop, ih]

theorem StructTypeMatters_congr (E : RegexEngine) (P Q : PolicyFileData) (T : StructType)
    (h : StructTypeMattersLoop E (substr T.getName 7) P.Structures =
      StructTypeMattersLoop E (substr T.getName 7) Q.Structures) :
    StructTypeMatters E P T = StructTypeMatters E Q T := by
  simp only [StructTypeMatters, h]

theorem FieldHook_congr (E : RegexEngine) (P Q : PolicyFileData) (Op : Operation)
    (T : StructType) (f : String)
    (h : FieldHookLoop E (substr T.getName 7) f Op P.Structures =
      FieldHookLoop E (substr T.getName 7) f Op Q.Structures) :
    FieldHook E P Op T f = FieldHook E Q Op T f := by
  simp only [FieldHook, h]

theorem StructTypeMattersLoop_none (E : RegexEngine) (Name : String)
    (rules : List StructInstrumentation)
    (h : ∀ S ∈ rules, MatchName E S.Name Name = false) :
    StructTypeMattersLoop E Name rules = false := by
  rw [Bool.eq_false_iff]
  intro ht
  obtain ⟨S, hS, hm⟩ := (StructTypeMattersLoop_iff E Name rules).1 ht
  rw [h S hS] at hm
  exact absurd hm (by decide)

theorem FieldHookLoop_none (E : RegexEngine) (Name Field : String) (Op : Operation)
    (rules : List StructInstrumentation)
    (h : ∀ S ∈ rules, MatchName E S.Name Name = false) :
    FieldHookLoop E Name Field Op rules = false := by
  rw [FieldHookLoop_eq, filter_none _ _ h]
  rfl

theorem StructTypeMatters_ne_true (E : RegexEngine) (P : PolicyFileData) (T : StructType)
    (h : StructTypeMattersLoop E (substr T.getName 7) P.Structures = false) :
    StructTypeMatters E P T ≠ some true := by
  simp only [StructTypeMatters, h]
  split
  · simp
  · split
    · split <;> simp
    · simp

theorem FieldHook_ne_true (E : RegexEngine) (P : PolicyFileData) (Op : Operation)
    (T : StructType) (f : String)
    (h : FieldHookLoop E (substr T.getName 7) f Op P.Structures = false) :
    FieldHook E P Op T f ≠ some true := by
  simp only [FieldHook, h]
  split
  · split <;> simp
  · simp

/-- C7: for a pattern that is not a valid regular expression `MatchName`
returns false for every candidate (it is a total function: nothing is raised).
Consequently a rule whose pattern is invalid never decides a query: removing
it from the rule list leaves `CallHooks`, `FnHooks`, `StructTypeMatters`
and the field hooks unchanged, so the rules after it are still consulted;
and when every rule's pattern is invalid the symbol is not instrumented. -/
theorem invalid_pattern_fails_closed (E : RegexEngine) :
    (∀ p c : String, (E p).isValid = false → MatchName E p c = false) ∧
    (∀ (P : PolicyFileData) (Fn : Function) (pre post : List FnInstrumentation)
        (F : FnInstrumentation),
      (E F.Name).isValid = false → P.Functions = pre ++ F :: post →
      CallHooks E P Fn = CallHooks E { P with Functions := pre ++ post } Fn ∧
        FnHooks E P Fn = FnHooks E { P with Functions := pre ++ post } Fn) ∧
    (∀ (P : PolicyFileData) (Fn : Function) (pre post : List FnInstrumentation)
        (F : FnInstrumentation),
      F.FileName ≠ "" → (E F.FileName).isValid = false → P.Functions = pre ++ F :: post →
      FnHooks E P Fn = FnHooks E { P with Functions := pre ++ post } Fn) ∧
    (∀ (P : PolicyFileData) (T : StructType) (f : String)
        (pre post : List StructInstrumentation) (S : StructInstrumentation),
      (E S.Name).isValid = false → P.Structures = pre ++ S :: post →
      StructTypeMatters E P T = StructTypeMatters E { P with Structures := pre ++ post } T ∧
        FieldReadHook E P T f = FieldReadHook E { P with Structures := pre ++ post } T f ∧
        FieldWriteHook E P T f =
          FieldWriteHook E { P with Structures := pre ++ post } T f) ∧
    (∀ (P : PolicyFileData) (T : StructType) (f : String)
        (pre post : List StructInstrumentation) (S : StructInstrumentation)
        (fpre fpost : List FieldInstrumentation) (F : FieldInstrumentation),
      (E F.Name).isValid = false → P.Structures = pre ++ S :: post →
      S.Fields = fpre ++ F :: fpost →
      FieldReadHook E P T f =
          FieldReadHook E
            { P with Structures := pre ++ { S with Fields := fpre ++ fpost } :: post } T f ∧
        FieldWriteHook E P T f =
          FieldWriteHook E
            { P with Structures := pre ++ { S with Fields := fpre ++ fpost } :: post } T f) ∧
    (∀ (P : PolicyFileData) (Fn : Function),
      (∀ F ∈ P.Functions, (E F.Name).isValid = false) →
      CallHooks E P Fn = [] ∧ FnHooks E P Fn = []) ∧
    (∀ (P : PolicyFileData) (T : StructType) (f : String),
      (∀ S ∈ P.Structures, (E S.Name).isValid = false) →
      StructTypeMatters E P T ≠ some true ∧ FieldReadHook E P T f ≠ some true ∧
        FieldWriteHook E P T f ≠ some true) := by
  refine ⟨MatchName_of_invalid E, ?_, ?_, ?_, ?_, ?_, ?_⟩
  · intro P Fn pre post F hF hsplit
    constructor
    · simp only [CallHooks, hsplit]
      exact CallHooksLoop_skip E _ pre post F (MatchName_of_invalid E _ _ hF)
    · simp only [FnHooks, hsplit]
      exact FnHooksLoop_skip E _ _ pre post F (Or.inl (MatchName_of_invalid E _ _ hF))
  · intro P Fn pre post F hne hF hsplit
    simp only [FnHooks, hsplit]
    exact FnHooksLoop_skip E _ _ pre post F (Or.inr ⟨hne, MatchName_of_invalid E _ _ hF⟩)
  · intro P T f pre post S hS hsplit
    refine ⟨StructTypeMatters_congr E _ _ T ?_, FieldHook_congr E _ _ _ T f ?_,
      FieldHook_congr E _ _ _ T f ?_⟩
    · simp only [hsplit]
      exact StructTypeMattersLoop_skip E _ pre post S (MatchName_of_invalid E _ _ hS)
    · simp only [hsplit]
      exact FieldHookLoop_skip E _ f _ pre post S (MatchName_of_invalid E _ _ hS)
    · simp only [hsplit]
      exact FieldHookLoop_skip E _ f _ pre post S (MatchName_of_invalid E _ _ hS)
  · intro P T f pre post S fpre fpost F hF hsplit hfields
    refine ⟨FieldHook_congr E _ _ _ T f ?_, FieldHook_congr E _ _ _ T f ?_⟩
    · simp only [hsplit]
      exact FieldHookLoop_skip_field E _ f _ pre post S fpre fpost F hfields
        (MatchName_of_invalid E _ _ hF)
    · simp only [hsplit]
      exact FieldHookLoop_skip_field E _ f _ pre post S fpre fpost F hfields
        (MatchName_of_invalid E _ _ hF)
  · intro P Fn hall
    constructor
    · unfold CallHooks
      rw [CallHooksLoop_eq_find, find_none_of_all_false _ _
        (fun F hF => MatchName_of_invalid E _ _ (hall F hF))]
    · unfold FnHooks
      rw [FnHooksLoop_eq_find, find_none_of_all_false _ _
        (fun F hF => by simp [MatchName_of_invalid E _ _ (hall F hF)])]
  · intro P T f hall
    have hnone : ∀ S ∈ P.Structures, MatchName E S.Name (substr T.getName 7) = false :=
      fun S hS => MatchName_of_invalid E _ _ (hall S hS)
    exact ⟨StructTypeMatters_ne_true E P T (StructTypeMattersLoop_none E _ _ hnone),
      FieldHook_ne_true E P _ T f (FieldHookLoop_none E _ f _ _ hnone),
      FieldHook_ne_true E P _ T f (FieldHookLoop_none E _ f _ _ hnone)⟩

/-- C7 at the invalid pattern `(`: it matches nothing, and a rule carrying
it does not keep the later rule `^main$` from deciding the caller hooks of
`main`. -/
theorem invalid_pattern_fails_closed_witness :
    MatchName llvmRegex "(" "main" = false ∧
    CallHooks llvmRegex
      { defaultPolicy with
        Functions :=
          [ { Name := "(", FileName := "", Call := [Direction.In], Body := [],
              Meta := ⟨"", 0⟩, Transforms := [] },
            { Name := "^main$", FileName := "", Call := [Direction.Out], Body := [],
              Meta := ⟨"", 0⟩, Transforms := [] } ] }
      ⟨"main", none⟩ = [Direction.Out] :=
  ⟨(invalid_pattern_fails_closed llvmRegex).1 "(" "main" (by decide),
   ((invalid_pattern_fails_closed llvmRegex).2.1
      { defaultPolicy with
        Functions :=
          [ { Name := "(", FileName := "", Call := [Direction.In], Body := [],
              Meta := ⟨"", 0⟩, Transforms := [] },
            { Name := "^main$", FileName := "", Call := [Direction.Out], Body := [],
              Meta := ⟨"", 0⟩, Transforms := [] } ] }
      ⟨"main", none⟩ []
      [ { Name := "^main$", FileName := "", Call := [Direction.Out], Body := [],
          Meta := ⟨"", 0⟩, Transforms := [] } ]
      { Name := "(", FileName := "", Call := [Direction.In], Body := [],
        Meta := ⟨"", 0⟩, Transforms := [] }
      (by decide) rfl).1.trans (by decide)⟩

/-! ### Hook names -/

theorem JoinLoop_eq_go (Sep : String) (rest : List String) (acc : String) :
    JoinLoop Sep rest false acc = String.intercalate.go acc Sep rest := by
  induction rest generalizing acc with
  | nil => rfl
  | cons s rest ih =>
      simp only [JoinLoop, String.intercalate.go]
      exact ih _

theorem Join_eq_intercalate (Parts : List String) (Sep : String) :
    Join Parts Sep = Sep.intercalate Parts := by
  cases Parts with
  | nil => rfl
  | cons s rest =>
      simp only [Join, JoinLoop, String.intercalate, if_true, String.empty_append]
      exact JoinLoop_eq_go Sep rest s

theorem JoinLoop_snoc (Sep : String) (rest : List String) (c acc : String) :
    JoinLoop Sep (rest ++ [c]) false acc = JoinLoop Sep rest false acc ++ Sep ++ c := by
  induction rest generalizing acc with
  | nil => simp [JoinLoop]
  | cons s rest ih =>
      simp only [List.cons_append, JoinLoop]
      exact ih _

/-- C8: `InstrName` returns the prefix and the components joined in that
order with the separator `_`: just the prefix for no components, and one more
`_` and component for each further component; the result depends only on the
prefix and the components, and with prefix `__loom` the components `x`,
`entry` give exactly `__loom_x_entry`. -/
theorem InstrName_join (P : PolicyFileData) (Components : List String) :
    InstrName P Components = "_".intercalate (P.HookPrefix :: Components) ∧
    InstrName P [] = P.HookPrefix ∧
    (∀ c : String, InstrName P (Components ++ [c]) = InstrName P Components ++ "_" ++ c) ∧
    (∀ Q : PolicyFileData, Q.HookPrefix = P.HookPrefix →
      InstrName Q Components = InstrName P Components) ∧
    (P.HookPrefix = "__loom" → InstrName P ["x", "entry"] = "__loom_x_entry") := by
  refine ⟨Join_eq_intercalate _ _, ?_, ?_, ?_, ?_⟩
  · simp [InstrName, Join, JoinLoop]
  · intro c
    simp only [InstrName, Join, List.singleton_append, List.cons_append, JoinLoop, if_true,
      String.empty_append]
    exact JoinLoop_snoc "_" Components c _
  · intro Q hQ
    simp only [InstrName, hQ]
  · intro hP
    simp only [InstrName, hP]
    decide

/-- C8 at the default policy, whose prefix is `__loom`. -/
theorem InstrName_join_witness : InstrName defaultPolicy ["x", "entry"] = "__loom_x_entry" :=
  (InstrName_join defaultPolicy []).2.2.2.2 rfl

/-! ### Format strings -/

theorem PlainTextToken_step (T : LLVMType) (acc : String) :
    (if T.isIntegerTy 32 then acc ++ " %d"
     else if T.isFloatTy || T.isDoubleTy then acc ++ " %.0f"
     else if T.isIntegerTy 8 then acc ++ " %c"
     else if T.isPointerTy && T.getPointerElementType.isIntegerTy 8 then acc ++ " \"%s\""
     else if T.isPointerTy then acc ++ " %p"
     else acc) = acc ++ PlainTextToken T := by
  cases T with
  | Integer bits =>
      by_cases h32 : bits = 32
      · subst h32; simp [LLVMType.isIntegerTy, PlainTextToken]
      · by_cases h8 : bits = 8
        · subst h8
          simp [LLVMType.isIntegerTy, PlainTextToken, LLVMType.isFloatTy, LLVMType.isDoubleTy]
        · simp [LLVMType.isIntegerTy, PlainTextToken, LLVMType.isFloatTy, LLVMType.isDoubleTy,
            LLVMType.isPointerTy, h32, h8]
  | Pointer elem =>
      cases elem with
      | Integer bits =>
          by_cases h8 : bits = 8
          · subst h8
            simp [LLVMType.isIntegerTy, PlainTextToken, LLVMType.isFloatTy,
              LLVMType.isDoubleTy, LLVMType.isPointerTy, LLVMType.getPointerElementType]
          · simp [LLVMType.isIntegerTy, PlainTextToken, LLVMType.isFloatTy,
              LLVMType.isDoubleTy, LLVMType.isPointerTy, LLVMType.getPointerElementType, h8]
      | _ =>
          simp [LLVMType.isIntegerTy, PlainTextToken, LLVMType.isFloatTy,
            LLVMType.isDoubleTy, LLVMType.isPointerTy, LLVMType.getPointerElementType]
  | _ =>
      simp [LLVMType.isIntegerTy, PlainTextToken, LLVMType.isFloatTy,
        LLVMType.isDoubleTy, LLVMType.isPointerTy]

theorem PrintfLoop_eq (Params : List Parameter) (acc : String) :
    PrintfLoop Params acc = acc ++ concatTokens (Params.map fun P => PlainTextToken P.2) := by
  induction Params generalizing acc with
  | nil => simp [PrintfLoop, concatTokens]
  | cons P rest ih =>
      simp only [PrintfLoop, List.map_cons, concatTokens]
      rw [PlainTextToken_step, ih, String.append_assoc]

theorem PlainText_format_aux (Prefix Suffix : String) (Params : List Parameter) :
    PrintfCreateFormatString Prefix Params Suffix =
      Prefix ++ concatTokens (Params.map fun P => PlainTextToken P.2) ++ Suffix := by
  simp only [PrintfCreateFormatString, PrintfLoop_eq, String.empty_append]

/-- C9: the PlainText (`printf`) format string is the prefix, then the
tokens of the parameters in parameter order, then the suffix; the token is
` %d` for a 32-bit integer, ` %.0f` for float and for double, ` %c` for an
8-bit integer, ` "%s"` for a pointer to an 8-bit integer (before the generic
pointer case) and ` %p` for any other pointer; the names of the parameters
play no part.  A single 32-bit integer parameter with empty prefix and
suffix gives exactly ` %d`. -/
theorem PlainText_format (Prefix Suffix : String) (Params : List Parameter) :
    PrintfCreateFormatString Prefix Params Suffix =
      Prefix ++ concatTokens (Params.map fun P => PlainTextToken P.2) ++ Suffix ∧
    PlainTextToken (LLVMType.Integer 32) = " %d" ∧
    PlainTextToken LLVMType.Float = " %.0f" ∧
    PlainTextToken LLVMType.Double = " %.0f" ∧
    PlainTextToken (LLVMType.Integer 8) = " %c" ∧
    PlainTextToken (LLVMType.Pointer (LLVMType.Integer 8)) = " \"%s\"" ∧
    (∀ elem : LLVMType, elem ≠ LLVMType.Integer 8 →
      PlainTextToken (LLVMType.Pointer elem) = " %p") ∧
    (∀ Params2 : List Parameter, Params2.map Prod.snd = Params.map Prod.snd →
      PrintfCreateFormatString Prefix Params2 Suffix =
        PrintfCreateFormatString Prefix Params Suffix) ∧
    (∀ name : String,
      PrintfCreateFormatString "" [(name, LLVMType.Integer 32)] "" = " %d") := by
  have main : ∀ Ps : List Parameter, PrintfCreateFormatString Prefix Ps Suffix =
      Prefix ++ concatTokens (Ps.map fun P => PlainTextToken P.2) ++ Suffix := by
    intro Ps
    simp only [PrintfCreateFormatString, PrintfLoop_eq, String.empty_append]
  refine ⟨main Params, rfl, rfl, rfl, rfl, rfl, ?_, ?_, ?_⟩
  · intro elem helem
    cases elem with
    | Integer bits =>
        have h8 : bits ≠ 8 := fun h => helem (by rw [h])
        simp [PlainTextToken, h8]
    | _ => rfl
  · intro Params2 h
    rw [main Params2, main Params]
    have hmap : ∀ Ps : List Parameter,
        (Ps.map fun P => PlainTextToken P.2) = (Ps.map Prod.snd).map PlainTextToken := by
      intro Ps
      simp [List.map_map, Function.comp_def]
    rw [hmap Params2, hmap Params, h]
  · intro name
    rfl

/-- C9 at the parameters of `function_int_return_int_long_float_charp_arg`
that have a recognized kind (`int a`, the widened `float c`, `char *d`). -/
theorem PlainText_format_witness :
    PrintfCreateFormatString "call" [("a", LLVMType.Integer 32), ("c", LLVMType.Double),
        ("d", LLVMType.Pointer (LLVMType.Integer 8))] "\n" = "call %d %.0f \"%s\"\n" ∧
    PlainTextToken (LLVMType.Pointer (LLVMType.Integer 32)) = " %p" :=
  ⟨(PlainText_format "call" "\n" [("a", LLVMType.Integer 32), ("c", LLVMType.Double),
      ("d", LLVMType.Pointer (LLVMType.Integer 8))]).1.trans (by decide),
   (PlainText_format "" "" []).2.2.2.2.2.2.1 (LLVMType.Integer 32) (by decide)⟩

theorem StructuredConversion_step (T : LLVMType) (acc : String) :
    (if T.isIntegerTy 32 then acc ++ "%d"
     else if T.isFloatTy || T.isDoubleTy then acc ++ "%.0f"
     else if T.isIntegerTy 8 then acc ++ "%c"
     else if T.isPointerTy && T.getPointerElementType.isIntegerTy 8 then acc ++ "\"%s\""
     else if T.isPointerTy then acc ++ "%p"
     else acc) = acc ++ StructuredConversion T := by
  cases T with
  | Integer bits =>
      by_cases h32 : bits = 32
      · subst h32; simp [LLVMType.isIntegerTy, StructuredConversion]
      · by_cases h8 : bits = 8
        · subst h8
          simp [LLVMType.isIntegerTy, StructuredConversion, LLVMType.isFloatTy,
            LLVMType.isDoubleTy]
        · simp [LLVMType.isIntegerTy, StructuredConversion, LLVMType.isFloatTy,
            LLVMType.isDoubleTy, LLVMType.isPointerTy, h32, h8]
  | Pointer elem =>
      cases elem with
      | Integer bits =>
          by_cases h8 : bits = 8
          · subst h8
            simp [LLVMType.isIntegerTy, StructuredConversion, LLVMType.isFloatTy,
              LLVMType.isDoubleTy, LLVMType.isPointerTy, LLVMType.getPointerElementType]
          · simp [LLVMType.isIntegerTy, StructuredConversion, LLVMType.isFloatTy,
              LLVMType.isDoubleTy, LLVMType.isPointerTy, LLVMType.getPointerElementType, h8]
      | _ =>
          simp [LLVMType.isIntegerTy, StructuredConversion, LLVMType.isFloatTy,
            LLVMType.isDoubleTy, LLVMType.isPointerTy, LLVMType.getPointerElementType]
  | _ =>
      simp [LLVMType.isIntegerTy, StructuredConversion, LLVMType.isFloatTy,
        LLVMType.isDoubleTy, LLVMType.isPointerTy]

theorem LibxoLoop_eq (Params : List Parameter) (acc : String) :
    LibxoLoop Params acc = acc ++ concatTokens (Params.map StructuredToken) := by
  induction Params generalizing acc with
  | nil => simp [LibxoLoop, concatTokens]
  | cons P rest ih =>
      simp only [LibxoLoop, List.map_cons, concatTokens]
      rw [StructuredConversion_step, ih]
      have hlit : ("\x7bP: \x7d\x7bh:" : String) = "\x7bP: \x7d" ++ "\x7bh:" := by decide
      simp only [StructuredToken, hlit, String.append_assoc]

/-- C10: the Structured (libxo) format string is the prefix, then for each
parameter in order the text `{P: }{h:` + name + `/` + conversion + `}`, then
the suffix, where the conversion is `%d` for a 32-bit integer, `%.0f` for
float and for double, `%c` for an 8-bit integer, `"%s"` for a pointer to an
8-bit integer and `%p` for any other pointer: every parameter contributes
one padding marker and one humanized field carrying its own name. -/
theorem Structured_format (Prefix Suffix : String) (Params : List Parameter) :
    LibxoCreateFormatString Prefix Params Suffix =
      Prefix ++ concatTokens (Params.map fun P =>
        "\x7bP: \x7d\x7bh:" ++ P.1 ++ "/" ++ StructuredConversion P.2 ++ "\x7d") ++ Suffix ∧
    StructuredConversion (LLVMType.Integer 32) = "%d" ∧
    StructuredConversion LLVMType.Float = "%.0f" ∧
    StructuredConversion LLVMType.Double = "%.0f" ∧
    StructuredConversion (LLVMType.Integer 8) = "%c" ∧
    StructuredConversion (LLVMType.Pointer (LLVMType.Integer 8)) = "\"%s\"" ∧
    (∀ elem : LLVMType, elem ≠ LLVMType.Integer 8 →
      StructuredConversion (LLVMType.Pointer elem) = "%p") ∧
    (∀ (name : String) (T : LLVMType),
      LibxoCreateFormatString "" [(name, T)] "" =
        "\x7bP: \x7d\x7bh:" ++ name ++ "/" ++ StructuredConversion T ++ "\x7d") := by
  have main : ∀ Ps : List Parameter, LibxoCreateFormatString Prefix Ps Suffix =
      Prefix ++ concatTokens (Ps.map StructuredToken) ++ Suffix := by
    intro Ps
    simp only [LibxoCreateFormatString, LibxoLoop_eq, String.empty_append]
  refine ⟨main Params, rfl, rfl, rfl, rfl, rfl, ?_, ?_⟩
  · intro elem helem
    cases elem with
    | Integer bits =>
        have h8 : bits ≠ 8 := fun h => helem (by rw [h])
        simp [StructuredConversion, h8]
    | _ => rfl
  · intro name T
    simp only [LibxoCreateFormatString, LibxoLoop_eq, String.empty_append, List.map_cons,
      List.map_nil, concatTokens, String.append_empty, StructuredToken]

/-- C10 at two parameters: each contributes its padding marker and its
humanized field with its own name. -/
theorem Structured_format_witness :
    LibxoCreateFormatString "" [("a", LLVMType.Integer 32),
        ("d", LLVMType.Pointer (LLVMType.Integer 8))] "\n" =
      "\x7bP: \x7d\x7bh:a/%d\x7d\x7bP: \x7d\x7bh:d/\"%s\"\x7d\n" ∧
    StructuredConversion (LLVMType.Pointer LLVMType.Double) = "%p" :=
  ⟨(Structured_format "" "\n" [("a", LLVMType.Integer 32),
      ("d", LLVMType.Pointer (LLVMType.Integer 8))]).1.trans (by decide),
   (Structured_format "" "" []).2.2.2.2.2.2.1 LLVMType.Double (by decide)⟩

/-! ### Adapting the arguments and emitting the call -/

theorem isFloatTy_iff (T : LLVMType) : T.isFloatTy = true ↔ T = LLVMType.Float := by
  cases T <;> simp [LLVMType.isFloatTy]

theorem AdaptArgumentsLoop_eq (Values Adapted : List IRValue) (Builder : IRBuilder) :
    AdaptArgumentsLoop Values Adapted Builder =
      (Adapted ++ Values.map adaptValue,
        Builder ++ (Values.filter fun V => V.getType.isFloatTy).map
          fun V => Inserted.Cast (IRValue.FPExt V LLVMType.Double)) := by
  induction Values generalizing Adapted Builder with
  | nil => simp [AdaptArgumentsLoop]
  | cons V rest ih =>
      by_cases h : V.getType.isFloatTy = true
      · simp [AdaptArgumentsLoop, h, ih, adaptValue]
      · simp only [Bool.not_eq_true] at h
        simp [AdaptArgumentsLoop, h, ih, adaptValue]

theorem adaptValue_eq (V : IRValue) :
    adaptValue V =
      if V.getType = LLVMType.Float then IRValue.FPExt V LLVMType.Double else V := by
  unfold adaptValue
  by_cases h : V.getType = LLVMType.Float
  · simp [h, LLVMType.isFloatTy]
  · have h2 : V.getType.isFloatTy = false := by
      rw [Bool.eq_false_iff]
      exact fun ht => h ((isFloatTy_iff _).1 ht)
    simp [h, h2]

/-- C11 does not hold as stated.  A value of the 16-bit half type, which is
narrower than double, is passed through unchanged: it is not replaced by its
extension to double, and no cast is inserted. -/
theorem AdaptArguments_passes_half_through :
    AdaptArguments [IRValue.Named "h" LLVMType.Half] [] =
      ([IRValue.Named "h" LLVMType.Half], []) ∧
    (AdaptArguments [IRValue.Named "h" LLVMType.Half] []).1 ≠
      [IRValue.FPExt (IRValue.Named "h" LLVMType.Half) LLVMType.Double] := by
  decide

/-- C11 (amended): `AdaptArguments` returns a list of the same length and
order in which every value of the 32-bit float type is replaced by its
extension to double and every other value (a 16-bit half included) is passed
through unchanged.  `Logger::Call` applies it once, before the format string
is built: the format string is created from the names and types of the
adapted values, the call passes it followed by the adapted values, and the
builder receives one cast per float value and then the call. -/
theorem AdaptArguments_widens_float (Values : List IRValue) (Builder : IRBuilder) :
    (AdaptArguments Values Builder).1.length = Values.length ∧
    (AdaptArguments Values Builder).1 =
      Values.map (fun V =>
        if V.getType = LLVMType.Float then IRValue.FPExt V LLVMType.Double else V) ∧
    (∀ (L : Logger) (Prefix Suffix : String),
      (L.Call Builder Prefix Values Suffix).1 =
        ⟨L.FunctionName,
          IRValue.GlobalStringPtr
              (L.CreateFormatString Prefix
                ((AdaptArguments Values Builder).1.map fun V => (V.getName, V.getType))
                Suffix) ::
            (AdaptArguments Values Builder).1⟩) ∧
    (∀ (L : Logger) (Prefix Suffix : String),
      (L.Call Builder Prefix Values Suffix).2 =
        Builder ++
          ((Values.filter fun V => decide (V.getType = LLVMType.Float)).map
            fun V => Inserted.Cast (IRValue.FPExt V LLVMType.Double)) ++
          [Inserted.Call (L.Call Builder Prefix Values Suffix).1]) := by
  have hmap : (AdaptArguments Values Builder).1 =
      Values.map (fun V =>
        if V.getType = LLVMType.Float then IRValue.FPExt V LLVMType.Double else V) := by
    simp only [AdaptArguments, AdaptArgumentsLoop_eq, List.nil_append]
    exact List.map_congr_left (fun V _ => adaptValue_eq V)
  have hfilter : (Values.filter fun V => V.getType.isFloatTy) =
      Values.filter fun V => decide (V.getType = LLVMType.Float) := by
    apply List.filter_congr
    intro V _
    by_cases h : V.getType = LLVMType.Float
    · simp [h, LLVMType.isFloatTy]
    · have h2 : V.getType.isFloatTy = false := by
        rw [Bool.eq_false_iff]
        exact fun ht => h ((isFloatTy_iff _).1 ht)
      simp [h, h2]
  refine ⟨?_, hmap, ?_, ?_⟩
  · rw [hmap, List.length_map]
  · intro L Prefix Suffix
    rfl
  · intro L Prefix Suffix
    simp only [Logger.Call, AdaptArguments, AdaptArgumentsLoop_eq, hfilter]

/-- C11 (amended) at the arguments of
`function_int_return_int_long_float_charp_arg`: only the float `c` is
widened. -/
theorem AdaptArguments_widens_float_witness :
    (AdaptArguments
      [ IRValue.Named "a" (LLVMType.Integer 32), IRValue.Named "b" (LLVMType.Integer 64),
        IRValue.Named "c" LLVMType.Float,
        IRValue.Named "d" (LLVMType.Pointer (LLVMType.Integer 8)) ] []).1 =
      [ IRValue.Named "a" (LLVMType.Integer 32), IRValue.Named "b" (LLVMType.Integer 64),
        IRValue.FPExt (IRValue.Named "c" LLVMType.Float) LLVMType.Double,
        IRValue.Named "d" (LLVMType.Pointer (LLVMType.Integer 8)) ] :=
  (AdaptArguments_widens_float _ []).2.1.trans (by decide)

theorem countConversions_append (a b : String) :
    countConversions (a ++ b) = countConversions a + countConversions b := by
  simp [countConversions, String.data_append, List.count_append]

theorem countConversions_token (T : LLVMType) :
    countConversions (PlainTextToken T) = if isRecognizedKind T then 1 else 0 := by
  cases T with
  | Integer bits =>
      by_cases h32 : bits = 32
      · subst h32; decide
      · by_cases h8 : bits = 8
        · subst h8; decide
        · have htok : PlainTextToken (LLVMType.Integer bits) = "" := by
            simp [PlainTextToken, h32, h8]
          rw [htok]
          simp [isRecognizedKind, LLVMType.isIntegerTy, LLVMType.isFloatTy,
            LLVMType.isDoubleTy, LLVMType.isPointerTy, h32, h8, countConversions]
  | Pointer elem =>
      have hrec : isRecognizedKind (LLVMType.Pointer elem) = true := by
        simp [isRecognizedKind, LLVMType.isPointerTy]
      rw [hrec]
      by_cases h : elem = LLVMType.Integer 8
      · subst h; decide
      · have htok : PlainTextToken (LLVMType.Pointer elem) = " %p" := by
          cases elem with
          | Integer bits =>
              have h8 : bits ≠ 8 := fun hb => h (by rw [hb])
              simp [PlainTextToken, h8]
          | _ => rfl
        rw [htok]
        decide
  | Void => decide
  | Half => decide
  | Float => decide
  | Double => decide
  | FP128 => decide
  | Struct name => simp [PlainTextToken, isRecognizedKind, LLVMType.isIntegerTy,
      LLVMType.isFloatTy, LLVMType.isDoubleTy, LLVMType.isPointerTy, countConversions]
  | Array elem count => simp [PlainTextToken, isRecognizedKind, LLVMType.isIntegerTy,
      LLVMType.isFloatTy, LLVMType.isDoubleTy, LLVMType.isPointerTy, countConversions]

theorem isRecognizedKind_adaptValue (V : IRValue) :
    isRecognizedKind (adaptValue V).getType = isRecognizedKind V.getType := by
  unfold adaptValue
  by_cases h : V.getType.isFloatTy = true
  · have hT : V.getType = LLVMType.Float := (isFloatTy_iff _).1 h
    rw [if_pos h]
    show isRecognizedKind LLVMType.Double = isRecognizedKind V.getType
    rw [hT]
    decide
  · simp only [Bool.not_eq_true] at h
    simp [h]

theorem countConversions_tokens (Values : List IRValue) :
    countConversions
        (concatTokens (Values.map fun V => PlainTextToken (adaptValue V).getType)) =
      (Values.filter fun V => isRecognizedKind V.getType).length := by
  induction Values with
  | nil => rfl
  | cons V rest ih =>
      simp only [List.map_cons, concatTokens, countConversions_append, ih,
        countConversions_token, isRecognizedKind_adaptValue, List.filter_cons]
      by_cases h : isRecognizedKind V.getType = true
      · simp [h]; omega
      · simp only [Bool.not_eq_true] at h
        simp [h]

/-- C19: `Logger::Call` passes the format string followed by every adapted
value, `1 + n` arguments for `n` values.  The PlainText format string has one
conversion specifier for each value whose type is one of the five recognized
kinds and none for any other value (prefix and suffix apart): as many as
values when all types are recognized, fewer when some type is not.  For the
arguments of `function_int_return_int_long_float_charp_arg` the 64-bit `b`
gets no conversion: three specifiers for four values. -/
theorem PlainText_conversions_vs_values :
    (∀ (Builder : IRBuilder) (Values : List IRValue) (Prefix Suffix : String),
      (PrintfLogger.Call Builder Prefix Values Suffix).1 =
          ⟨"printf",
            IRValue.GlobalStringPtr
                (PrintfCreateFormatString Prefix
                  ((AdaptArguments Values Builder).1.map fun V => (V.getName, V.getType))
                  Suffix) ::
              (AdaptArguments Values Builder).1⟩ ∧
        (PrintfLogger.Call Builder Prefix Values Suffix).1.Args.length = 1 + Values.length ∧
        countConversions
            (PrintfCreateFormatString Prefix
              ((AdaptArguments Values Builder).1.map fun V => (V.getName, V.getType))
              Suffix) =
          countConversions Prefix +
            (Values.filter fun V => isRecognizedKind V.getType).length +
            countConversions Suffix ∧
        ((∀ V ∈ Values, isRecognizedKind V.getType = true) →
          countConversions
              (PrintfCreateFormatString Prefix
                ((AdaptArguments Values Builder).1.map fun V => (V.getName, V.getType))
                Suffix) =
            countConversions Prefix + Values.length + countConversions Suffix) ∧
        ((∃ V ∈ Values, isRecognizedKind V.getType = false) →
          countConversions
              (PrintfCreateFormatString Prefix
                ((AdaptArguments Values Builder).1.map fun V => (V.getName, V.getType))
                Suffix) <
            countConversions Prefix + Values.length + countConversions Suffix)) ∧
    PrintfCreateFormatString ""
        ((AdaptArguments
          [ IRValue.Named "a" (LLVMType.Integer 32), IRValue.Named "b" (LLVMType.Integer 64),
            IRValue.Named "c" LLVMType.Float,
            IRValue.Named "d" (LLVMType.Pointer (LLVMType.Integer 8)) ] []).1.map
          fun V => (V.getName, V.getType)) "" = " %d %.0f \"%s\"" ∧
    countConversions " %d %.0f \"%s\"" = 3 := by
  refine ⟨?_, by decide, by decide⟩
  intro Builder Values Prefix Suffix
  have hadapt : (AdaptArguments Values Builder).1 = Values.map adaptValue := by
    simp [AdaptArguments, AdaptArgumentsLoop_eq]
  have hcount : countConversions
      (PrintfCreateFormatString Prefix
        ((AdaptArguments Values Builder).1.map fun V => (V.getName, V.getType)) Suffix) =
      countConversions Prefix + (Values.filter fun V => isRecognizedKind V.getType).length +
        countConversions Suffix := by
    rw [(PlainText_format_aux Prefix Suffix _), countConversions_append,
      countConversions_append, hadapt, List.map_map, List.map_map]
    have := countConversions_tokens Values
    simp only [Function.comp_def] at this ⊢
    rw [this]
  refine ⟨rfl, ?_, hcount, ?_, ?_⟩
  · simp [Logger.Call, hadapt]
    omega
  · intro hall
    rw [hcount, List.filter_eq_self.2 hall]
  · rintro ⟨V, hV, hrec⟩
    rw [hcount]
    have hlt : (Values.filter fun V => isRecognizedKind V.getType).length < Values.length := by
      apply List.length_filter_lt_length_iff_exists.2
      exact ⟨V, hV, by simp [hrec]⟩
    omega

/-- C19 at the arguments of `function_int_return_int_long_float_charp_arg`:
the call passes five arguments (the format string and four values) and the
format string has fewer conversion specifiers than values. -/
theorem PlainText_conversions_vs_values_witness :
    (PrintfLogger.Call []  ""
      [ IRValue.Named "a" (LLVMType.Integer 32), IRValue.Named "b" (LLVMType.Integer 64),
        IRValue.Named "c" LLVMType.Float,
        IRValue.Named "d" (LLVMType.Pointer (LLVMType.Integer 8)) ] "").1.Args.length = 1 + 4 ∧
    countConversions
        (PrintfCreateFormatString ""
          ((AdaptArguments
            [ IRValue.Named "a" (LLVMType.Integer 32),
              IRValue.Named "b" (LLVMType.Integer 64),
              IRValue.Named "c" LLVMType.Float,
              IRValue.Named "d" (LLVMType.Pointer (LLVMType.Integer 8)) ] []).1.map
            fun V => (V.getName, V.getType)) "") <
      countConversions "" + 4 + countConversions "" :=
  ⟨(PlainText_conversions_vs_values.1 [] _ "" "").2.1,
   (PlainText_conversions_vs_values.1 []
      [ IRValue.Named "a" (LLVMType.Integer 32), IRValue.Named "b" (LLVMType.Integer 64),
        IRValue.Named "c" LLVMType.Float,
        IRValue.Named "d" (LLVMType.Pointer (LLVMType.Integer 8)) ] "" "").2.2.2.2
      ⟨IRValue.Named "b" (LLVMType.Integer 64), by decide, by decide⟩⟩

/-! ### Functions without debug information -/

theorem BaseFileName_empty : BaseFileName "" = "" :=
  BaseFileName_no_separator "" (by simp)

theorem find_congr_on {α : Type} (p q : α → Bool) (l : List α)
    (h : ∀ x ∈ l, p x = q x) : l.find? p = l.find? q := by
  induction l with
  | nil => rfl
  | cons x xs ih =>
      have hx : p x = q x := h x (List.mem_cons_self _ _)
      have hxs := ih (fun y hy => h y (List.mem_cons_of_mem _ hy))
      simp only [List.find?, hx, hxs]

/-- C15 does not hold as stated.  The function `alloc` has no subprogram,
the only rule has the non-empty within-file pattern `.*`, which matches the
empty base name, and that rule supplies the result. -/
theorem FnHooks_file_rule_decides_without_debug_info :
    MatchName llvmRegex ".*" "" = true ∧
    FnHooks llvmRegex
      { defaultPolicy with
        Functions :=
          [ { Name := "^alloc$", FileName := ".*", Call := [],
              Body := [Direction.In, Direction.Out], Meta := ⟨"", 0⟩, Transforms := [] } ] }
      ⟨"alloc", none⟩ = [Direction.In, Direction.Out] := by
  decide

/-- C15 (amended): for a function that has no subprogram the base name
`FnHooks` matches against is the empty string, so the result is the body
directions of the first name-matching rule whose within-file pattern is
empty or matches the empty string, and the empty list if there is none.
When no non-empty within-file pattern of the policy matches the empty
string, only rules without a within-file constraint decide: the result is
the body directions of the first name-matching rule with an empty
within-file, or empty. -/
theorem FnHooks_without_debug_info (E : RegexEngine) (P : PolicyFileData) (Name : String) :
    (FnHooks E P ⟨Name, none⟩ =
      match P.Functions.find? (fun F => MatchName E F.Name Name &&
          (decide (F.FileName = "") || MatchName E F.FileName "")) with
      | some F => F.Body
      | none => []) ∧
    ((∀ F ∈ P.Functions, F.FileName ≠ "" → MatchName E F.FileName "" = false) →
      FnHooks E P ⟨Name, none⟩ =
        match P.Functions.find? (fun F => MatchName E F.Name Name &&
            decide (F.FileName = "")) with
        | some F => F.Body
        | none => []) := by
  have hbase : BaseFileName (FnFileName ⟨Name, none⟩) = "" := BaseFileName_empty
  have main : FnHooks E P ⟨Name, none⟩ =
      match P.Functions.find? (fun F => MatchName E F.Name Name &&
          (decide (F.FileName = "") || MatchName E F.FileName "")) with
      | some F => F.Body
      | none => [] := by
    unfold FnHooks
    rw [FnHooksLoop_eq_find, hbase]
  refine ⟨main, ?_⟩
  intro hfile
  rw [main]
  have hcongr := find_congr_on
    (fun F : FnInstrumentation => MatchName E F.Name Name &&
      (decide (F.FileName = "") || MatchName E F.FileName ""))
    (fun F : FnInstrumentation => MatchName E F.Name Name && decide (F.FileName = ""))
    P.Functions
    (fun F hF => by
      by_cases hempty : F.FileName = ""
      · simp [hempty]
      · simp [hempty, hfile F hF hempty])
  rw [hcongr]

/-- C15 (amended) at a concrete policy: the function `alloc` has no
subprogram; the first rule is scoped to the file pattern `a\.c`, which does
not match the empty string, so the second rule, which has no within-file
constraint, decides. -/
theorem FnHooks_without_debug_info_witness :
    FnHooks llvmRegex
      { defaultPolicy with
        Functions :=
          [ { Name := "^alloc$", FileName := "a\\.c", Call := [],
              Body := [Direction.In, Direction.Out], Meta := ⟨"", 0⟩, Transforms := [] },
            { Name := "alloc", FileName := "", Call := [],
              Body := [Direction.Out], Meta := ⟨"", 0⟩, Transforms := [] } ] }
      ⟨"alloc", none⟩ = [Direction.Out] :=
  ((FnHooks_without_debug_info llvmRegex _ "alloc").2 (by decide)).trans (by decide)

/-! ### The dynamic-probe logger -/

theorem DTraceLoggerLog_eq (getNamedValue : String → Option IRValue) (I : Nat)
    (Values : List IRValue) (Name Descrip : String) (SuppressUniqueness : Bool) :
    DTraceLoggerLog getNamedValue I Values Name Descrip SuppressUniqueness =
      ⟨"dt_probe",
        ⟨LLVMType.Integer 32, List.replicate 6 (LLVMType.Pointer (LLVMType.Integer 8)), false⟩,
        [getNamedValue Name]⟩ := rfl

/-- C17: the code at a concrete input.  `dt_probe` is declared with six
generic-pointer parameters and an `int` result, the emitted call passes one
argument (the value the probe name resolves to), not six, and the argument
list does not depend on the value list. -/
theorem DTraceLoggerLog_passes_one_argument :
    (DTraceLoggerLog (fun _ => some (IRValue.Named "probe" (LLVMType.Integer 8))) 0
        [IRValue.Named "a" (LLVMType.Integer 32)] "probe" "" false).Callee = "dt_probe" ∧
    (DTraceLoggerLog (fun _ => some (IRValue.Named "probe" (LLVMType.Integer 8))) 0
        [IRValue.Named "a" (LLVMType.Integer 32)] "probe" "" false).FT =
      ⟨LLVMType.Integer 32, List.replicate 6 (LLVMType.Pointer (LLVMType.Integer 8)), false⟩ ∧
    (DTraceLoggerLog (fun _ => some (IRValue.Named "probe" (LLVMType.Integer 8))) 0
        [IRValue.Named "a" (LLVMType.Integer 32)] "probe" "" false).FT.Params.length = 6 ∧
    (DTraceLoggerLog (fun _ => some (IRValue.Named "probe" (LLVMType.Integer 8))) 0
        [IRValue.Named "a" (LLVMType.Integer 32)] "probe" "" false).Args.length = 1 ∧
    (DTraceLoggerLog (fun _ => some (IRValue.Named "probe" (LLVMType.Integer 8))) 0
        [IRValue.Named "a" (LLVMType.Integer 32)] "probe" "" false).Args =
      (DTraceLoggerLog (fun _ => some (IRValue.Named "probe" (LLVMType.Integer 8))) 0
        [] "probe" "" false).Args := by
  decide

/-! ### The collections of the first pass -/

theorem mem_mapAssign {K V : Type} [DecidableEq K] (m : List (K × V)) (k : K) (v : V)
    (e : K × V) : e ∈ mapAssign m k v ↔ e = (k, v) ∨ (e ∈ m ∧ e.1 ≠ k) := by
  unfold mapAssign
  by_cases hany : (m.any fun e => decide (e.1 = k)) = true
  · rw [if_pos hany, List.mem_map]
    obtain ⟨x, hx, hxk⟩ := List.any_eq_true.1 hany
    have hxk2 : x.1 = k := of_decide_eq_true hxk
    constructor
    · rintro ⟨y, hy, rfl⟩
      by_cases hyk : y.1 = k
      · simp [hyk]
      · simp [hyk, hy]
    · rintro (rfl | ⟨he, hek⟩)
      · exact ⟨x, hx, by simp [hxk2]⟩
      · exact ⟨e, he, by simp [hek]⟩
  · rw [if_neg hany, List.mem_append, List.mem_singleton]
    have hnone : ∀ x ∈ m, x.1 ≠ k := by
      intro x hx hxk
      exact hany (List.any_eq_true.2 ⟨x, hx, decide_eq_true hxk⟩)
    constructor
    · rintro (he | he)
      · exact Or.inr ⟨he, hnone e he⟩
      · exact Or.inl he
    · rintro (he | ⟨he, _⟩)
      · exact Or.inr he
      · exact Or.inl he

theorem mem_mapEmplace {K V : Type} [DecidableEq K] (m : List (K × V)) (k : K) (v : V)
    (e : K × V) : e ∈ mapEmplace m k v ↔ e ∈ m ∨ (e = (k, v) ∧ ∀ x ∈ m, x.1 ≠ k) := by
  unfold mapEmplace
  by_cases hany : (m.any fun e => decide (e.1 = k)) = true
  · rw [if_pos hany]
    obtain ⟨x, hx, hxk⟩ := List.any_eq_true.1 hany
    have hxk2 : x.1 = k := of_decide_eq_true hxk
    constructor
    · exact Or.inl
    · rintro (he | ⟨_, hnone⟩)
      · exact he
      · exact absurd hxk2 (hnone x hx)
  · rw [if_neg hany, List.mem_append, List.mem_singleton]
    have hnone : ∀ x ∈ m, x.1 ≠ k := by
      intro x hx hxk
      exact hany (List.any_eq_true.2 ⟨x, hx, decide_eq_true hxk⟩)
    constructor
    · rintro (he | he)
      · exact Or.inl he
      · exact Or.inr ⟨he, hnone⟩
    · rintro (he | ⟨he, _⟩)
      · exact Or.inl he
      · exact Or.inr he

theorem key_mem_mapEmplace {K V : Type} [DecidableEq K] (m : List (K × V)) (k : K) (v : V) :
    ∃ w, (k, w) ∈ mapEmplace m k v := by
  by_cases hany : (m.any fun e => decide (e.1 = k)) = true
  · obtain ⟨x, hx, hxk⟩ := List.any_eq_true.1 hany
    have hxk2 : x.1 = k := of_decide_eq_true hxk
    refine ⟨x.2, (mem_mapEmplace m k v _).2 (Or.inl ?_)⟩
    rw [← hxk2]
    exact hx
  · refine ⟨v, (mem_mapEmplace m k v _).2 (Or.inr ⟨rfl, ?_⟩)⟩
    intro x hx hxk
    exact hany (List.any_eq_true.2 ⟨x, hx, decide_eq_true hxk⟩)

theorem usesLoop_Functions (GEP : GetElementPtrInst) (f : String) (r w : Bool)
    (us : List User) (S : Collected) :
    (usesLoop GEP f r w us S).Functions = S.Functions := by
  induction us generalizing S with
  | nil => rfl
  | cons U rest ih =>
      simp only [usesLoop]
      rw [ih]
      cases r <;> cases w <;> cases U <;> rfl

theorem usesLoop_Calls (GEP : GetElementPtrInst) (f : String) (r w : Bool)
    (us : List User) (S : Collected) :
    (usesLoop GEP f r w us S).Calls = S.Calls := by
  induction us generalizing S with
  | nil => rfl
  | cons U rest ih =>
      simp only [usesLoop]
      rw [ih]
      cases r <;> cases w <;> cases U <;> rfl

theorem mem_usesLoop_FieldReads (GEP : GetElementPtrInst) (f : String) (r w : Bool)
    (us : List User) (S : Collected) (e : Nat × FieldGEP) :
    e ∈ (usesLoop GEP f r w us S).FieldReads ↔
      (r = true ∧ ∃ id, User.Load id ∈ us ∧ e = (id, (GEP, f))) ∨
      (e ∈ S.FieldReads ∧ ¬ (r = true ∧ User.Load e.1 ∈ us)) := by
  induction us generalizing S with
  | nil => simp [usesLoop]
  | cons U rest ih =>
      simp only [usesLoop]
      rw [ih]
      cases r with
      | false => cases w <;> cases U <;> simp
      | true =>
          cases U with
          | Load id =>
              have hreads : ∀ S2 : Collected,
                  S2.FieldReads = mapAssign S.FieldReads id (GEP, f) →
                  ((true = true ∧ ∃ id2, User.Load id2 ∈ rest ∧ e = (id2, (GEP, f))) ∨
                    (e ∈ S2.FieldReads ∧ ¬ (true = true ∧ User.Load e.1 ∈ rest)) ↔
                  (true = true ∧ ∃ id2, User.Load id2 ∈ User.Load id :: rest ∧
                      e = (id2, (GEP, f))) ∨
                    (e ∈ S.FieldReads ∧ ¬ (true = true ∧ User.Load e.1 ∈ User.Load id :: rest))) := by
                intro S2 hS2
                rw [hS2, mem_mapAssign]
                simp only [true_and, List.mem_cons, User.Load.injEq]
                constructor
                · rintro (⟨id2, h2, rfl⟩ | ⟨rfl | ⟨he, hne⟩, hrest⟩)
                  · exact Or.inl ⟨id2, Or.inr h2, rfl⟩
                  · exact Or.inl ⟨id, Or.inl rfl, rfl⟩
                  · exact Or.inr ⟨he, fun h => h.elim hne hrest⟩
                · rintro (⟨id2, h2 | h2, rfl⟩ | ⟨he, hno⟩)
                  · subst h2
                    by_cases hin : User.Load id2 ∈ rest
                    · exact Or.inl ⟨id2, hin, rfl⟩
                    · exact Or.inr ⟨Or.inl rfl, hin⟩
                  · exact Or.inl ⟨id2, h2, rfl⟩
                  · exact Or.inr ⟨Or.inr ⟨he, fun h => hno (Or.inl h)⟩, fun h => hno (Or.inr h)⟩
              cases w
              · exact hreads _ rfl
              · exact hreads _ rfl
          | Store id => cases w <;> simp
          | Other id => cases w <;> simp

theorem mem_usesLoop_FieldWrites (GEP : GetElementPtrInst) (f : String) (r w : Bool)
    (us : List User) (S : Collected) (e : Nat × FieldGEP) :
    e ∈ (usesLoop GEP f r w us S).FieldWrites ↔
      (w = true ∧ ∃ id, User.Store id ∈ us ∧ e = (id, (GEP, f))) ∨
      (e ∈ S.FieldWrites ∧ ¬ (w = true ∧ User.Store e.1 ∈ us)) := by
  induction us generalizing S with
  | nil => simp [usesLoop]
  | cons U rest ih =>
      simp only [usesLoop]
      rw [ih]
      cases w with
      | false => cases r <;> cases U <;> simp
      | true =>
          cases U with
          | Store id =>
              have hwrites : ∀ S2 : Collected,
                  S2.FieldWrites = mapAssign S.FieldWrites id (GEP, f) →
                  ((true = true ∧ ∃ id2, User.Store id2 ∈ rest ∧ e = (id2, (GEP, f))) ∨
                    (e ∈ S2.FieldWrites ∧ ¬ (true = true ∧ User.Store e.1 ∈ rest)) ↔
                  (true = true ∧ ∃ id2, User.Store id2 ∈ User.Store id :: rest ∧
                      e = (id2, (GEP, f))) ∨
                    (e ∈ S.FieldWrites ∧
                      ¬ (true = true ∧ User.Store e.1 ∈ User.Store id :: rest))) := by
                intro S2 hS2
                rw [hS2, mem_mapAssign]
                simp only [true_and, List.mem_cons, User.Store.injEq]
                constructor
                · rintro (⟨id2, h2, rfl⟩ | ⟨rfl | ⟨he, hne⟩, hrest⟩)
                  · exact Or.inl ⟨id2, Or.inr h2, rfl⟩
                  · exact Or.inl ⟨id, Or.inl rfl, rfl⟩
                  · exact Or.inr ⟨he, fun h => h.elim hne hrest⟩
                · rintro (⟨id2, h2 | h2, rfl⟩ | ⟨he, hno⟩)
                  · subst h2
                    by_cases hin : User.Store id2 ∈ rest
                    · exact Or.inl ⟨id2, hin, rfl⟩
                    · exact Or.inr ⟨Or.inl rfl, hin⟩
                  · exact Or.inl ⟨id2, h2, rfl⟩
                  · exact Or.inr ⟨Or.inr ⟨he, fun h => hno (Or.inl h)⟩, fun h => hno (Or.inr h)⟩
              cases r
              · exact hwrites _ rfl
              · exact hwrites _ rfl
          | Load id => cases r <;> simp
          | Other id => cases r <;> simp

theorem usesLoop_no_hooks (GEP : GetElementPtrInst) (f : String) (us : List User)
    (S : Collected) : usesLoop GEP f false false us S = S := by
  induction us generalizing S with
  | nil => rfl
  | cons U rest ih =>
      simp only [usesLoop]
      exact ih S

theorem visitInstruction_GEP_cases (E : RegexEngine) (P : PolicyFileData) (Debug : DebugInfo)
    (GEP : GetElementPtrInst) (S S2 : Collected)
    (h : visitInstruction E P Debug (Instruction.GEP GEP) S = some S2) :
    S2 = S ∨
    ∃ ST r w, asStructType GEP.SourceElementType = some ST ∧ hasFieldShape GEP ∧
      StructTypeMatters E P ST = some true ∧ Debug.FieldName GEP ≠ "" ∧
      FieldReadHook E P ST (Debug.FieldName GEP) = some r ∧
      FieldWriteHook E P ST (Debug.FieldName GEP) = some w ∧
      S2 = usesLoop GEP (Debug.FieldName GEP) r w GEP.Users S := by
  simp only [visitInstruction] at h
  cases hST : asStructType GEP.SourceElementType with
  | none =>
      rw [hST] at h
      exact Or.inl (Option.some.inj h).symm
  | some ST =>
      rw [hST] at h
      dsimp only at h
      by_cases hshape : GEP.getNumIndices ≠ 2 ∨ GEP.hasAllConstantIndices = false
      · rw [if_pos hshape] at h
        exact Or.inl (Option.some.inj h).symm
      · rw [if_neg hshape] at h
        have hfield : hasFieldShape GEP := by
          unfold hasFieldShape
          constructor
          · by_contra hne
            exact hshape (Or.inl hne)
          · cases hc : GEP.hasAllConstantIndices with
            | true => rfl
            | false => exact absurd (Or.inr hc) hshape
        cases hm : StructTypeMatters E P ST with
        | none => rw [hm] at h; exact absurd h (by simp)
        | some b =>
            rw [hm] at h
            cases b with
            | false => exact Or.inl (Option.some.inj h).symm
            | true =>
                simp only at h
                by_cases hname : Debug.FieldName GEP = ""
                · rw [if_pos hname] at h
                  exact absurd h (by simp)
                · rw [if_neg hname] at h
                  cases hr : FieldReadHook E P ST (Debug.FieldName GEP) with
                  | none => rw [hr] at h; exact absurd h (by simp)
                  | some r =>
                      cases hw : FieldWriteHook E P ST (Debug.FieldName GEP) with
                      | none => rw [hr, hw] at h; exact absurd h (by simp)
                      | some w =>
                          rw [hr, hw] at h
                          simp only at h
                          refine Or.inr ⟨ST, r, w, rfl, hfield, hm, hname, hr, hw, ?_⟩
                          by_cases hno : (!r && !w) = true
                          · rw [if_pos hno] at h
                            have hr2 : r = false := by cases r <;> simp_all
                            have hw2 : w = false := by cases w <;> simp_all
                            rw [hr2, hw2, usesLoop_no_hooks]
                            exact (Option.some.inj h).symm
                          · rw [if_neg hno] at h
                            exact (Option.some.inj h).symm

theorem visitInstruction_Call (E : RegexEngine) (P : PolicyFileData) (Debug : DebugInfo)
    (Call : Nat) (Target : Option Function) (S : Collected) :
    visitInstruction E P Debug (Instruction.Call Call Target) S =
      match Target with
      | none => some S
      | some T =>
          some (if CallHooks E P T ≠ [] then
            { S with Calls := mapEmplace S.Calls Call (CallHooks E P T) } else S) := by
  cases Target with
  | none => rfl
  | some T =>
      simp only [visitInstruction]
      by_cases h : CallHooks E P T ≠ []
      · rw [if_pos h, if_pos h]
      · rw [if_neg h, if_neg h]

theorem instructionsLoop_preserves (E : RegexEngine) (P : PolicyFileData) (Debug : DebugInfo)
    (Inv : Collected → Prop) (Q : Instruction → Prop)
    (hstep : ∀ I S S2, Q I → visitInstruction E P Debug I S = some S2 → Inv S → Inv S2) :
    ∀ (insts : List Instruction) (S S2 : Collected), (∀ I ∈ insts, Q I) →
      instructionsLoop E P Debug insts S = some S2 → Inv S → Inv S2 := by
  intro insts
  induction insts with
  | nil =>
      intro S S2 _ h hS
      simp only [instructionsLoop] at h
      rw [← Option.some.inj h]
      exact hS
  | cons I rest ih =>
      intro S S2 hQ h hS
      simp only [instructionsLoop] at h
      cases hv : visitInstruction E P Debug I S with
      | none => rw [hv] at h; exact absurd h (by simp)
      | some S1 =>
          rw [hv] at h
          exact ih S1 S2 (fun J hJ => hQ J (List.mem_cons_of_mem _ hJ)) h
            (hstep I S S1 (hQ I (List.mem_cons_self _ _)) hv hS)

theorem functionsLoop_preserves (E : RegexEngine) (P : PolicyFileData) (Debug : DebugInfo)
    (Inv : Collected → Prop) (Q : Instruction → Prop)
    (hstep : ∀ I S S2, Q I → visitInstruction E P Debug I S = some S2 → Inv S → Inv S2)
    (hfn : ∀ (S : Collected) (fns : List (Function × Directions)),
      Inv S → Inv { S with Functions := fns }) :
    ∀ (Fs : List FunctionDef) (S S2 : Collected), (∀ F ∈ Fs, ∀ I ∈ F.Insts, Q I) →
      functionsLoop E P Debug Fs S = some S2 → Inv S → Inv S2 := by
  intro Fs
  induction Fs with
  | nil =>
      intro S S2 _ h hS
      simp only [functionsLoop] at h
      rw [← Option.some.inj h]
      exact hS
  | cons F rest ih =>
      intro S S2 hQ h hS
      simp only [functionsLoop] at h
      cases hv : visitFunction E P Debug F S with
      | none => rw [hv] at h; exact absurd h (by simp)
      | some S1 =>
          rw [hv] at h
          refine ih S1 S2 (fun G hG => hQ G (List.mem_cons_of_mem _ hG)) h ?_
          simp only [visitFunction] at hv
          refine instructionsLoop_preserves E P Debug Inv Q hstep F.Insts _ S1
            (hQ F (List.mem_cons_self _ _)) hv ?_
          by_cases hd : FnHooks E P F.Fn ≠ []
          · rw [if_pos hd]
            exact hfn S _ hS
          · rw [if_neg hd]
            exact hS

theorem collect_preserves (E : RegexEngine) (P : PolicyFileData) (Debug : DebugInfo)
    (Inv : Collected → Prop) (Mod : IRModule)
    (hstep : ∀ I S S2, inModule Mod I → visitInstruction E P Debug I S = some S2 →
      Inv S → Inv S2)
    (hfn : ∀ (S : Collected) (fns : List (Function × Directions)),
      Inv S → Inv { S with Functions := fns })
    (hempty : Inv Collected.empty) (S : Collected) (h : collect E P Debug Mod = some S) :
    Inv S :=
  functionsLoop_preserves E P Debug Inv (inModule Mod) hstep hfn Mod Collected.empty S
    (fun F hF _ hI => ⟨F, hF, hI⟩) h hempty

theorem visitInstruction_FieldsJustified (E : RegexEngine) (P : PolicyFileData)
    (Debug : DebugInfo) (Q : Instruction → Prop) (I : Instruction) (S S2 : Collected)
    (hQ : Q I) (h : visitInstruction E P Debug I S = some S2)
    (hS : FieldsJustified E P Debug Q S) : FieldsJustified E P Debug Q S2 := by
  cases I with
  | GEP G =>
      rcases visitInstruction_GEP_cases E P Debug G S S2 h with rfl |
        ⟨ST, r, w, hST, hshape, hm, _, hr, hw, rfl⟩
      · exact hS
      · constructor
        · intro e he
          rcases (mem_usesLoop_FieldReads _ _ _ _ _ _ _).1 he with
            ⟨hrt, id, hid, rfl⟩ | ⟨hold, _⟩
          · subst hrt
            exact ⟨hQ, hshape, hid, rfl, ST, hST, hm, hr⟩
          · exact hS.1 e hold
        · intro e he
          rcases (mem_usesLoop_FieldWrites _ _ _ _ _ _ _).1 he with
            ⟨hwt, id, hid, rfl⟩ | ⟨hold, _⟩
          · subst hwt
            exact ⟨hQ, hshape, hid, rfl, ST, hST, hm, hw⟩
          · exact hS.2 e hold
  | Call id Target =>
      rw [visitInstruction_Call] at h
      cases Target with
      | none =>
          rw [← Option.some.inj h]
          exact hS
      | some T =>
          rw [← Option.some.inj h]
          by_cases hd : CallHooks E P T ≠ []
          · rw [if_pos hd]
            exact hS
          · rw [if_neg hd]
            exact hS
  | Load id =>
      have : S2 = S := (Option.some.inj h).symm
      rw [this]
      exact hS
  | Store id =>
      have : S2 = S := (Option.some.inj h).symm
      rw [this]
      exact hS
  | Other id =>
      have : S2 = S := (Option.some.inj h).symm
      rw [this]
      exact hS

theorem visitInstruction_CallsJustified (E : RegexEngine) (P : PolicyFileData)
    (Debug : DebugInfo) (Q : Instruction → Prop) (I : Instruction) (S S2 : Collected)
    (hQ : Q I) (h : visitInstruction E P Debug I S = some S2)
    (hS : CallsJustified E P Q S) : CallsJustified E P Q S2 := by
  cases I with
  | GEP G =>
      rcases visitInstruction_GEP_cases E P Debug G S S2 h with rfl |
        ⟨ST, r, w, _, _, _, _, _, _, rfl⟩
      · exact hS
      · intro e he
        rw [usesLoop_Calls] at he
        exact hS e he
  | Call id Target =>
      rw [visitInstruction_Call] at h
      cases Target with
      | none =>
          rw [← Option.some.inj h]
          exact hS
      | some T =>
          rw [← Option.some.inj h]
          by_cases hd : CallHooks E P T ≠ []
          · rw [if_pos hd]
            intro e he
            rcases (mem_mapEmplace _ _ _ _).1 he with hold | ⟨rfl, _⟩
            · exact hS e hold
            · exact ⟨T, hQ, rfl, hd⟩
          · rw [if_neg hd]
            exact hS
  | Load id =>
      have : S2 = S := (Option.some.inj h).symm
      rw [this]
      exact hS
  | Store id =>
      have : S2 = S := (Option.some.inj h).symm
      rw [this]
      exact hS
  | Other id =>
      have : S2 = S := (Option.some.inj h).symm
      rw [this]
      exact hS

theorem collect_FieldsJustified (E : RegexEngine) (P : PolicyFileData) (Debug : DebugInfo)
    (Mod : IRModule) (S : Collected) (h : collect E P Debug Mod = some S) :
    FieldsJustified E P Debug (inModule Mod) S :=
  collect_preserves E P Debug (FieldsJustified E P Debug (inModule Mod)) Mod
    (fun I S1 S2 hQ hv hS => visitInstruction_FieldsJustified E P Debug _ I S1 S2 hQ hv hS)
    (fun _ _ hS => hS)
    ⟨fun e he => absurd he (List.not_mem_nil e), fun e he => absurd he (List.not_mem_nil e)⟩
    S h

theorem collect_CallsJustified (E : RegexEngine) (P : PolicyFileData) (Debug : DebugInfo)
    (Mod : IRModule) (S : Collected) (h : collect E P Debug Mod = some S) :
    CallsJustified E P (inModule Mod) S :=
  collect_preserves E P Debug (CallsJustified E P (inModule Mod)) Mod
    (fun I S1 S2 hQ hv hS => visitInstruction_CallsJustified E P Debug _ I S1 S2 hQ hv hS)
    (fun _ _ hS => hS)
    (fun e he => absurd he (List.not_mem_nil e))
    S h

/-! ### Field-address computations of another shape -/

theorem visitInstruction_GEP_bad_shape (E : RegexEngine) (P : PolicyFileData)
    (Debug : DebugInfo) (GEP : GetElementPtrInst) (S : Collected)
    (h : GEP.getNumIndices ≠ 2 ∨ GEP.hasAllConstantIndices = false) :
    visitInstruction E P Debug (Instruction.GEP GEP) S = some S := by
  simp only [visitInstruction]
  cases asStructType GEP.SourceElementType with
  | none => rfl
  | some ST =>
      dsimp only
      rw [if_pos h]

/-- C12 does not hold as stated.  The store `3` uses the address computed by
a GEP with three indices, the last one not constant, and it appears in
`FieldWrites`: it is also a user of a GEP with two constant indices that the
policy selects. -/
theorem store_using_three_index_GEP_is_collected :
    elementGEP.getNumIndices = 3 ∧ elementGEP.hasAllConstantIndices = false ∧
    User.Store 3 ∈ elementGEP.Users ∧
    collect llvmRegex charpWritePolicy exampleDebug storeElementModule =
      some ⟨[], [], [], [(3, (charpGEP, "test_charp"))]⟩ := by
  decide

/-- C12 (amended): a GEP whose number of indices is not exactly 2, or that
has a non-constant index, leaves the four collections as they are, whatever
the policy is.  After the collection pass every record of `FieldReads`
(respectively `FieldWrites`) names a GEP of the module with exactly two
constant indices and is keyed by a load (respectively store) among the users
of that GEP; so a load or store that uses an address of another shape is
recorded only if it is also a user of a GEP with two constant indices. -/
theorem bad_shape_GEP_records_nothing (E : RegexEngine) (P : PolicyFileData)
    (Debug : DebugInfo) :
    (∀ (GEP : GetElementPtrInst) (S : Collected),
      (GEP.getNumIndices ≠ 2 ∨ GEP.hasAllConstantIndices = false) →
      visitInstruction E P Debug (Instruction.GEP GEP) S = some S) ∧
    (∀ (Mod : IRModule) (S : Collected), collect E P Debug Mod = some S →
      (∀ e ∈ S.FieldReads, e.2.1.getNumIndices = 2 ∧ e.2.1.hasAllConstantIndices = true ∧
        User.Load e.1 ∈ e.2.1.Users ∧ inModule Mod (Instruction.GEP e.2.1)) ∧
      (∀ e ∈ S.FieldWrites, e.2.1.getNumIndices = 2 ∧ e.2.1.hasAllConstantIndices = true ∧
        User.Store e.1 ∈ e.2.1.Users ∧ inModule Mod (Instruction.GEP e.2.1))) := by
  refine ⟨visitInstruction_GEP_bad_shape E P Debug, ?_⟩
  intro Mod S h
  have hj := collect_FieldsJustified E P Debug Mod S h
  constructor
  · intro e he
    obtain ⟨hQ, hshape, huser, _, _⟩ := hj.1 e he
    exact ⟨hshape.1, hshape.2, huser, hQ⟩
  · intro e he
    obtain ⟨hQ, hshape, huser, _, _⟩ := hj.2 e he
    exact ⟨hshape.1, hshape.2, huser, hQ⟩

/-- C12 (amended) at the example program: the GEP with three indices
changes nothing, and the record of the store `3` names the GEP with two
constant indices. -/
theorem bad_shape_GEP_records_nothing_witness :
    visitInstruction llvmRegex charpWritePolicy exampleDebug (Instruction.GEP elementGEP)
        Collected.empty = some Collected.empty ∧
    (charpGEP.getNumIndices = 2 ∧ charpGEP.hasAllConstantIndices = true ∧
      User.Store 3 ∈ charpGEP.Users ∧
      inModule storeElementModule (Instruction.GEP charpGEP)) :=
  ⟨(bad_shape_GEP_records_nothing llvmRegex charpWritePolicy exampleDebug).1 elementGEP
      Collected.empty (Or.inl (by decide)),
   ((bad_shape_GEP_records_nothing llvmRegex charpWritePolicy exampleDebug).2
      storeElementModule ⟨[], [], [], [(3, (charpGEP, "test_charp"))]⟩ (by decide)).2
      (3, (charpGEP, "test_charp")) (List.mem_singleton.2 rfl)⟩

/-! ### Calls -/

theorem visitInstruction_Calls_grow (E : RegexEngine) (P : PolicyFileData) (Debug : DebugInfo)
    (I : Instruction) (S S2 : Collected) (h : visitInstruction E P Debug I S = some S2)
    (e : Nat × Directions) (he : e ∈ S.Calls) : e ∈ S2.Calls := by
  cases I with
  | GEP G =>
      rcases visitInstruction_GEP_cases E P Debug G S S2 h with rfl |
        ⟨ST, r, w, _, _, _, _, _, _, rfl⟩
      · exact he
      · rw [usesLoop_Calls]
        exact he
  | Call id Target =>
      rw [visitInstruction_Call] at h
      cases Target with
      | none =>
          rw [← Option.some.inj h]
          exact he
      | some T =>
          rw [← Option.some.inj h]
          by_cases hd : CallHooks E P T ≠ []
          · rw [if_pos hd]
            exact (mem_mapEmplace _ _ _ _).2 (Or.inl he)
          · rw [if_neg hd]
            exact he
  | Load id =>
      have : S2 = S := (Option.some.inj h).symm
      rw [this]
      exact he
  | Store id =>
      have : S2 = S := (Option.some.inj h).symm
      rw [this]
      exact he
  | Other id =>
      have : S2 = S := (Option.some.inj h).symm
      rw [this]
      exact he

theorem instructionsLoop_call_recorded (E : RegexEngine) (P : PolicyFileData)
    (Debug : DebugInfo) (id : Nat) (T : Function) (hd : CallHooks E P T ≠ []) :
    ∀ (insts : List Instruction) (S S2 : Collected),
      instructionsLoop E P Debug insts S = some S2 →
      Instruction.Call id (some T) ∈ insts → ∃ D, (id, D) ∈ S2.Calls := by
  intro insts
  induction insts with
  | nil => intro S S2 _ hmem; exact absurd hmem (List.not_mem_nil _)
  | cons I rest ih =>
      intro S S2 h hmem
      simp only [instructionsLoop] at h
      cases hv : visitInstruction E P Debug I S with
      | none => rw [hv] at h; exact absurd h (by simp)
      | some S1 =>
          rw [hv] at h
          rcases List.mem_cons.1 hmem with hhead | htail
          · subst hhead
            rw [visitInstruction_Call] at hv
            have hS1 : S1 = { S with Calls := mapEmplace S.Calls id (CallHooks E P T) } := by
              rw [← Option.some.inj hv, if_pos hd]
            obtain ⟨D, hD⟩ := key_mem_mapEmplace S.Calls id (CallHooks E P T)
            have hD1 : (id, D) ∈ S1.Calls := by rw [hS1]; exact hD
            exact instructionsLoop_preserves E P Debug (fun S => ∃ D, (id, D) ∈ S.Calls)
              (fun _ => True)
              (fun J Sa Sb _ hJ ⟨D2, hD2⟩ =>
                ⟨D2, visitInstruction_Calls_grow E P Debug J Sa Sb hJ _ hD2⟩)
              rest S1 S2 (fun _ _ => trivial) h ⟨D, hD1⟩
          · exact ih S1 S2 h htail

theorem functionsLoop_call_recorded (E : RegexEngine) (P : PolicyFileData)
    (Debug : DebugInfo) (id : Nat) (T : Function) (hd : CallHooks E P T ≠ []) :
    ∀ (Fs : List FunctionDef) (S S2 : Collected),
      functionsLoop E P Debug Fs S = some S2 →
      (∃ F ∈ Fs, Instruction.Call id (some T) ∈ F.Insts) → ∃ D, (id, D) ∈ S2.Calls := by
  intro Fs
  induction Fs with
  | nil =>
      intro S S2 _ hmem
      obtain ⟨F, hF, _⟩ := hmem
      exact absurd hF (List.not_mem_nil _)
  | cons F rest ih =>
      intro S S2 h hmem
      simp only [functionsLoop] at h
      cases hv : visitFunction E P Debug F S with
      | none => rw [hv] at h; exact absurd h (by simp)
      | some S1 =>
          rw [hv] at h
          obtain ⟨G, hG, hI⟩ := hmem
          rcases List.mem_cons.1 hG with hhead | htail
          · subst hhead
            simp only [visitFunction] at hv
            obtain ⟨D, hD⟩ := instructionsLoop_call_recorded E P Debug id T hd _ _ S1 hv hI
            exact functionsLoop_preserves E P Debug (fun S => ∃ D, (id, D) ∈ S.Calls)
              (fun _ => True)
              (fun J Sa Sb _ hJ ⟨D2, hD2⟩ =>
                ⟨D2, visitInstruction_Calls_grow E P Debug J Sa Sb hJ _ hD2⟩)
              (fun _ _ hS => hS)
              rest S1 S2 (fun _ _ _ _ => trivial) h ⟨D, hD⟩
          · exact ih S1 S2 h ⟨G, htail, hI⟩

theorem instrumentLoop_congr {α : Type} (f g : IRModule → α → IRModule × Bool) (l : List α)
    (h : ∀ M, ∀ i ∈ l, f M i = g M i) (st : IRModule × Bool) :
    instrumentLoop f l st = instrumentLoop g l st := by
  induction l generalizing st with
  | nil => rfl
  | cons i rest ih =>
      simp only [instrumentLoop]
      rw [h st.1 i (List.mem_cons_self _ _)]
      exact ih (fun M j hj => h M j (List.mem_cons_of_mem _ hj)) _

/-- C13: an indirect call (no called function) leaves the collections as
they are, whatever the policy is; a direct call is recorded in `Calls`, with
the directions `CallHooks` returns for its target, exactly when that list is
not empty.  After the collection pass every entry of `Calls` belongs to a
direct call of the module and holds the non-empty directions of its target,
every direct call of the module whose target has non-empty directions has an
entry, and a call that is not a direct call of the module has none.  The
second pass applies the Instrumenter to calls only at the entries of
`Calls`: its result does not depend on what the Instrumenter would do at
any other call. -/
theorem calls_collected (E : RegexEngine) (P : PolicyFileData) (Debug : DebugInfo) :
    (∀ (id : Nat) (S : Collected),
      visitInstruction E P Debug (Instruction.Call id none) S = some S) ∧
    (∀ (id : Nat) (T : Function) (S : Collected),
      visitInstruction E P Debug (Instruction.Call id (some T)) S =
        some (if CallHooks E P T ≠ [] then
          { S with Calls := mapEmplace S.Calls id (CallHooks E P T) } else S)) ∧
    (∀ (Mod : IRModule) (S : Collected), collect E P Debug Mod = some S →
      (∀ e ∈ S.Calls, ∃ T, inModule Mod (Instruction.Call e.1 (some T)) ∧
        e.2 = CallHooks E P T ∧ e.2 ≠ []) ∧
      (∀ (id : Nat) (T : Function), inModule Mod (Instruction.Call id (some T)) →
        CallHooks E P T ≠ [] → ∃ D, (id, D) ∈ S.Calls) ∧
      (∀ id : Nat, (∀ T, ¬ inModule Mod (Instruction.Call id (some T))) →
        ∀ D, (id, D) ∉ S.Calls)) ∧
    (∀ (Instr Instr2 : Instrumenter) (S : Collected) (Mod : IRModule),
      Instr.InstrumentFunction = Instr2.InstrumentFunction →
      Instr.InstrumentFieldRead = Instr2.InstrumentFieldRead →
      Instr.InstrumentFieldWrite = Instr2.InstrumentFieldWrite →
      (∀ M, ∀ e ∈ S.Calls, Instr.InstrumentCall M e.1 e.2 = Instr2.InstrumentCall M e.1 e.2) →
      instrument Instr S Mod = instrument Instr2 S Mod) := by
  refine ⟨fun id S => rfl, fun id T S => visitInstruction_Call E P Debug id (some T) S, ?_, ?_⟩
  · intro Mod S h
    have hj := collect_CallsJustified E P Debug Mod S h
    refine ⟨hj, ?_, ?_⟩
    · intro id T hin hd
      exact functionsLoop_call_recorded E P Debug id T hd Mod _ S h hin
    · intro id hno D hD
      obtain ⟨T, hQ, _, _⟩ := hj (id, D) hD
      exact hno T hQ
  · intro Instr Instr2 S Mod hf hr hw hc
    simp only [instrument, hf, hr, hw]
    rw [instrumentLoop_congr (fun M i => Instr.InstrumentCall M i.1 i.2)
      (fun M i => Instr2.InstrumentCall M i.1 i.2) S.Calls hc]

/-- C13 at the example program under the wildcard policy: the indirect call
`4` changes nothing and has no entry in `Calls`; the direct call `5` has
one. -/
theorem calls_collected_witness :
    visitInstruction llvmRegex wildcardPolicy exampleDebug (Instruction.Call 4 none)
        Collected.empty = some Collected.empty ∧
    collect llvmRegex wildcardPolicy exampleDebug callsModule =
      some ⟨[], [(5, [Direction.In, Direction.Out])], [], []⟩ ∧
    (∀ D, (4, D) ∉
      (⟨[], [(5, [Direction.In, Direction.Out])], [], []⟩ : Collected).Calls) ∧
    ∃ D, (5, D) ∈ (⟨[], [(5, [Direction.In, Direction.Out])], [], []⟩ : Collected).Calls :=
  ⟨(calls_collected llvmRegex wildcardPolicy exampleDebug).1 4 Collected.empty,
   by decide,
   ((calls_collected llvmRegex wildcardPolicy exampleDebug).2.2.1 callsModule
      ⟨[], [(5, [Direction.In, Direction.Out])], [], []⟩ (by decide)).2.2 4
      (by
        intro T h
        obtain ⟨F, hF, hI⟩ := h
        simp only [callsModule, List.mem_singleton] at hF
        subst hF
        simp at hI),
   ((calls_collected llvmRegex wildcardPolicy exampleDebug).2.2.1 callsModule
      ⟨[], [(5, [Direction.In, Direction.Out])], [], []⟩ (by decide)).2.1 5
      ⟨"function_void_return_no_arg", none⟩
      ⟨_, List.mem_singleton.2 rfl, by decide⟩ (by decide)⟩

/-! ### The empty policy -/

theorem StructTypeMatters_no_rules (E : RegexEngine) (P : PolicyFileData) (T : StructType)
    (hs : P.Structures = []) :
    (StructTypeMatters E P T = some false ∨ StructTypeMatters E P T = none) ∧
    ((T.hasName = false ∨ startswith T.getName "struct." = true ∨
        startswith T.getName "union." = true) → StructTypeMatters E P T = some false) := by
  unfold StructTypeMatters
  rw [hs]
  by_cases hn : T.hasName = true
  · by_cases hst : startswith T.getName "struct." = true
    · simp [hn, hst, StructTypeMattersLoop]
    · simp only [Bool.not_eq_true] at hst
      by_cases hu : startswith T.getName "union." = true
      · simp [hn, hst, hu]
      · simp only [Bool.not_eq_true] at hu
        simp [hn, hst, hu]
  · simp only [Bool.not_eq_true] at hn
    simp [hn]

theorem visitInstruction_empty_policy (E : RegexEngine) (P : PolicyFileData)
    (Debug : DebugInfo) (hf : P.Functions = []) (hs : P.Structures = [])
    (I : Instruction) (S : Collected) :
    (visitInstruction E P Debug I S = some S ∨ visitInstruction E P Debug I S = none) ∧
    ((∀ GEP ST, I = Instruction.GEP GEP → asStructType GEP.SourceElementType = some ST →
        hasFieldShape GEP →
        (ST.hasName = false ∨ startswith ST.getName "struct." = true ∨
          startswith ST.getName "union." = true)) →
      visitInstruction E P Debug I S = some S) := by
  cases I with
  | GEP G =>
      cases hST : asStructType G.SourceElementType with
      | none =>
          have hv : visitInstruction E P Debug (Instruction.GEP G) S = some S := by
            simp only [visitInstruction, hST]
          exact ⟨Or.inl hv, fun _ => hv⟩
      | some ST =>
          by_cases hshape : G.getNumIndices ≠ 2 ∨ G.hasAllConstantIndices = false
          · have hv := visitInstruction_GEP_bad_shape E P Debug G S hshape
            exact ⟨Or.inl hv, fun _ => hv⟩
          · have hfield : hasFieldShape G := by
              unfold hasFieldShape
              constructor
              · by_contra hne
                exact hshape (Or.inl hne)
              · cases hc : G.hasAllConstantIndices with
                | true => rfl
                | false => exact absurd (Or.inr hc) hshape
            have hcases := StructTypeMatters_no_rules E P ST hs
            have hvis : ∀ o, StructTypeMatters E P ST = o → (o = some false ∨ o = none) →
                (visitInstruction E P Debug (Instruction.GEP G) S = some S ∨
                  visitInstruction E P Debug (Instruction.GEP G) S = none) ∧
                (o = some false →
                  visitInstruction E P Debug (Instruction.GEP G) S = some S) := by
              intro o ho hor
              simp only [visitInstruction, hST]
              rw [if_neg hshape, ho]
              rcases hor with rfl | rfl
              · exact ⟨Or.inl rfl, fun _ => rfl⟩
              · exact ⟨Or.inr rfl, fun h => absurd h (by simp)⟩
            obtain ⟨h1, h2⟩ := hvis _ rfl hcases.1
            exact ⟨h1, fun hexp => h2 (hcases.2 (hexp G ST rfl hST hfield))⟩
  | Call id Target =>
      have hv : visitInstruction E P Debug (Instruction.Call id Target) S = some S := by
        rw [visitInstruction_Call]
        cases Target with
        | none => rfl
        | some T =>
            have hd : CallHooks E P T = [] := by simp [CallHooks, hf, CallHooksLoop]
            simp [hd]
      exact ⟨Or.inl hv, fun _ => hv⟩
  | Load id => exact ⟨Or.inl rfl, fun _ => rfl⟩
  | Store id => exact ⟨Or.inl rfl, fun _ => rfl⟩
  | Other id => exact ⟨Or.inl rfl, fun _ => rfl⟩

theorem instructionsLoop_empty_policy (E : RegexEngine) (P : PolicyFileData)
    (Debug : DebugInfo) (hf : P.Functions = []) (hs : P.Structures = [])
    (insts : List Instruction) (S : Collected) :
    (instructionsLoop E P Debug insts S = some S ∨
      instructionsLoop E P Debug insts S = none) ∧
    ((∀ GEP ST, Instruction.GEP GEP ∈ insts → asStructType GEP.SourceElementType = some ST →
        hasFieldShape GEP →
        (ST.hasName = false ∨ startswith ST.getName "struct." = true ∨
          startswith ST.getName "union." = true)) →
      instructionsLoop E P Debug insts S = some S) := by
  induction insts with
  | nil => exact ⟨Or.inl rfl, fun _ => rfl⟩
  | cons I rest ih =>
      obtain ⟨h1, h2⟩ := visitInstruction_empty_policy E P Debug hf hs I S
      constructor
      · rcases h1 with hv | hv
        · simp only [instructionsLoop, hv]
          exact ih.1
        · simp only [instructionsLoop, hv]
          exact Or.inr trivial
      · intro hexp
        have hv := h2 (fun G ST hI => by
          subst hI
          exact hexp G ST (List.mem_cons_self _ _))
        simp only [instructionsLoop, hv]
        exact ih.2 (fun G ST hG => hexp G ST (List.mem_cons_of_mem _ hG))

theorem functionsLoop_empty_policy (E : RegexEngine) (P : PolicyFileData)
    (Debug : DebugInfo) (hf : P.Functions = []) (hs : P.Structures = [])
    (Fs : List FunctionDef) (S : Collected) :
    (functionsLoop E P Debug Fs S = some S ∨ functionsLoop E P Debug Fs S = none) ∧
    ((∀ GEP ST, (∃ F ∈ Fs, Instruction.GEP GEP ∈ F.Insts) →
        asStructType GEP.SourceElementType = some ST → hasFieldShape GEP →
        (ST.hasName = false ∨ startswith ST.getName "struct." = true ∨
          startswith ST.getName "union." = true)) →
      functionsLoop E P Debug Fs S = some S) := by
  induction Fs with
  | nil => exact ⟨Or.inl rfl, fun _ => rfl⟩
  | cons F rest ih =>
      have hfn : FnHooks E P F.Fn = [] := by simp [FnHooks, hf, FnHooksLoop]
      have hvf : visitFunction E P Debug F S = instructionsLoop E P Debug F.Insts S := by
        simp [visitFunction, hfn]
      obtain ⟨h1, h2⟩ := instructionsLoop_empty_policy E P Debug hf hs F.Insts S
      constructor
      · rcases h1 with hv | hv
        · simp only [functionsLoop, hvf, hv]
          exact ih.1
        · simp only [functionsLoop, hvf, hv]
          exact Or.inr trivial
      · intro hexp
        have hv := h2 (fun G ST hG => hexp G ST ⟨F, List.mem_cons_self _ _, hG⟩)
        simp only [functionsLoop, hvf, hv]
        exact ih.2 (fun G ST ⟨F2, hF2, hG⟩ => hexp G ST ⟨F2, List.mem_cons_of_mem _ hF2, hG⟩)

/-- C14: the code at a failing input.  With the empty policy (no function,
struct or global rules, everything = false) the driver does not return on
this program: the struct type of its GEP is named `class.Counter`, and the
`assert` of `StructTypeMatters` on the `union.` marker fails, where the
driver should return the program unchanged with modified = false. -/
theorem empty_policy_assert_fails_on_class_type :
    defaultPolicy.Functions = [] ∧ defaultPolicy.Structures = [] ∧
    defaultPolicy.Globals = [] ∧ defaultPolicy.InstrumentEverything = false ∧
    StructTypeMatters llvmRegex defaultPolicy ⟨some "class.Counter"⟩ = none ∧
    runOnModule llvmRegex exampleDebug idleInstrumenter (some defaultPolicy) classModule =
      none := by
  decide

/-- The empty policy where the assertion of `StructTypeMatters` holds: with
a policy that has no function rules and no struct rules, on a program whose
struct GEPs with two constant indices are over types that have no name or a
name starting with `struct.` or `union.`, the collection pass records no
function, call, field read or field write, the Instrumenter is applied to
nothing, and the driver returns the program unchanged with modified = false.
On every program the driver either returns the program unchanged with
modified = false or stops at the assertion. -/
theorem empty_policy_changes_nothing (E : RegexEngine) (Debug : DebugInfo)
    (Instr : Instrumenter) (P : PolicyFileData) (Mod : IRModule)
    (hf : P.Functions = []) (hs : P.Structures = []) :
    (typeNamesExpected Mod →
      collect E P Debug Mod = some ⟨[], [], [], []⟩ ∧
        runOnModule E Debug Instr (some P) Mod = some (Mod, false)) ∧
    (runOnModule E Debug Instr (some P) Mod = some (Mod, false) ∨
      runOnModule E Debug Instr (some P) Mod = none) ∧
    instrument Instr ⟨[], [], [], []⟩ Mod = (Mod, false) := by
  have hloop := functionsLoop_empty_policy E P Debug hf hs Mod Collected.empty
  refine ⟨?_, ?_, rfl⟩
  · intro hexp
    have hc : collect E P Debug Mod = some Collected.empty :=
      hloop.2 (fun G ST hin hST hshape => hexp G ST hin hST hshape)
    refine ⟨hc, ?_⟩
    simp only [runOnModule, hc]
    rfl
  · rcases hloop.1 with hc | hc
    · left
      have hc2 : collect E P Debug Mod = some Collected.empty := hc
      simp only [runOnModule, hc2]
      rfl
    · right
      have hc2 : collect E P Debug Mod = none := hc
      simp only [runOnModule, hc2]

/-- The empty policy at the example program, whose struct types are named
`struct.buffers` and `struct.test_struct`: the default (empty) policy
leaves it unchanged. -/
theorem empty_policy_changes_nothing_witness :
    collect llvmRegex defaultPolicy exampleDebug storeElementModule = some ⟨[], [], [], []⟩ ∧
    runOnModule llvmRegex exampleDebug idleInstrumenter (some defaultPolicy)
      storeElementModule = some (storeElementModule, false) :=
  (empty_policy_changes_nothing llvmRegex exampleDebug idleInstrumenter defaultPolicy
    storeElementModule rfl rfl).1
    (by
      intro G ST hin hST _
      obtain ⟨F, hF, hI⟩ := hin
      simp only [storeElementModule, List.mem_singleton] at hF
      subst hF
      simp only [List.mem_cons, Instruction.GEP.injEq, List.mem_singleton,
        reduceCtorEq, or_false, List.not_mem_nil] at hI
      rcases hI with rfl | rfl
      · simp only [elementGEP, asStructType, Option.some.injEq] at hST
        subst hST
        exact Or.inr (Or.inl (by decide))
      · simp only [charpGEP, asStructType, Option.some.injEq] at hST
        subst hST
        exact Or.inr (Or.inl (by decide)))

/-! ### Field accesses -/

theorem StructTypeMatters_some_true (E : RegexEngine) (P : PolicyFileData) (T : StructType)
    (h : StructTypeMatters E P T = some true) :
    T.hasName = true ∧ startswith T.getName "struct." = true ∧
      StructTypeMattersLoop E (substr T.getName 7) P.Structures = true := by
  unfold StructTypeMatters at h
  by_cases hn : T.hasName = true
  · by_cases hs : startswith T.getName "struct." = true
    · simp [hn, hs] at h
      exact ⟨hn, hs, h⟩
    · simp only [Bool.not_eq_true] at hs
      by_cases hu : startswith T.getName "union." = true
      · simp [hn, hs, hu] at h
      · simp only [Bool.not_eq_true] at hu
        simp [hn, hs, hu] at h
  · simp only [Bool.not_eq_true] at hn
    simp [hn] at h

theorem FieldHook_of_struct_marker (E : RegexEngine) (P : PolicyFileData) (Op : Operation)
    (T : StructType) (f : String) (hs : startswith T.getName "struct." = true) :
    FieldHook E P Op T f = some (FieldHookLoop E (substr T.getName 7) f Op P.Structures) := by
  simp [FieldHook, hs]

theorem FieldHook_some_true (E : RegexEngine) (P : PolicyFileData) (Op : Operation)
    (T : StructType) (f : String) (h : FieldHook E P Op T f = some true) :
    startswith T.getName "struct." = true ∧
      FieldHookLoop E (substr T.getName 7) f Op P.Structures = true := by
  unfold FieldHook at h
  by_cases hs : startswith T.getName "struct." = true
  · simp [hs] at h
    exact ⟨hs, h⟩
  · simp only [Bool.not_eq_true] at hs
    by_cases hu : startswith T.getName "union." = true
    · simp [hs, hu] at h
    · simp only [Bool.not_eq_true] at hu
      simp [hs, hu] at h

theorem FieldHookLoop_true_exists (E : RegexEngine) (Name Field : String) (Op : Operation)
    (rules : List StructInstrumentation) (h : FieldHookLoop E Name Field Op rules = true) :
    ∃ S ∈ rules, MatchName E S.Name Name = true := by
  induction rules with
  | nil => simp [FieldHookLoop] at h
  | cons S rest ih =>
      by_cases hm : MatchName E S.Name Name = true
      · exact ⟨S, List.mem_cons_self _ _, hm⟩
      · simp only [Bool.not_eq_true] at hm
        simp only [FieldHookLoop, hm, Bool.not_false, if_true] at h
        obtain ⟨S2, hS2, hm2⟩ := ih h
        exact ⟨S2, List.mem_cons_of_mem _ hS2, hm2⟩

theorem hasName_of_struct_marker (T : StructType)
    (hs : startswith T.getName "struct." = true) : T.hasName = true := by
  cases T with
  | mk Name =>
      cases Name with
      | none => exact absurd hs (by decide)
      | some n => rfl

theorem visitInstruction_GEP_selected (E : RegexEngine) (P : PolicyFileData)
    (Debug : DebugInfo) (GEP : GetElementPtrInst) (ST : StructType) (S : Collected)
    (hST : asStructType GEP.SourceElementType = some ST) (hnum : GEP.getNumIndices = 2)
    (hconst : GEP.hasAllConstantIndices = true)
    (hm : StructTypeMatters E P ST = some true) (hf : Debug.FieldName GEP ≠ "") :
    ∃ r w, FieldReadHook E P ST (Debug.FieldName GEP) = some r ∧
      FieldWriteHook E P ST (Debug.FieldName GEP) = some w ∧
      visitInstruction E P Debug (Instruction.GEP GEP) S =
        some (usesLoop GEP (Debug.FieldName GEP) r w GEP.Users S) := by
  have hs := (StructTypeMatters_some_true E P ST hm).2.1
  have hr := FieldHook_of_struct_marker E P Operation.Read ST (Debug.FieldName GEP) hs
  have hw := FieldHook_of_struct_marker E P Operation.Write ST (Debug.FieldName GEP) hs
  refine ⟨_, _, hr, hw, ?_⟩
  have hshape : ¬ (GEP.getNumIndices ≠ 2 ∨ GEP.hasAllConstantIndices = false) := by
    rintro (h | h)
    · exact h hnum
    · rw [hconst] at h
      exact absurd h (by decide)
  have hr2 : FieldReadHook E P ST (Debug.FieldName GEP) = some
      (FieldHookLoop E (substr ST.getName 7) (Debug.FieldName GEP) Operation.Read
        P.Structures) := hr
  have hw2 : FieldWriteHook E P ST (Debug.FieldName GEP) = some
      (FieldHookLoop E (substr ST.getName 7) (Debug.FieldName GEP) Operation.Write
        P.Structures) := hw
  simp only [visitInstruction, hST]
  rw [if_neg hshape, hm]
  dsimp only
  rw [if_neg hf, hr2, hw2]
  dsimp only
  by_cases hno : (!FieldHookLoop E (substr ST.getName 7) (Debug.FieldName GEP) Operation.Read
      P.Structures && !FieldHookLoop E (substr ST.getName 7) (Debug.FieldName GEP)
      Operation.Write P.Structures) = true
  · rw [if_pos hno]
    simp only [Bool.and_eq_true, Bool.not_eq_true'] at hno
    rw [hno.1, hno.2, usesLoop_no_hooks]
  · rw [if_neg hno]

theorem instructionsLoop_append (E : RegexEngine) (P : PolicyFileData) (Debug : DebugInfo)
    (A B : List Instruction) (S : Collected) :
    instructionsLoop E P Debug (A ++ B) S =
      (instructionsLoop E P Debug A S).bind (instructionsLoop E P Debug B) := by
  induction A generalizing S with
  | nil => rfl
  | cons I rest ih =>
      simp only [List.cons_append, instructionsLoop]
      cases visitInstruction E P Debug I S with
      | none => rfl
      | some S1 => exact ih S1

theorem functionsLoop_append (E : RegexEngine) (P : PolicyFileData) (Debug : DebugInfo)
    (A B : List FunctionDef) (S : Collected) :
    functionsLoop E P Debug (A ++ B) S =
      (functionsLoop E P Debug A S).bind (functionsLoop E P Debug B) := by
  induction A generalizing S with
  | nil => rfl
  | cons F rest ih =>
      simp only [List.cons_append, functionsLoop]
      cases visitFunction E P Debug F S with
      | none => rfl
      | some S1 => exact ih S1

theorem instructionsLoop_establishes (E : RegexEngine) (P : PolicyFileData)
    (Debug : DebugInfo) (Inv : Collected → Prop) (I0 : Instruction)
    (hest : ∀ S S2, visitInstruction E P Debug I0 S = some S2 → Inv S2)
    (hpres : ∀ I S S2, visitInstruction E P Debug I S = some S2 → Inv S → Inv S2) :
    ∀ (insts : List Instruction) (S S2 : Collected),
      instructionsLoop E P Debug insts S = some S2 → I0 ∈ insts → Inv S2 := by
  intro insts
  induction insts with
  | nil => intro S S2 _ hmem; exact absurd hmem (List.not_mem_nil _)
  | cons I rest ih =>
      intro S S2 h hmem
      simp only [instructionsLoop] at h
      cases hv : visitInstruction E P Debug I S with
      | none => rw [hv] at h; exact absurd h (by simp)
      | some S1 =>
          rw [hv] at h
          rcases List.mem_cons.1 hmem with hhead | htail
          · subst hhead
            exact instructionsLoop_preserves E P Debug Inv (fun _ => True)
              (fun J Sa Sb _ hJ hS => hpres J Sa Sb hJ hS)
              rest S1 S2 (fun _ _ => trivial) h (hest S S1 hv)
          · exact ih S1 S2 h htail

theorem functionsLoop_establishes (E : RegexEngine) (P : PolicyFileData)
    (Debug : DebugInfo) (Inv : Collected → Prop) (I0 : Instruction)
    (hest : ∀ S S2, visitInstruction E P Debug I0 S = some S2 → Inv S2)
    (hpres : ∀ I S S2, visitInstruction E P Debug I S = some S2 → Inv S → Inv S2)
    (hfn : ∀ (S : Collected) (fns : List (Function × Directions)),
      Inv S → Inv { S with Functions := fns }) :
    ∀ (Fs : List FunctionDef) (S S2 : Collected),
      functionsLoop E P Debug Fs S = some S2 → (∃ F ∈ Fs, I0 ∈ F.Insts) → Inv S2 := by
  intro Fs
  induction Fs with
  | nil =>
      intro S S2 _ hmem
      obtain ⟨F, hF, _⟩ := hmem
      exact absurd hF (List.not_mem_nil _)
  | cons F rest ih =>
      intro S S2 h hmem
      simp only [functionsLoop] at h
      cases hv : visitFunction E P Debug F S with
      | none => rw [hv] at h; exact absurd h (by simp)
      | some S1 =>
          rw [hv] at h
          obtain ⟨G, hG, hI⟩ := hmem
          rcases List.mem_cons.1 hG with hhead | htail
          · subst hhead
            simp only [visitFunction] at hv
            have hS1 := instructionsLoop_establishes E P Debug Inv I0 hest hpres _ _ S1 hv hI
            exact functionsLoop_preserves E P Debug Inv (fun _ => True)
              (fun J Sa Sb _ hJ hS => hpres J Sa Sb hJ hS) hfn
              rest S1 S2 (fun _ _ _ _ => trivial) h hS1
          · exact ih S1 S2 h ⟨G, htail, hI⟩

theorem visitInstruction_keeps_FieldReads_key (E : RegexEngine) (P : PolicyFileData)
    (Debug : DebugInfo) (id : Nat) (I : Instruction) (S S2 : Collected)
    (h : visitInstruction E P Debug I S = some S2)
    (hS : ∃ v, (id, v) ∈ S.FieldReads) : ∃ v, (id, v) ∈ S2.FieldReads := by
  obtain ⟨v, hv⟩ := hS
  cases I with
  | GEP G =>
      rcases visitInstruction_GEP_cases E P Debug G S S2 h with rfl |
        ⟨ST, r, w, _, _, _, _, _, _, rfl⟩
      · exact ⟨v, hv⟩
      · by_cases hover : r = true ∧ User.Load id ∈ G.Users
        · exact ⟨_, (mem_usesLoop_FieldReads _ _ _ _ _ _ _).2 (Or.inl ⟨hover.1, id, hover.2, rfl⟩)⟩
        · exact ⟨v, (mem_usesLoop_FieldReads _ _ _ _ _ _ _).2 (Or.inr ⟨hv, hover⟩)⟩
  | Call c Target =>
      rw [visitInstruction_Call] at h
      cases Target with
      | none =>
          rw [← Option.some.inj h]
          exact ⟨v, hv⟩
      | some T =>
          rw [← Option.some.inj h]
          by_cases hd : CallHooks E P T ≠ []
          · rw [if_pos hd]
            exact ⟨v, hv⟩
          · rw [if_neg hd]
            exact ⟨v, hv⟩
  | Load l =>
      have : S2 = S := (Option.some.inj h).symm
      rw [this]
      exact ⟨v, hv⟩
  | Store l =>
      have : S2 = S := (Option.some.inj h).symm
      rw [this]
      exact ⟨v, hv⟩
  | Other l =>
      have : S2 = S := (Option.some.inj h).symm
      rw [this]
      exact ⟨v, hv⟩

theorem visitInstruction_keeps_FieldReads_entry (E : RegexEngine) (P : PolicyFileData)
    (Debug : DebugInfo) (e : Nat × FieldGEP) (I : Instruction) (S S2 : Collected)
    (hQ : ¬ selectsRead E P Debug I e.1)
    (h : visitInstruction E P Debug I S = some S2)
    (hS : e ∈ S.FieldReads) : e ∈ S2.FieldReads := by
  cases I with
  | GEP G =>
      rcases visitInstruction_GEP_cases E P Debug G S S2 h with rfl |
        ⟨ST, r, w, hST, hshape, hm, _, hr, hw, rfl⟩
      · exact hS
      · refine (mem_usesLoop_FieldReads _ _ _ _ _ _ _).2 (Or.inr ⟨hS, ?_⟩)
        rintro ⟨hrt, huser⟩
        subst hrt
        exact hQ ⟨G, ST, rfl, hST, hshape, hm, hr, huser⟩
  | Call c Target =>
      rw [visitInstruction_Call] at h
      cases Target with
      | none =>
          rw [← Option.some.inj h]
          exact hS
      | some T =>
          rw [← Option.some.inj h]
          by_cases hd : CallHooks E P T ≠ []
          · rw [if_pos hd]
            exact hS
          · rw [if_neg hd]
            exact hS
  | Load l =>
      have : S2 = S := (Option.some.inj h).symm
      rw [this]
      exact hS
  | Store l =>
      have : S2 = S := (Option.some.inj h).symm
      rw [this]
      exact hS
  | Other l =>
      have : S2 = S := (Option.some.inj h).symm
      rw [this]
      exact hS

theorem visitInstruction_records_FieldReads (E : RegexEngine) (P : PolicyFileData)
    (Debug : DebugInfo) (GEP : GetElementPtrInst) (ST : StructType) (id : Nat)
    (S S2 : Collected) (hST : asStructType GEP.SourceElementType = some ST)
    (hshape : hasFieldShape GEP) (hm : StructTypeMatters E P ST = some true)
    (hhook : FieldReadHook E P ST (Debug.FieldName GEP) = some true)
    (huser : User.Load id ∈ GEP.Users)
    (h : visitInstruction E P Debug (Instruction.GEP GEP) S = some S2) :
    (id, (GEP, Debug.FieldName GEP)) ∈ S2.FieldReads := by
  by_cases hname : Debug.FieldName GEP = ""
  · exfalso
    have hsh : ¬ (GEP.getNumIndices ≠ 2 ∨ GEP.hasAllConstantIndices = false) := by
      rintro (h1 | h1)
      · exact h1 hshape.1
      · rw [hshape.2] at h1
        exact absurd h1 (by decide)
    have hnone : visitInstruction E P Debug (Instruction.GEP GEP) S = none := by
      simp only [visitInstruction, hST]
      rw [if_neg hsh, hm]
      dsimp only
      rw [if_pos hname]
    rw [hnone] at h
    exact absurd h (by simp)
  · obtain ⟨r, w, hr, hw, hv⟩ := visitInstruction_GEP_selected E P Debug GEP ST S hST
      hshape.1 hshape.2 hm hname
    rw [hv] at h
    have hS2 : S2 = usesLoop GEP (Debug.FieldName GEP) r w GEP.Users S :=
      (Option.some.inj h).symm
    have hrt : r = true := by
      rw [hhook] at hr
      exact (Option.some.inj hr).symm
    rw [hS2]
    exact (mem_usesLoop_FieldReads _ _ _ _ _ _ _).2 (Or.inl ⟨hrt, id, huser, rfl⟩)

theorem collect_records_FieldReads (E : RegexEngine) (P : PolicyFileData)
    (Debug : DebugInfo) (Mod : IRModule) (S : Collected)
    (h : collect E P Debug Mod = some S) (I : Instruction) (id : Nat)
    (hin : inModule Mod I) (hsel : selectsRead E P Debug I id) :
    ∃ v, (id, v) ∈ S.FieldReads := by
  obtain ⟨G, ST, rfl, hST, hshape, hm, hhook, huser⟩ := hsel
  exact functionsLoop_establishes E P Debug (fun S => ∃ v, (id, v) ∈ S.FieldReads)
    (Instruction.GEP G)
    (fun Sa Sb hv =>
      ⟨_, visitInstruction_records_FieldReads E P Debug G ST id Sa Sb hST hshape hm hhook
        huser hv⟩)
    (fun J Sa Sb hv hS => visitInstruction_keeps_FieldReads_key E P Debug id J Sa Sb hv hS)
    (fun _ _ hS => hS) Mod Collected.empty S h hin

theorem collect_last_FieldReads (E : RegexEngine) (P : PolicyFileData) (Debug : DebugInfo)
    (Fs1 Fs2 : List FunctionDef) (Fn : Function) (pre post : List Instruction)
    (GEP : GetElementPtrInst) (ST : StructType) (id : Nat) (S : Collected)
    (h : collect E P Debug (Fs1 ++ ⟨Fn, pre ++ Instruction.GEP GEP :: post⟩ :: Fs2) = some S)
    (hST : asStructType GEP.SourceElementType = some ST) (hshape : hasFieldShape GEP)
    (hm : StructTypeMatters E P ST = some true)
    (hhook : FieldReadHook E P ST (Debug.FieldName GEP) = some true)
    (huser : User.Load id ∈ GEP.Users)
    (hlast : ∀ I, (I ∈ post ∨ ∃ F ∈ Fs2, I ∈ F.Insts) → ¬ selectsRead E P Debug I id) :
    (id, (GEP, Debug.FieldName GEP)) ∈ S.FieldReads := by
  unfold collect at h
  rw [functionsLoop_append] at h
  cases h1 : functionsLoop E P Debug Fs1 Collected.empty with
  | none => rw [h1] at h; exact absurd h (by simp)
  | some S1 =>
      rw [h1] at h
      simp only [Option.bind, functionsLoop] at h
      cases h2 : visitFunction E P Debug ⟨Fn, pre ++ Instruction.GEP GEP :: post⟩ S1 with
      | none => rw [h2] at h; exact absurd h (by simp)
      | some S2 =>
          rw [h2] at h
          simp only [visitFunction] at h2
          rw [instructionsLoop_append] at h2
          cases h3 : instructionsLoop E P Debug pre
              (if FnHooks E P Fn ≠ [] then
                { S1 with Functions := mapEmplace S1.Functions Fn (FnHooks E P Fn) }
              else S1) with
          | none => rw [h3] at h2; exact absurd h2 (by simp)
          | some Sa =>
              rw [h3] at h2
              simp only [Option.bind, instructionsLoop] at h2
              cases h4 : visitInstruction E P Debug (Instruction.GEP GEP) Sa with
              | none => rw [h4] at h2; exact absurd h2 (by simp)
              | some Sb =>
                  rw [h4] at h2
                  have hSb := visitInstruction_records_FieldReads E P Debug GEP ST id Sa Sb
                    hST hshape hm hhook huser h4
                  have hS2 := instructionsLoop_preserves E P Debug
                    (fun S => (id, (GEP, Debug.FieldName GEP)) ∈ S.FieldReads)
                    (fun I => ¬ selectsRead E P Debug I id)
                    (fun I Sx Sy hQ hv hS =>
                      visitInstruction_keeps_FieldReads_entry E P Debug _ I Sx Sy hQ hv hS)
                    post Sb S2 (fun I hI => hlast I (Or.inl hI)) h2 hSb
                  exact functionsLoop_preserves E P Debug
                    (fun S => (id, (GEP, Debug.FieldName GEP)) ∈ S.FieldReads)
                    (fun I => ¬ selectsRead E P Debug I id)
                    (fun I Sx Sy hQ hv hS =>
                      visitInstruction_keeps_FieldReads_entry E P Debug _ I Sx Sy hQ hv hS)
                    (fun _ _ hS => hS)
                    Fs2 S2 S (fun F hF I hI => hlast I (Or.inr ⟨F, hF, hI⟩)) h hS2

theorem visitInstruction_keeps_FieldWrites_key (E : RegexEngine) (P : PolicyFileData)
    (Debug : DebugInfo) (id : Nat) (I : Instruction) (S S2 : Collected)
    (h : visitInstruction E P Debug I S = some S2)
    (hS : ∃ v, (id, v) ∈ S.FieldWrites) : ∃ v, (id, v) ∈ S2.FieldWrites := by
  obtain ⟨v, hv⟩ := hS
  cases I with
  | GEP G =>
      rcases visitInstruction_GEP_cases E P Debug G S S2 h with rfl |
        ⟨ST, r, w, _, _, _, _, _, _, rfl⟩
      · exact ⟨v, hv⟩
      · by_cases hover : w = true ∧ User.Store id ∈ G.Users
        · exact ⟨_, (mem_usesLoop_FieldWrites _ _ _ _ _ _ _).2 (Or.inl ⟨hover.1, id, hover.2, rfl⟩)⟩
        · exact ⟨v, (mem_usesLoop_FieldWrites _ _ _ _ _ _ _).2 (Or.inr ⟨hv, hover⟩)⟩
  | Call c Target =>
      rw [visitInstruction_Call] at h
      cases Target with
      | none =>
          rw [← Option.some.inj h]
          exact ⟨v, hv⟩
      | some T =>
          rw [← Option.some.inj h]
          by_cases hd : CallHooks E P T ≠ []
          · rw [if_pos hd]
            exact ⟨v, hv⟩
          · rw [if_neg hd]
            exact ⟨v, hv⟩
  | Load l =>
      have : S2 = S := (Option.some.inj h).symm
      rw [this]
      exact ⟨v, hv⟩
  | Store l =>
      have : S2 = S := (Option.some.inj h).symm
      rw [this]
      exact ⟨v, hv⟩
  | Other l =>
      have : S2 = S := (Option.some.inj h).symm
      rw [this]
      exact ⟨v, hv⟩

theorem visitInstruction_keeps_FieldWrites_entry (E : RegexEngine) (P : PolicyFileData)
    (Debug : DebugInfo) (e : Nat × FieldGEP) (I : Instruction) (S S2 : Collected)
    (hQ : ¬ selectsWrite E P Debug I e.1)
    (h : visitInstruction E P Debug I S = some S2)
    (hS : e ∈ S.FieldWrites) : e ∈ S2.FieldWrites := by
  cases I with
  | GEP G =>
      rcases visitInstruction_GEP_cases E P Debug G S S2 h with rfl |
        ⟨ST, r, w, hST, hshape, hm, _, hr, hw, rfl⟩
      · exact hS
      · refine (mem_usesLoop_FieldWrites _ _ _ _ _ _ _).2 (Or.inr ⟨hS, ?_⟩)
        rintro ⟨hrt, huser⟩
        subst hrt
        exact hQ ⟨G, ST, rfl, hST, hshape, hm, hw, huser⟩
  | Call c Target =>
      rw [visitInstruction_Call] at h
      cases Target with
      | none =>
          rw [← Option.some.inj h]
          exact hS
      | some T =>
          rw [← Option.some.inj h]
          by_cases hd : CallHooks E P T ≠ []
          · rw [if_pos hd]
            exact hS
          · rw [if_neg hd]
            exact hS
  | Load l =>
      have : S2 = S := (Option.some.inj h).symm
      rw [this]
      exact hS
  | Store l =>
      have : S2 = S := (Option.some.inj h).symm
      rw [this]
      exact hS
  | Other l =>
      have : S2 = S := (Option.some.inj h).symm
      rw [this]
      exact hS

theorem visitInstruction_records_FieldWrites (E : RegexEngine) (P : PolicyFileData)
    (Debug : DebugInfo) (GEP : GetElementPtrInst) (ST : StructType) (id : Nat)
    (S S2 : Collected) (hST : asStructType GEP.SourceElementType = some ST)
    (hshape : hasFieldShape GEP) (hm : StructTypeMatters E P ST = some true)
    (hhook : FieldWriteHook E P ST (Debug.FieldName GEP) = some true)
    (huser : User.Store id ∈ GEP.Users)
    (h : visitInstruction E P Debug (Instruction.GEP GEP) S = some S2) :
    (id, (GEP, Debug.FieldName GEP)) ∈ S2.FieldWrites := by
  by_cases hname : Debug.FieldName GEP = ""
  · exfalso
    have hsh : ¬ (GEP.getNumIndices ≠ 2 ∨ GEP.hasAllConstantIndices = false) := by
      rintro (h1 | h1)
      · exact h1 hshape.1
      · rw [hshape.2] at h1
        exact absurd h1 (by decide)
    have hnone : visitInstruction E P Debug (Instruction.GEP GEP) S = none := by
      simp only [visitInstruction, hST]
      rw [if_neg hsh, hm]
      dsimp only
      rw [if_pos hname]
    rw [hnone] at h
    exact absurd h (by simp)
  · obtain ⟨r, w, hr, hw, hv⟩ := visitInstruction_GEP_selected E P Debug GEP ST S hST
      hshape.1 hshape.2 hm hname
    rw [hv] at h
    have hS2 : S2 = usesLoop GEP (Debug.FieldName GEP) r w GEP.Users S :=
      (Option.some.inj h).symm
    have hrt : w = true := by
      rw [hhook] at hw
      exact (Option.some.inj hw).symm
    rw [hS2]
    exact (mem_usesLoop_FieldWrites _ _ _ _ _ _ _).2 (Or.inl ⟨hrt, id, huser, rfl⟩)

theorem collect_records_FieldWrites (E : RegexEngine) (P : PolicyFileData)
    (Debug : DebugInfo) (Mod : IRModule) (S : Collected)
    (h : collect E P Debug Mod = some S) (I : Instruction) (id : Nat)
    (hin : inModule Mod I) (hsel : selectsWrite E P Debug I id) :
    ∃ v, (id, v) ∈ S.FieldWrites := by
  obtain ⟨G, ST, rfl, hST, hshape, hm, hhook, huser⟩ := hsel
  exact functionsLoop_establishes E P Debug (fun S => ∃ v, (id, v) ∈ S.FieldWrites)
    (Instruction.GEP G)
    (fun Sa Sb hv =>
      ⟨_, visitInstruction_records_FieldWrites E P Debug G ST id Sa Sb hST hshape hm hhook
        huser hv⟩)
    (fun J Sa Sb hv hS => visitInstruction_keeps_FieldWrites_key E P Debug id J Sa Sb hv hS)
    (fun _ _ hS => hS) Mod Collected.empty S h hin

theorem collect_last_FieldWrites (E : RegexEngine) (P : PolicyFileData) (Debug : DebugInfo)
    (Fs1 Fs2 : List FunctionDef) (Fn : Function) (pre post : List Instruction)
    (GEP : GetElementPtrInst) (ST : StructType) (id : Nat) (S : Collected)
    (h : collect E P Debug (Fs1 ++ ⟨Fn, pre ++ Instruction.GEP GEP :: post⟩ :: Fs2) = some S)
    (hST : asStructType GEP.SourceElementType = some ST) (hshape : hasFieldShape GEP)
    (hm : StructTypeMatters E P ST = some true)
    (hhook : FieldWriteHook E P ST (Debug.FieldName GEP) = some true)
    (huser : User.Store id ∈ GEP.Users)
    (hlast : ∀ I, (I ∈ post ∨ ∃ F ∈ Fs2, I ∈ F.Insts) → ¬ selectsWrite E P Debug I id) :
    (id, (GEP, Debug.FieldName GEP)) ∈ S.FieldWrites := by
  unfold collect at h
  rw [functionsLoop_append] at h
  cases h1 : functionsLoop E P Debug Fs1 Collected.empty with
  | none => rw [h1] at h; exact absurd h (by simp)
  | some S1 =>
      rw [h1] at h
      simp only [Option.bind, functionsLoop] at h
      cases h2 : visitFunction E P Debug ⟨Fn, pre ++ Instruction.GEP GEP :: post⟩ S1 with
      | none => rw [h2] at h; exact absurd h (by simp)
      | some S2 =>
          rw [h2] at h
          simp only [visitFunction] at h2
          rw [instructionsLoop_append] at h2
          cases h3 : instructionsLoop E P Debug pre
              (if FnHooks E P Fn ≠ [] then
                { S1 with Functions := mapEmplace S1.Functions Fn (FnHooks E P Fn) }
              else S1) with
          | none => rw [h3] at h2; exact absurd h2 (by simp)
          | some Sa =>
              rw [h3] at h2
              simp only [Option.bind, instructionsLoop] at h2
              cases h4 : visitInstruction E P Debug (Instruction.GEP GEP) Sa with
              | none => rw [h4] at h2; exact absurd h2 (by simp)
              | some Sb =>
                  rw [h4] at h2
                  have hSb := visitInstruction_records_FieldWrites E P Debug GEP ST id Sa Sb
                    hST hshape hm hhook huser h4
                  have hS2 := instructionsLoop_preserves E P Debug
                    (fun S => (id, (GEP, Debug.FieldName GEP)) ∈ S.FieldWrites)
                    (fun I => ¬ selectsWrite E P Debug I id)
                    (fun I Sx Sy hQ hv hS =>
                      visitInstruction_keeps_FieldWrites_entry E P Debug _ I Sx Sy hQ hv hS)
                    post Sb S2 (fun I hI => hlast I (Or.inl hI)) h2 hSb
                  exact functionsLoop_preserves E P Debug
                    (fun S => (id, (GEP, Debug.FieldName GEP)) ∈ S.FieldWrites)
                    (fun I => ¬ selectsWrite E P Debug I id)
                    (fun I Sx Sy hQ hv hS =>
                      visitInstruction_keeps_FieldWrites_entry E P Debug _ I Sx Sy hQ hv hS)
                    (fun _ _ hS => hS)
                    Fs2 S2 S (fun F hF I hI => hlast I (Or.inr ⟨F, hF, hI⟩)) h hS2

theorem mapAssign_keys_nodup {K V : Type} [DecidableEq K] (m : List (K × V)) (k : K) (v : V)
    (h : (m.map Prod.fst).Nodup) : ((mapAssign m k v).map Prod.fst).Nodup := by
  unfold mapAssign
  by_cases hany : (m.any fun e => decide (e.1 = k)) = true
  · rw [if_pos hany, List.map_map]
    have hfun : ∀ e ∈ m, (Prod.fst ∘ fun e : K × V => if e.1 = k then (k, v) else e) e =
        Prod.fst e := by
      intro e _
      by_cases hek : e.1 = k
      · simp [hek]
      · simp [hek]
    rw [List.map_congr_left hfun]
    exact h
  · rw [if_neg hany, List.map_append]
    refine List.Nodup.append h (List.nodup_singleton _) ?_
    intro x hx hx2
    rw [List.map_singleton, List.mem_singleton] at hx2
    obtain ⟨e, he, hex⟩ := List.mem_map.1 hx
    exact hany (List.any_eq_true.2 ⟨e, he, decide_eq_true (hex.trans hx2)⟩)

theorem usesLoop_keys_nodup (GEP : GetElementPtrInst) (f : String) (r w : Bool) :
    ∀ (Users : List User) (S : Collected),
      (S.FieldReads.map Prod.fst).Nodup ∧ (S.FieldWrites.map Prod.fst).Nodup →
      ((usesLoop GEP f r w Users S).FieldReads.map Prod.fst).Nodup ∧
        ((usesLoop GEP f r w Users S).FieldWrites.map Prod.fst).Nodup := by
  intro Users
  induction Users with
  | nil => intro S h; exact h
  | cons U rest ih =>
      intro S h
      simp only [usesLoop]
      apply ih
      cases U with
      | Load l =>
          cases r with
          | true =>
              cases w with
              | true => exact ⟨mapAssign_keys_nodup _ _ _ h.1, h.2⟩
              | false => exact ⟨mapAssign_keys_nodup _ _ _ h.1, h.2⟩
          | false =>
              cases w with
              | true => exact h
              | false => exact h
      | Store l =>
          cases r with
          | true =>
              cases w with
              | true => exact ⟨h.1, mapAssign_keys_nodup _ _ _ h.2⟩
              | false => exact h
          | false =>
              cases w with
              | true => exact ⟨h.1, mapAssign_keys_nodup _ _ _ h.2⟩
              | false => exact h
      | Other l =>
          cases r with
          | true =>
              cases w with
              | true => exact h
              | false => exact h
          | false =>
              cases w with
              | true => exact h
              | false => exact h

theorem visitInstruction_keys_nodup (E : RegexEngine) (P : PolicyFileData)
    (Debug : DebugInfo) (I : Instruction) (S S2 : Collected)
    (h : visitInstruction E P Debug I S = some S2)
    (hS : (S.FieldReads.map Prod.fst).Nodup ∧ (S.FieldWrites.map Prod.fst).Nodup) :
    (S2.FieldReads.map Prod.fst).Nodup ∧ (S2.FieldWrites.map Prod.fst).Nodup := by
  cases I with
  | GEP G =>
      rcases visitInstruction_GEP_cases E P Debug G S S2 h with rfl |
        ⟨ST, r, w, _, _, _, _, _, _, rfl⟩
      · exact hS
      · exact usesLoop_keys_nodup _ _ _ _ _ _ hS
  | Call c Target =>
      rw [visitInstruction_Call] at h
      cases Target with
      | none =>
          rw [← Option.some.inj h]
          exact hS
      | some T =>
          rw [← Option.some.inj h]
          by_cases hd : CallHooks E P T ≠ []
          · rw [if_pos hd]
            exact hS
          · rw [if_neg hd]
            exact hS
  | Load l =>
      have : S2 = S := (Option.some.inj h).symm
      rw [this]
      exact hS
  | Store l =>
      have : S2 = S := (Option.some.inj h).symm
      rw [this]
      exact hS
  | Other l =>
      have : S2 = S := (Option.some.inj h).symm
      rw [this]
      exact hS

theorem collect_keys_nodup (E : RegexEngine) (P : PolicyFileData) (Debug : DebugInfo)
    (Mod : IRModule) (S : Collected) (h : collect E P Debug Mod = some S) :
    (S.FieldReads.map Prod.fst).Nodup ∧ (S.FieldWrites.map Prod.fst).Nodup :=
  collect_preserves E P Debug
    (fun S => (S.FieldReads.map Prod.fst).Nodup ∧ (S.FieldWrites.map Prod.fst).Nodup) Mod
    (fun I Sa Sb _ hv hS => visitInstruction_keys_nodup E P Debug I Sa Sb hv hS)
    (fun _ _ hS => hS) ⟨List.nodup_nil, List.nodup_nil⟩ S h

/-- C16 does not hold as stated.  In `l.cursor = &l.value` the store `22`
is a user of two GEPs that pass the shape test.  When the policy hooks writes
to both fields, the pass ends with one record for the store, that of the
later GEP (`cursor`): no record maps it to the GEP of `value` and the field
name `value`, although `FieldWriteHook(list, value)` is true.  When the
policy hooks writes to `value` only, the store is in `FieldWrites` although
it is a user of the GEP of `cursor`, for which `FieldWriteHook` is false. -/
theorem store_of_two_GEPs_keeps_one_record :
    User.Store 22 ∈ valueGEP.Users ∧ User.Store 22 ∈ cursorGEP.Users ∧
    StructTypeMatters llvmRegex listWritePolicy ⟨some "struct.list"⟩ = some true ∧
    FieldWriteHook llvmRegex listWritePolicy ⟨some "struct.list"⟩ "value" = some true ∧
    FieldWriteHook llvmRegex listWritePolicy ⟨some "struct.list"⟩ "cursor" = some true ∧
    collect llvmRegex listWritePolicy listDebug cursorModule =
      some ⟨[], [], [], [(22, (cursorGEP, "cursor"))]⟩ ∧
    StructTypeMatters llvmRegex valueWritePolicy ⟨some "struct.list"⟩ = some true ∧
    FieldWriteHook llvmRegex valueWritePolicy ⟨some "struct.list"⟩ "cursor" = some false ∧
    collect llvmRegex valueWritePolicy listDebug cursorModule =
      some ⟨[], [], [], [(22, (valueGEP, "value"))]⟩ := by
  decide

/-- C16 (amended): for a GEP that passes the shape test (a struct type for
which `StructTypeMatters` is true, two constant indices) with resolved field
name `f`, the driver's step for that GEP returns, leaves `Functions` and
`Calls` as they are, and makes `FieldReads` consist of the record
`load ↦ (GEP, f)` for every load among the users when
`FieldReadHook(struct, f)` is true, and of the earlier records of all other
keys; likewise `FieldWrites` with the stores and `FieldWriteHook`.  Users
that are neither loads nor stores get no record.  At the end of the pass a
load (respectively store) has a record exactly when it is among the users of
some such GEP of the module whose read (respectively write) hook is true;
there is one record for a load or store, it names such a GEP and its
resolved field name, and it is that of the last such GEP in program order: a record made for a GEP stays when no
later instruction is such a GEP with the same load or store among its
users. -/
theorem field_GEP_users_recorded (E : RegexEngine) (P : PolicyFileData) (Debug : DebugInfo) :
    (∀ (GEP : GetElementPtrInst) (ST : StructType) (S : Collected),
      asStructType GEP.SourceElementType = some ST → GEP.getNumIndices = 2 →
      GEP.hasAllConstantIndices = true → StructTypeMatters E P ST = some true →
      Debug.FieldName GEP ≠ "" →
      ∃ r w S2, FieldReadHook E P ST (Debug.FieldName GEP) = some r ∧
        FieldWriteHook E P ST (Debug.FieldName GEP) = some w ∧
        visitInstruction E P Debug (Instruction.GEP GEP) S = some S2 ∧
        S2.Functions = S.Functions ∧ S2.Calls = S.Calls ∧
        (∀ e, e ∈ S2.FieldReads ↔
          (r = true ∧ ∃ id, User.Load id ∈ GEP.Users ∧ e = (id, (GEP, Debug.FieldName GEP))) ∨
          (e ∈ S.FieldReads ∧ ¬ (r = true ∧ User.Load e.1 ∈ GEP.Users))) ∧
        (∀ e, e ∈ S2.FieldWrites ↔
          (w = true ∧ ∃ id, User.Store id ∈ GEP.Users ∧
            e = (id, (GEP, Debug.FieldName GEP))) ∨
          (e ∈ S.FieldWrites ∧ ¬ (w = true ∧ User.Store e.1 ∈ GEP.Users)))) ∧
    (∀ (Mod : IRModule) (S : Collected), collect E P Debug Mod = some S →
      (∀ e ∈ S.FieldReads, inModule Mod (Instruction.GEP e.2.1) ∧
        selectsRead E P Debug (Instruction.GEP e.2.1) e.1 ∧
        e.2.2 = Debug.FieldName e.2.1) ∧
      (∀ e ∈ S.FieldWrites, inModule Mod (Instruction.GEP e.2.1) ∧
        selectsWrite E P Debug (Instruction.GEP e.2.1) e.1 ∧
        e.2.2 = Debug.FieldName e.2.1) ∧
      (∀ (I : Instruction) (id : Nat), inModule Mod I → selectsRead E P Debug I id →
        ∃ v, (id, v) ∈ S.FieldReads) ∧
      (∀ (I : Instruction) (id : Nat), inModule Mod I → selectsWrite E P Debug I id →
        ∃ v, (id, v) ∈ S.FieldWrites) ∧
      (S.FieldReads.map Prod.fst).Nodup ∧ (S.FieldWrites.map Prod.fst).Nodup) ∧
    (∀ (Fs1 Fs2 : List FunctionDef) (Fn : Function) (pre post : List Instruction)
        (GEP : GetElementPtrInst) (id : Nat) (S : Collected),
      collect E P Debug (Fs1 ++ ⟨Fn, pre ++ Instruction.GEP GEP :: post⟩ :: Fs2) = some S →
      (selectsRead E P Debug (Instruction.GEP GEP) id →
        (∀ I, (I ∈ post ∨ ∃ F ∈ Fs2, I ∈ F.Insts) → ¬ selectsRead E P Debug I id) →
        (id, (GEP, Debug.FieldName GEP)) ∈ S.FieldReads) ∧
      (selectsWrite E P Debug (Instruction.GEP GEP) id →
        (∀ I, (I ∈ post ∨ ∃ F ∈ Fs2, I ∈ F.Insts) → ¬ selectsWrite E P Debug I id) →
        (id, (GEP, Debug.FieldName GEP)) ∈ S.FieldWrites)) := by
  refine ⟨?_, ?_, ?_⟩
  · intro GEP ST S hST hnum hconst hm hf
    obtain ⟨r, w, hr, hw, hv⟩ :=
      visitInstruction_GEP_selected E P Debug GEP ST S hST hnum hconst hm hf
    exact ⟨r, w, _, hr, hw, hv, usesLoop_Functions _ _ _ _ _ _, usesLoop_Calls _ _ _ _ _ _,
      fun e => mem_usesLoop_FieldReads _ _ _ _ _ _ e,
      fun e => mem_usesLoop_FieldWrites _ _ _ _ _ _ e⟩
  · intro Mod S h
    have hj := collect_FieldsJustified E P Debug Mod S h
    refine ⟨?_, ?_, ?_, ?_, (collect_keys_nodup E P Debug Mod S h).1,
      (collect_keys_nodup E P Debug Mod S h).2⟩
    · intro e he
      obtain ⟨hQ, hshape, huser, hname, ST, hST, hm, hhook⟩ := hj.1 e he
      refine ⟨hQ, ⟨e.2.1, ST, rfl, hST, hshape, hm, ?_, huser⟩, hname⟩
      rw [← hname]
      exact hhook
    · intro e he
      obtain ⟨hQ, hshape, huser, hname, ST, hST, hm, hhook⟩ := hj.2 e he
      refine ⟨hQ, ⟨e.2.1, ST, rfl, hST, hshape, hm, ?_, huser⟩, hname⟩
      rw [← hname]
      exact hhook
    · intro I id hin hsel
      exact collect_records_FieldReads E P Debug Mod S h I id hin hsel
    · intro I id hin hsel
      exact collect_records_FieldWrites E P Debug Mod S h I id hin hsel
  · intro Fs1 Fs2 Fn pre post GEP id S h
    constructor
    · rintro ⟨G, ST, hG, hST, hshape, hm, hhook, huser⟩ hlast
      have hGG : GEP = G := Instruction.GEP.inj hG
      subst hGG
      exact collect_last_FieldReads E P Debug Fs1 Fs2 Fn pre post GEP ST id S h hST hshape hm
        hhook huser hlast
    · rintro ⟨G, ST, hG, hST, hshape, hm, hhook, huser⟩ hlast
      have hGG : GEP = G := Instruction.GEP.inj hG
      subst hGG
      exact collect_last_FieldWrites E P Debug Fs1 Fs2 Fn pre post GEP ST id S h hST hshape hm
        hhook huser hlast

/-- C16 (amended) at the example programs.  Under a policy that hooks only
reads of `test_int`, of the three users of the GEP the load `11` is recorded
in `FieldReads` with that GEP and the field name, and the store `12` and the
other user `13` are recorded nowhere.  In `l.cursor = &l.value` under a
policy that hooks writes to both fields, the store `22` ends the pass with
the record of the later GEP. -/
theorem field_GEP_users_recorded_witness :
    (∃ r w S2, FieldReadHook llvmRegex intReadPolicy ⟨some "struct.test_struct"⟩
          (exampleDebug.FieldName intGEP) = some r ∧
        FieldWriteHook llvmRegex intReadPolicy ⟨some "struct.test_struct"⟩
          (exampleDebug.FieldName intGEP) = some w ∧
        visitInstruction llvmRegex intReadPolicy exampleDebug (Instruction.GEP intGEP)
          Collected.empty = some S2 ∧
        S2.Functions = Collected.empty.Functions ∧ S2.Calls = Collected.empty.Calls ∧
        (∀ e, e ∈ S2.FieldReads ↔
          (r = true ∧ ∃ id, User.Load id ∈ intGEP.Users ∧
            e = (id, (intGEP, exampleDebug.FieldName intGEP))) ∨
          (e ∈ Collected.empty.FieldReads ∧ ¬ (r = true ∧ User.Load e.1 ∈ intGEP.Users))) ∧
        (∀ e, e ∈ S2.FieldWrites ↔
          (w = true ∧ ∃ id, User.Store id ∈ intGEP.Users ∧
            e = (id, (intGEP, exampleDebug.FieldName intGEP))) ∨
          (e ∈ Collected.empty.FieldWrites ∧
            ¬ (w = true ∧ User.Store e.1 ∈ intGEP.Users)))) ∧
    visitInstruction llvmRegex intReadPolicy exampleDebug (Instruction.GEP intGEP)
      Collected.empty = some ⟨[], [], [(11, (intGEP, "test_int"))], []⟩ ∧
    (22, (cursorGEP, listDebug.FieldName cursorGEP)) ∈
      (⟨[], [], [], [(22, (cursorGEP, "cursor"))]⟩ : Collected).FieldWrites :=
  ⟨(field_GEP_users_recorded llvmRegex intReadPolicy exampleDebug).1 intGEP
      ⟨some "struct.test_struct"⟩ Collected.empty rfl (by decide) (by decide) (by decide)
      (by decide),
   by decide,
   ((field_GEP_users_recorded llvmRegex listWritePolicy listDebug).2.2 [] []
      ⟨"main", none⟩ [Instruction.GEP valueGEP] [Instruction.Store 22] cursorGEP 22
      ⟨[], [], [], [(22, (cursorGEP, "cursor"))]⟩ (by decide)).2
      ⟨cursorGEP, ⟨some "struct.list"⟩, rfl, rfl, ⟨by decide, by decide⟩, by decide,
        by decide, by decide⟩
      (by
        intro I hI
        rcases hI with hI | ⟨F, hF, _⟩
        · rw [List.mem_singleton] at hI
          subst hI
          rintro ⟨G, _, hG, _⟩
          exact absurd hG (by simp)
        · exact absurd hF (List.not_mem_nil _))⟩

/-- C18: whenever `FieldReadHook(T, f)` or `FieldWriteHook(T, f)` is true,
`StructTypeMatters(T)` is true; so when `StructTypeMatters(T)` is not true
neither hook is, and the driver's skip of a GEP whose struct type does not
matter leaves out no field access that the field hooks select. -/
theorem field_hook_implies_struct_type_matters (E : RegexEngine) (P : PolicyFileData)
    (T : StructType) (f : String) :
    ((FieldReadHook E P T f = some true ∨ FieldWriteHook E P T f = some true) →
      StructTypeMatters E P T = some true) ∧
    (StructTypeMatters E P T ≠ some true →
      FieldReadHook E P T f ≠ some true ∧ FieldWriteHook E P T f ≠ some true) ∧
    (∀ (Debug : DebugInfo) (GEP : GetElementPtrInst) (S : Collected),
      asStructType GEP.SourceElementType = some T → StructTypeMatters E P T = some false →
      visitInstruction E P Debug (Instruction.GEP GEP) S = some S ∧
        FieldReadHook E P T f ≠ some true ∧ FieldWriteHook E P T f ≠ some true) := by
  have key : ∀ Op, FieldHook E P Op T f = some true → StructTypeMatters E P T = some true := by
    intro Op h
    obtain ⟨hs, hloop⟩ := FieldHook_some_true E P Op T f h
    obtain ⟨S, hS, hmatch⟩ := FieldHookLoop_true_exists E _ f Op _ hloop
    have hn := hasName_of_struct_marker T hs
    have hl : StructTypeMattersLoop E (substr T.getName 7) P.Structures = true :=
      (StructTypeMattersLoop_iff E _ _).2 ⟨S, hS, hmatch⟩
    simp [StructTypeMatters, hn, hs, hl]
  have fwd : (FieldReadHook E P T f = some true ∨ FieldWriteHook E P T f = some true) →
      StructTypeMatters E P T = some true := by
    rintro (h | h)
    · exact key Operation.Read h
    · exact key Operation.Write h
  refine ⟨fwd, ?_, ?_⟩
  · intro hne
    exact ⟨fun h => hne (fwd (Or.inl h)), fun h => hne (fwd (Or.inr h))⟩
  · intro Debug GEP S hST hm
    have hne : StructTypeMatters E P T ≠ some true := by
      rw [hm]
      simp
    refine ⟨?_, fun h => hne (fwd (Or.inl h)), fun h => hne (fwd (Or.inr h))⟩
    simp only [visitInstruction, hST]
    by_cases hshape : GEP.getNumIndices ≠ 2 ∨ GEP.hasAllConstantIndices = false
    · rw [if_pos hshape]
    · rw [if_neg hshape, hm]

/-- C18 at concrete types: with a rule for `^test_struct$` the read hook is
true for `struct.test_struct` / `test_int` and so the type matters; the type
`struct.other` does not matter and neither hook is true for it. -/
theorem field_hook_implies_struct_type_matters_witness :
    StructTypeMatters llvmRegex intReadPolicy ⟨some "struct.test_struct"⟩ = some true ∧
    (FieldReadHook llvmRegex intReadPolicy ⟨some "struct.other"⟩ "test_int" ≠ some true ∧
      FieldWriteHook llvmRegex intReadPolicy ⟨some "struct.other"⟩ "test_int" ≠ some true) :=
  ⟨(field_hook_implies_struct_type_matters llvmRegex intReadPolicy
      ⟨some "struct.test_struct"⟩ "test_int").1 (Or.inl (by decide)),
   (field_hook_implies_struct_type_matters llvmRegex intReadPolicy
      ⟨some "struct.other"⟩ "test_int").2.1 (by decide)⟩

end Loom
